import Mathlib

/-!
# Command execution engine of the Xapian bindings: the document editor and the dispatcher

A shallow embedding of `c_src/common/xapian_core.cpp` (class `Driver`).

* The wrapped engine (`Xapian::Document`) is an external collaborator.  It is
  modelled here by its container contract: a document is a data string, a
  `std::map` from slot numbers to values and a `std::map` from term names to
  `(wdf, positions)`.  Maps are association lists kept in strictly ascending
  key order, which is what the engine's iterators (`termlist_begin`,
  `skip_to`, ...) walk over.  The model covers what the driver relies on:
  `add_term` and `add_posting` add to the frequency (this is how the driver's
  own `inc_wdf` raises it), `remove_posting` lowers it, and the `remove_*`
  methods throw `InvalidArgumentError` for what is not there (the driver
  catches exactly that).  Further argument checks inside the engine are
  outside the model.
* The driver functions are translated statement by statement; a C++ function
  that mutates `doc` and may throw becomes a function returning an `Effect`:
  the document as the call left it, and the exception raised, if any.
* The request reader `ParamDecoder` is a cursor over a list of bytes.  The
  numeric values of the tag enumerations are not in the sources; a `switch`
  over one of them goes through a `TagTable` (the commands of a loop that ends
  at a zero byte) or a `CaseTable` (a byte that is only switched over), which
  tells the case label a byte selects.  Loops that read until a zero byte, and
  the recursion of `buildQuery`, carry a bound (`fuel`) that the entry points
  set from the length of the buffer.
* A `Xapian::QueryParser` is a handle to a parser object.  `Handle.readParser`
  follows the handles, for copies that share the object and for copies that
  clone it; `readParser` gives the configuration of the parser returned, which
  is what `buildQuery` puts into a parsed leaf.
* The index (`Xapian::WritableDatabase`) is the map from document ids to
  documents.  A term list and a match set are given by the rows their
  iterators walk over, a term list in ascending order of the terms.
-/

namespace XapianErlang

/-! ## Errors -/

/-- Engine errors (`Xapian::Error` and its subclasses), by class. -/
inductive XapianError
  | InvalidArgumentError
  | InvalidOperationError
  | DocNotFoundError
  | DatabaseError
  deriving DecidableEq, Repr

/-- Driver errors (`DriverRuntimeError` and its subclasses).  `NotWritable`,
`Truncated` (a read past the end of the request) and `ResourceNotFound` (a
stale handle) are the kinds the specification's taxonomy names for errors
raised outside `xapian_core.cpp`; the others are the classes thrown in
`xapian_core.cpp`. -/
inductive DriverRuntimeError
  | BadCommandDriverError (tag : Nat)
  | BadArgumentDriverError
  | MemoryAllocationDriverError (size : Nat)
  | MatchSpyFinalizedDriverError
  | NotWritable
  | Truncated
  | ResourceNotFound
  deriving DecidableEq, Repr

/-- Whatever a driver function can throw: one of the two families that
`Driver::handleCommand` catches. -/
inductive Exception
  | driver (e : DriverRuntimeError)
  | xapian (e : XapianError)
  deriving DecidableEq, Repr

/-- Equality of outcomes can be decided when it can be for both kinds. -/
instance decEqExcept {ε α : Type} [DecidableEq ε] [DecidableEq α] :
    DecidableEq (Except ε α)
  | .ok a, .ok b =>
    if h : a = b then isTrue (by rw [h]) else isFalse (fun h2 => h (Except.ok.inj h2))
  | .error a, .error b =>
    if h : a = b then isTrue (by rw [h]) else isFalse (fun h2 => h (Except.error.inj h2))
  | .ok _, .error _ => isFalse (fun h => Except.noConfusion h)
  | .error _, .ok _ => isFalse (fun h => Except.noConfusion h)

/-! ## Ordered maps (`std::map`) as strictly ascending association lists -/

section OrderedMap

variable {κ : Type} {α : Type} [LinearOrder κ]

/-- Strictly ascending keys: the representation invariant of `std::map`. -/
def Ascending (l : List (κ × α)) : Prop :=
  l.Pairwise (fun a b => a.1 < b.1)

instance (l : List (κ × α)) : Decidable (Ascending l) := by
  unfold Ascending; infer_instance

/-- The iterator operation `skip_to(k)`: advance to the first entry whose key
is not below `k`. -/
def skip_to (k : κ) : List (κ × α) → List (κ × α)
  | [] => []
  | e :: rest => if e.1 < k then skip_to k rest else e :: rest

/-- The container lookup `std::map::find`. -/
def mapFind (k : κ) : List (κ × α) → Option α
  | [] => none
  | e :: rest => if e.1 = k then some e.2 else mapFind k rest

/-- The container assignment `map[k] = v`: replace the entry of `k`, or insert
it at its place in key order. -/
def mapInsert (k : κ) (v : α) : List (κ × α) → List (κ × α)
  | [] => [(k, v)]
  | e :: rest =>
    if k < e.1 then (k, v) :: e :: rest
    else if k = e.1 then (k, v) :: rest
    else e :: mapInsert k v rest

/-- The container removal `std::map::erase(k)`. -/
def mapErase (k : κ) : List (κ × α) → List (κ × α)
  | [] => []
  | e :: rest => if e.1 = k then mapErase k rest else e :: mapErase k rest

end OrderedMap

/-! ## Engine model: `Xapian::Document` -/

/-- A `std::string`: a sequence of bytes, ordered lexicographically by byte
value (the order of `std::map<std::string, ...>` and of the term list). -/
abbrev Str : Type := List Nat

/-- The bytes of an ASCII literal, for writing concrete documents. -/
def str (s : String) : Str := s.toList.map Char.toNat


/-- Width of `Xapian::termcount`, `Xapian::termpos` and `Xapian::valueno`. -/
def WORD : Nat := 2 ^ 32

/-- One entry of the document's term map (`OmDocumentTerm`): the
within-document frequency and the ascending list of positions. -/
structure OmDocumentTerm where
  wdf : Nat
  positions : List Nat
  deriving DecidableEq, Repr

/-- The term's `inc_wdf`: unsigned 32-bit addition. -/
def OmDocumentTerm.inc_wdf (t : OmDocumentTerm) (inc : Nat) : OmDocumentTerm :=
  { t with wdf := (t.wdf + inc) % WORD }

/-- The term's `dec_wdf`: the frequency never goes below zero. -/
def OmDocumentTerm.dec_wdf (t : OmDocumentTerm) (dec : Nat) : OmDocumentTerm :=
  { t with wdf := if t.wdf ≤ dec then 0 else t.wdf - dec }

/-- The term's `add_position`: positions are a sorted set. -/
def OmDocumentTerm.add_position (t : OmDocumentTerm) (tpos : Nat) : OmDocumentTerm :=
  if tpos ∈ t.positions then t
  else { t with positions := t.positions.orderedInsert (· ≤ ·) tpos }

/-- The term's `remove_position`: `none` stands for the engine's
`InvalidArgumentError` when the position is not in the list. -/
def OmDocumentTerm.remove_position (t : OmDocumentTerm) (tpos : Nat) : Option OmDocumentTerm :=
  if tpos ∈ t.positions then some { t with positions := t.positions.erase tpos }
  else none

/-- A `Xapian::Document`: data, values by slot, terms by name. -/
structure Document where
  data : Str
  values : List (Nat × Str)
  terms : List (Str × OmDocumentTerm)
  deriving DecidableEq, Repr

namespace Document

/-- A freshly constructed `Xapian::Document`. -/
def empty : Document := { data := [], values := [], terms := [] }

/-- Representation invariant of the engine's containers: both maps in strictly
ascending key order, every position list strictly ascending, every frequency
a 32-bit count. -/
def WF (doc : Document) : Prop :=
  Ascending doc.terms ∧ Ascending doc.values ∧
    ∀ e ∈ doc.terms, e.2.positions.Pairwise (· < ·) ∧ e.2.wdf < WORD

instance (doc : Document) : Decidable doc.WF := by
  unfold WF; infer_instance

/-- Engine: `Document::set_data`. -/
def set_data (doc : Document) (data : Str) : Document :=
  { doc with data := data }

/-- Engine: `Document::get_value`; an absent slot reads as the empty string. -/
def get_value (doc : Document) (slot : Nat) : Str :=
  (mapFind slot doc.values).getD []

/-- Engine: `Document::add_value`; the new value replaces any value in the
slot, and an empty value removes it. -/
def add_value (doc : Document) (slot : Nat) (value : Str) : Document :=
  if value = [] then { doc with values := mapErase slot doc.values }
  else { doc with values := mapInsert slot value doc.values }

/-- Engine: `Document::remove_value`; `InvalidArgumentError` when the slot
holds no value. -/
def remove_value (doc : Document) (slot : Nat) : Except XapianError Document :=
  match mapFind slot doc.values with
  | none => .error .InvalidArgumentError
  | some _ => .ok { doc with values := mapErase slot doc.values }

/-- Engine: `Document::clear_values`. -/
def clear_values (doc : Document) : Document := { doc with values := [] }

/-- Engine: `Document::add_term(tname, wdfinc)`; a new term starts with
frequency `wdfinc` and no positions, an existing term has `wdfinc` added to
its frequency and keeps its positions. -/
def add_term (doc : Document) (tname : Str) (wdfinc : Nat) : Document :=
  match mapFind tname doc.terms with
  | none =>
    { doc with terms := mapInsert tname { wdf := wdfinc, positions := [] } doc.terms }
  | some t =>
    { doc with terms := mapInsert tname (t.inc_wdf wdfinc) doc.terms }

/-- Engine: `Document::add_posting(tname, tpos, wdfinc)`; records the position
and adds `wdfinc` to the frequency, creating the term when needed. -/
def add_posting (doc : Document) (tname : Str) (tpos wdfinc : Nat) : Document :=
  match mapFind tname doc.terms with
  | none =>
    { doc with terms :=
        mapInsert tname { wdf := wdfinc, positions := [tpos] } doc.terms }
  | some t =>
    { doc with terms :=
        mapInsert tname ((t.add_position tpos).inc_wdf wdfinc) doc.terms }

/-- Engine: `Document::remove_term`; `InvalidArgumentError` when the term is
not in the document. -/
def remove_term (doc : Document) (tname : Str) : Except XapianError Document :=
  match mapFind tname doc.terms with
  | none => .error .InvalidArgumentError
  | some _ => .ok { doc with terms := mapErase tname doc.terms }

/-- Engine: `Document::remove_posting(tname, tpos, wdfdec)`;
`InvalidArgumentError` when the term is absent or does not occur at `tpos`;
otherwise the position is removed and the frequency lowered by `wdfdec`. -/
def remove_posting (doc : Document) (tname : Str) (tpos wdfdec : Nat) :
    Except XapianError Document :=
  match mapFind tname doc.terms with
  | none => .error .InvalidArgumentError
  | some t =>
    match t.remove_position tpos with
    | none => .error .InvalidArgumentError
    | some t1 =>
      .ok { doc with terms := mapInsert tname (t1.dec_wdf wdfdec) doc.terms }

/-- Engine: `Document::clear_terms`. -/
def clear_terms (doc : Document) : Document := { doc with terms := [] }

/-- Engine: the range `termlist_begin() .. termlist_end()`. -/
def termlist_begin (doc : Document) : List (Str × OmDocumentTerm) := doc.terms

/-- Engine: the range `values_begin() .. values_end()`. -/
def values_begin (doc : Document) : List (Nat × Str) := doc.values

/-- The entry of a term in the document's term map, if the term is there. -/
def term (doc : Document) (tname : Str) : Option OmDocumentTerm :=
  mapFind tname doc.terms

/-- The stored value of a slot, if the slot is occupied. -/
def value (doc : Document) (slot : Nat) : Option Str :=
  mapFind slot doc.values

/-- The document `doc2` differs from `doc` at most in the entry of the term
`tname`: every other term, the values and the data are the same. -/
def agreesOff (doc doc2 : Document) (tname : Str) : Prop :=
  (∀ t2, t2 ≠ tname → doc2.term t2 = doc.term t2) ∧
    doc2.values = doc.values ∧ doc2.data = doc.data

end Document

/-- The engine's `PositionIterator::skip_to`. -/
def skip_to_pos (tpos : Nat) : List Nat → List Nat
  | [] => []
  | p :: rest => if p < tpos then skip_to_pos tpos rest else p :: rest

/-! ## The driver: document editor (`Driver::applyDocument` and its helpers) -/

/-- Tags of the edit operations, the case labels of `Driver::applyDocument`
(`enum fieldTypeIn`). -/
inductive fieldTypeIn
  | STEMMER | DATA | DELTA | TEXT
  | SET_TERM | ADD_TERM | UPDATE_TERM | REMOVE_TERM
  | ADD_VALUE | SET_VALUE | UPDATE_VALUE | REMOVE_VALUE
  | SET_POSTING | ADD_POSTING | UPDATE_POSTING | REMOVE_POSTING
  | SET_WDF | DEC_WDF
  | REMOVE_VALUES | REMOVE_TERMS | REMOVE_POSITIONS | REMOVE_TERM_POSITIONS
  deriving DecidableEq, Repr

/-- What a call on `Xapian::Document& doc` leaves behind: the document as it
is when the call returns or throws, and the exception thrown (`none` for a
normal return). -/
structure Effect where
  doc : Document
  raised : Option Exception
  deriving DecidableEq, Repr

/-- A normal return. -/
def Effect.done (doc : Document) : Effect := { doc := doc, raised := none }

/-- A `throw` of a driver error; the document is as it was at the throw. -/
def Effect.throw (doc : Document) (e : DriverRuntimeError) : Effect :=
  { doc := doc, raised := some (.driver e) }

/-- A call of an engine method that either mutates the document or throws
without touching it. -/
def Effect.engine (doc : Document) (r : Except XapianError Document) : Effect :=
  match r with
  | .ok doc1 => { doc := doc1, raised := none }
  | .error e => { doc := doc, raised := some (.xapian e) }

/-- The handler `catch (Xapian::InvalidArgumentError& e) {}`. -/
def Effect.catchInvalidArgument (r : Effect) : Effect :=
  match r.raised with
  | some (.xapian .InvalidArgumentError) => { r with raised := none }
  | _ => r

/-- The handlers `catch (Xapian::InvalidArgumentError& e) {}` followed by
`catch (BadCommandDriverError& e) {}`. -/
def Effect.catchInvalidArgumentOrBadCommand (r : Effect) : Effect :=
  match r.raised with
  | some (.xapian .InvalidArgumentError) => { r with raised := none }
  | some (.driver (.BadCommandDriverError _)) => { r with raised := none }
  | _ => r

/-- The source's `Driver::isTermExist`. -/
def isTermExist (doc : Document) (tname : Str) : Bool :=
  let iter := doc.termlist_begin
  if iter.isEmpty then false
  else
    match skip_to tname iter with
    | [] => false
    | e :: _ => decide (e.1 = tname)

/-- The source's `Driver::getTermFrequency`: 0 when the term is not found. -/
def getTermFrequency (doc : Document) (tname : Str) : Nat :=
  let iter := doc.termlist_begin
  if iter.isEmpty then 0
  else
    match skip_to tname iter with
    | [] => 0
    | e :: _ => if tname = e.1 then e.2.wdf else 0

/-- The source's `Driver::getExistedTermFrequency`: `BadArgumentDriverError`
when the term is not found. -/
def getExistedTermFrequency (doc : Document) (tname : Str) :
    Except DriverRuntimeError Nat :=
  let iter := doc.termlist_begin
  if iter.isEmpty then .error .BadArgumentDriverError
  else
    match skip_to tname iter with
    | [] => .error .BadArgumentDriverError
    | e :: _ => if tname ≠ e.1 then .error .BadArgumentDriverError else .ok e.2.wdf

/-- The source's `Driver::isValueExist`. -/
def isValueExist (doc : Document) (slot_no : Nat) : Bool :=
  let iter := doc.values_begin
  if iter.isEmpty then false
  else
    match skip_to slot_no iter with
    | [] => false
    | e :: _ => decide (e.1 = slot_no)

/-- The source's `Driver::isPostingExist`. -/
def isPostingExist (doc : Document) (tname : Str) (term_pos : Nat) : Bool :=
  let titer := doc.termlist_begin
  if titer.isEmpty then false
  else
    match skip_to tname titer with
    | [] => false
    | e :: _ =>
      if e.1 = tname then
        let piter := e.2.positions
        if piter.isEmpty then false
        else
          match skip_to_pos term_pos piter with
          | [] => false
          | p :: _ => decide (p = term_pos)
      else false

/-- The source's `Driver::tryRemoveValue`. -/
def tryRemoveValue (doc : Document) (slot_no : Nat) (ignoreErrors : Bool) : Effect :=
  if ignoreErrors then
    (Effect.engine doc (doc.remove_value slot_no)).catchInvalidArgument
  else
    Effect.engine doc (doc.remove_value slot_no)

/-- The source's `Driver::tryRemoveTerm`. -/
def tryRemoveTerm (doc : Document) (tname : Str) (ignoreErrors : Bool) : Effect :=
  if ignoreErrors then
    (Effect.engine doc (doc.remove_term tname)).catchInvalidArgument
  else
    Effect.engine doc (doc.remove_term tname)

/-- The source's `Driver::tryRemovePosting`. -/
def tryRemovePosting (doc : Document) (tname : Str) (tpos wdf_inc : Nat)
    (ignoreErrors : Bool) : Effect :=
  if ignoreErrors then
    (Effect.engine doc (doc.remove_posting tname tpos wdf_inc)).catchInvalidArgument
  else
    Effect.engine doc (doc.remove_posting tname tpos wdf_inc)

/-- The tail shared by `handleTerm`, `handleValue` and `handlePosting`: on
`is_error` return silently (`ignore`) or throw `BadArgumentDriverError`,
otherwise run the engine call. -/
def finishEdit (doc : Document) (is_error ignore : Bool) (mutate : Document → Document) :
    Effect :=
  if is_error then
    if ignore then Effect.done doc
    else Effect.throw doc .BadArgumentDriverError
  else Effect.done (mutate doc)

/-- The source's `Driver::handleTerm`, after its three parameter reads
(`tname`, `wdf`, `ignore`).  The `REMOVE_TERM` case has no `break` on its
`else` branch and falls through into the `ADD_TERM` case; a tag without a case
label (`SET_TERM`) leaves `is_error` false. -/
def handleTerm (tname : Str) (wdf : Nat) (ignore : Bool) (command : fieldTypeIn)
    (doc : Document) : Effect :=
  let wdf_inc := wdf
  let caseAddTerm (is_error : Bool) : Bool :=
    if isTermExist doc tname then true else is_error
  let finish (is_error : Bool) : Effect :=
    finishEdit doc is_error ignore (fun d => d.add_term tname wdf_inc)
  match command with
  | .REMOVE_TERM =>
    if wdf_inc = 0 ∨ wdf_inc = getTermFrequency doc tname then
      tryRemoveTerm doc tname ignore
    else
      finish (caseAddTerm true)
  | .ADD_TERM => finish (caseAddTerm false)
  | .UPDATE_TERM => finish (if !isTermExist doc tname then true else false)
  | _ => finish false

/-- The source's `Driver::handleValue`, after its parameter reads (`slot`, the
value produced by `decodeValue`, `ignore`). -/
def handleValue (slot : Nat) (value : Str) (ignore : Bool) (command : fieldTypeIn)
    (doc : Document) : Effect :=
  let slot_no := slot
  let finish (is_error : Bool) : Effect :=
    finishEdit doc is_error ignore (fun d => d.add_value slot_no value)
  match command with
  | .REMOVE_VALUE =>
    if value = [] ∨ value = doc.get_value slot_no then
      tryRemoveValue doc slot_no ignore
    else
      Effect.done doc
  | .ADD_VALUE => finish (if isValueExist doc slot_no then true else false)
  | .UPDATE_VALUE => finish (if !isValueExist doc slot_no then true else false)
  | _ => finish false

/-- The source's `Driver::handlePosting`, after its parameter reads. -/
def handlePosting (tname : Str) (tpos wdf : Nat) (ignore : Bool)
    (command : fieldTypeIn) (doc : Document) : Effect :=
  let term_pos := tpos
  let wdf2 := wdf
  let finish (is_error : Bool) : Effect :=
    finishEdit doc is_error ignore (fun d => d.add_posting tname term_pos wdf2)
  match command with
  | .REMOVE_POSTING => tryRemovePosting doc tname term_pos wdf2 ignore
  | .ADD_POSTING => finish (if isPostingExist doc tname term_pos then true else false)
  | .UPDATE_POSTING =>
    finish (if !isPostingExist doc tname term_pos then true else false)
  | _ => finish false

/-- The members of the source's `class HellTermPosition` besides the document
reference: whether the sentinel position was there at construction, and the
term. -/
structure HellTermPosition where
  m_is_exist : Bool
  m_tname : Str
  deriving DecidableEq, Repr

namespace HellTermPosition

/-- The sentinel position `HELL_POS`. -/
def HELL_POS : Nat := 666

/-- The constructor: throws `BadArgumentDriverError` when the term is not in
the document. -/
def ctor (doc : Document) (tname : Str) : Except DriverRuntimeError HellTermPosition :=
  if !isTermExist doc tname then .error .BadArgumentDriverError
  else .ok { m_is_exist := isPostingExist doc tname HELL_POS, m_tname := tname }

/-- The method `dec_wdf`: add the sentinel posting with increment 0, then
remove it with decrement `wdf`. -/
def dec_wdf (h : HellTermPosition) (wdf : Nat) (doc : Document) : Effect :=
  let doc1 := doc.add_posting h.m_tname HELL_POS 0
  Effect.engine doc1 (doc1.remove_posting h.m_tname HELL_POS wdf)

/-- The method `inc_wdf`. -/
def inc_wdf (h : HellTermPosition) (wdf : Nat) (doc : Document) : Effect :=
  Effect.done (doc.add_term h.m_tname wdf)

/-- The method `set_wdf`. -/
def set_wdf (h : HellTermPosition) (wdf : Nat) (doc : Document) : Effect :=
  let old_wdf := getTermFrequency doc h.m_tname
  if old_wdf < wdf then h.inc_wdf (wdf - old_wdf) doc
  else if old_wdf > wdf then h.dec_wdf (old_wdf - wdf) doc
  else Effect.done doc

/-- The destructor: put the sentinel posting back when it was there at
construction. -/
def dtor (h : HellTermPosition) (doc : Document) : Document :=
  if h.m_is_exist then doc.add_posting h.m_tname HELL_POS 0 else doc

/-- A block `{ HellTermPosition hpos(doc, tname); body }`: when the
constructor throws nothing else runs; otherwise the destructor runs when the
block is left, by return or by exception. -/
def inScope (doc : Document) (tname : Str)
    (body : HellTermPosition → Document → Effect) : Effect :=
  match ctor doc tname with
  | .error e => Effect.throw doc e
  | .ok hpos =>
    let r := body hpos doc
    { doc := hpos.dtor r.doc, raised := r.raised }

end HellTermPosition

/-- The source's `Driver::tryDecreaseWDF`. -/
def tryDecreaseWDF (doc : Document) (tname : Str) (wdf : Nat) (ignoreErrors : Bool) :
    Effect :=
  if ignoreErrors then
    (HellTermPosition.inScope doc tname
      (fun hpos d => hpos.dec_wdf wdf d)).catchInvalidArgumentOrBadCommand
  else
    HellTermPosition.inScope doc tname (fun hpos d => hpos.dec_wdf wdf d)

/-- The source's `Driver::trySetWDF`. -/
def trySetWDF (doc : Document) (tname : Str) (wdf : Nat) (ignoreErrors : Bool) :
    Effect :=
  if ignoreErrors then
    (HellTermPosition.inScope doc tname
      (fun hpos d => hpos.set_wdf wdf d)).catchInvalidArgumentOrBadCommand
  else
    HellTermPosition.inScope doc tname (fun hpos d => hpos.set_wdf wdf d)

/-- The source's `Driver::clearTermPositions(doc, tname)`. -/
def clearTermPositions (doc : Document) (tname : Str) : Effect :=
  match getExistedTermFrequency doc tname with
  | .error e => Effect.throw doc e
  | .ok old_wdf =>
    match doc.remove_term tname with
    | .error e => { doc := doc, raised := some (.xapian e) }
    | .ok doc1 => Effect.done (doc1.add_term tname old_wdf)

/-- The source's `Driver::tryClearTermPositions`. -/
def tryClearTermPositions (doc : Document) (tname : Str) (ignoreErrors : Bool) :
    Effect :=
  if ignoreErrors then (clearTermPositions doc tname).catchInvalidArgument
  else clearTermPositions doc tname

/-- The source's `Driver::clearTermPositions(doc)`: remember every term's
frequency in a `std::map`, clear the terms, add each term back. -/
def clearAllTermPositions (doc : Document) : Document :=
  let map : List (Str × Nat) :=
    doc.termlist_begin.foldl (fun m e => mapInsert e.1 e.2.wdf m) []
  map.foldl (fun d e => d.add_term e.1 e.2) doc.clear_terms

/-! ## The driver: session state and the mutating commands -/

/-- The engine capability behind `m_wdb`: the `Xapian::WritableDatabase`
methods that the transaction and metadata commands call.  `W` is the state of
the engine's writable handle; what the engine does with a handle that was
never opened is the engine's business. -/
structure IndexEngine (W : Type) where
  begin_transaction : W → Except XapianError W
  cancel_transaction : W → Except XapianError W
  commit_transaction : W → Except XapianError W
  set_metadata : W → Str → Str → Except XapianError W

/-- The part of the `Driver` object that the mutating commands touch. -/
structure Driver (W : Type) where
  m_wdb : W
  m_number_of_databases : Nat

/-- The source's `Driver::assertWriteable`: its body is the empty block. -/
def assertWriteable {W : Type} (_d : Driver W) : Except Exception Unit :=
  .ok ()

/-- A call of a `m_wdb` method from a command. -/
def Driver.onWritable {W : Type} (d : Driver W) (r : Except XapianError W) :
    Except Exception (Driver W) :=
  match r with
  | .ok w => .ok { d with m_wdb := w }
  | .error e => .error (.xapian e)

/-- The source's `Driver::startTransaction`. -/
def startTransaction {W : Type} (E : IndexEngine W) (d : Driver W) :
    Except Exception (Driver W) :=
  match assertWriteable d with
  | .error e => .error e
  | .ok () => d.onWritable (E.begin_transaction d.m_wdb)

/-- The source's `Driver::cancelTransaction`. -/
def cancelTransaction {W : Type} (E : IndexEngine W) (d : Driver W) :
    Except Exception (Driver W) :=
  match assertWriteable d with
  | .error e => .error e
  | .ok () => d.onWritable (E.cancel_transaction d.m_wdb)

/-- The source's `Driver::commitTransaction`. -/
def commitTransaction {W : Type} (E : IndexEngine W) (d : Driver W) :
    Except Exception (Driver W) :=
  match assertWriteable d with
  | .error e => .error e
  | .ok () => d.onWritable (E.commit_transaction d.m_wdb)

/-- The source's `Driver::setMetadata`, after its two parameter reads. -/
def setMetadata {W : Type} (E : IndexEngine W) (key value : Str) (d : Driver W) :
    Except Exception (Driver W) :=
  match assertWriteable d with
  | .error e => .error e
  | .ok () => d.onWritable (E.set_metadata d.m_wdb key value)

/-! ## The driver: `handleCommand` and the reply -/

/-- The status byte `SUCCESS` of `enum errorCode`. -/
def SUCCESS : Nat := 0

/-- The status byte `ERROR` of `enum errorCode`. -/
def ERROR : Nat := 1

/-- Modelled from the spec: the reply writer `ResultEncoder`
(`result_encoder.h` is not among the sources): an append-only writer over an
in-memory byte buffer that never fails, and whose `reset` empties the
in-progress buffer. -/
structure ResultEncoder where
  buffer : List Nat
  deriving DecidableEq, Repr

namespace ResultEncoder

/-- A fresh reply buffer. -/
def fresh : ResultEncoder := { buffer := [] }

/-- The writer for one byte, `result << uint8_t`. -/
def put_uint8 (r : ResultEncoder) (v : Nat) : ResultEncoder :=
  { buffer := r.buffer ++ [v % 256] }

/-- Appending bytes already laid out. -/
def append (r : ResultEncoder) (bytes : List Nat) : ResultEncoder :=
  { buffer := r.buffer ++ bytes }

/-- The writer's `reset`. -/
def reset (_r : ResultEncoder) : ResultEncoder := { buffer := [] }

end ResultEncoder

/-- Declarations used by `handleCommand` that the sources do not contain: the
byte layout the writer gives a string and a 32-bit integer, and the texts
returned by an exception's `get_type()`, `what()` and `get_msg()`. -/
structure ReplyLayout where
  string : String → List Nat
  uint32 : Nat → List Nat
  get_type : Exception → String
  what : DriverRuntimeError → String
  get_msg : XapianError → String

/-- What the `switch (command)` inside `handleCommand` does with the reply:
the bytes the dispatched operation appended through `result << ...` up to the
point where it returned or threw, and the exception it threw, if any. -/
structure Dispatched where
  written : List Nat
  raised : Option Exception
  deriving DecidableEq, Repr

/-- The source's `Driver::handleCommand`: write the provisional `SUCCESS`
byte, run the dispatched operation, and on either kind of exception reset the
reply and write `ERROR`, the exception type and its message. -/
def handleCommand (L : ReplyLayout) (body : Dispatched) (result : ResultEncoder) :
    ResultEncoder :=
  let result := result.put_uint8 SUCCESS
  let result := result.append body.written
  match body.raised with
  | none => result
  | some (.driver e) =>
    let result := result.reset
    let result := result.put_uint8 ERROR
    let result := result.append (L.string (L.get_type (.driver e)))
    result.append (L.string (L.what e))
  | some (.xapian e) =>
    let result := result.reset
    let result := result.put_uint8 ERROR
    let result := result.append (L.string (L.get_type (.xapian e)))
    result.append (L.string (L.get_msg e))

/-- The source's `Driver::testException`, as dispatched by `TEST`: it writes
nothing and throws `MemoryAllocationDriverError(1000)`. -/
def testException : Dispatched :=
  { written := [], raised := some (.driver (.MemoryAllocationDriverError 1000)) }

/-- The source's `Driver::getLastDocId`, for the id the engine reports:
`result << static_cast<uint32_t>(docid)`. -/
def getLastDocId (L : ReplyLayout) (docid : Nat) : Dispatched :=
  { written := L.uint32 docid, raised := none }

/-- A command whose operation is one of the transaction commands: it writes
no payload and ends the way the operation ends. -/
def dispatchedOf {W : Type} (r : Except Exception (Driver W)) : Dispatched :=
  match r with
  | .ok _ => { written := [], raised := none }
  | .error e => { written := [], raised := some e }

/-! ## Wire codec: `ParamDecoder` -/

/-- Modelled from the spec: the request reader `ParamDecoder`
(`param_decoder.h` is not among the sources): a cursor over an immutable byte
buffer with typed reads, where a read past the end of the buffer fails with
`Truncated`.  The state is the unread rest of the buffer.  Integers have
fixed width (one byte, or four bytes with the low byte first), a boolean is
one byte (non-zero is true), a string is a 32-bit length followed by that many
bytes, a double is eight bytes. -/
abbrev ParamDecoder : Type := List Nat

/-- The outcome of a typed read: the value and the advanced cursor, or the
exception thrown. -/
abbrev Read (α : Type) : Type := Except Exception (α × ParamDecoder)

namespace ParamDecoder

/-- The conversion to `uint8_t`. -/
def uint8 (params : ParamDecoder) : Read Nat :=
  match params with
  | [] => .error (.driver .Truncated)
  | b :: rest => .ok (b % 256, rest)

/-- The conversion to `bool`. -/
def bool (params : ParamDecoder) : Read Bool :=
  match params with
  | [] => .error (.driver .Truncated)
  | b :: rest => .ok (decide (b % 256 ≠ 0), rest)

/-- The conversion to `uint32_t`. -/
def uint32 (params : ParamDecoder) : Read Nat :=
  match params with
  | a :: b :: c :: d :: rest =>
    .ok (a % 256 + 256 * (b % 256) + 65536 * (c % 256) + 16777216 * (d % 256), rest)
  | _ => .error (.driver .Truncated)

/-- The conversion to `std::string`. -/
def string (params : ParamDecoder) : Read Str :=
  match uint32 params with
  | .error e => .error e
  | .ok (len, rest) =>
    if rest.length < len then .error (.driver .Truncated)
    else .ok (rest.take len, rest.drop len)

/-- The conversion to `double`: the eight bytes as they are. -/
def double (params : ParamDecoder) : Read (List Nat) :=
  if params.length < 8 then .error (.driver .Truncated)
  else .ok (params.take 8, params.drop 8)

/-- The layout of a `uint8_t` in a request. -/
def putUInt8 (n : Nat) : List Nat := [n % 256]

/-- The layout of a `bool` in a request. -/
def putBool (b : Bool) : List Nat := [if b then 1 else 0]

/-- The layout of a `uint32_t` in a request. -/
def putUInt32 (n : Nat) : List Nat :=
  [n % 256, n / 256 % 256, n / 65536 % 256, n / 16777216 % 256]

/-- The layout of a string in a request. -/
def putString (s : Str) : List Nat := putUInt32 s.length ++ s

end ParamDecoder

/-- A `Xapian::Stem`, by the language it was built for. -/
structure Stem where
  language : Str
  deriving DecidableEq, Repr

/-- The conversion of the request reader to `Xapian::Stem`: the language name
is read as a string. -/
def ParamDecoder.stem (params : ParamDecoder) : Read Stem :=
  match ParamDecoder.string params with
  | .error e => .error e
  | .ok (language, rest) => .ok ({ language := language }, rest)

/-- The case labels of a `switch` over an enumeration whose numeric values the
sources do not give: `ofByte` tells which label, if any, a byte selects, and
`toByte` is the byte of a label.  Case labels of one `switch` are distinct,
and a tag is one non-zero byte (zero ends every tag-driven loop). -/
structure TagTable (τ : Type) where
  ofByte : Nat → Option τ
  toByte : τ → Nat
  ofByte_toByte : ∀ t, ofByte (toByte t) = some t
  toByte_pos : ∀ t, 0 < toByte t
  toByte_lt : ∀ t, toByte t < 256

/-- The case labels of a `switch` over an enumeration whose numeric values the
sources do not give, for a byte that is only switched over: `ofByte` tells
which label, if any, a byte selects, and `toByte` is the byte of a label.  A
label is selected by its own byte and by no other. -/
structure CaseTable (τ : Type) where
  ofByte : Nat → Option τ
  toByte : τ → Nat
  ofByte_toByte : ∀ t, ofByte (toByte t) = some t
  toByte_ofByte : ∀ b t, ofByte b = some t → toByte t = b
  toByte_lt : ∀ t, toByte t < 256

/-! ## The driver: parser features and stemming strategies -/

/-- The entries of the table `PARSER_FEATURES`: the literal `0` and the
engine's `Xapian::QueryParser::FLAG_*` constants. -/
inductive ParserFeature
  | ZERO
  | FLAG_BOOLEAN | FLAG_PHRASE | FLAG_LOVEHATE | FLAG_BOOLEAN_ANY_CASE
  | FLAG_WILDCARD | FLAG_PURE_NOT | FLAG_PARTIAL | FLAG_SPELLING_CORRECTION
  | FLAG_SYNONYM | FLAG_AUTO_SYNONYMS | FLAG_AUTO_MULTIWORD_SYNONYMS | FLAG_DEFAULT
  deriving DecidableEq, Repr

/-- The source's `Driver::PARSER_FEATURE_COUNT`. -/
def PARSER_FEATURE_COUNT : Nat := 13

/-- The source's `Driver::PARSER_FEATURES[PARSER_FEATURE_COUNT]`. -/
def PARSER_FEATURES : List ParserFeature :=
  [.ZERO, .FLAG_BOOLEAN, .FLAG_PHRASE, .FLAG_LOVEHATE, .FLAG_BOOLEAN_ANY_CASE,
   .FLAG_WILDCARD, .FLAG_PURE_NOT, .FLAG_PARTIAL, .FLAG_SPELLING_CORRECTION,
   .FLAG_SYNONYM, .FLAG_AUTO_SYNONYMS, .FLAG_AUTO_MULTIWORD_SYNONYMS, .FLAG_DEFAULT]

/-- The source's `Driver::idToParserFeature`.  The result of the array read
`PARSER_FEATURES[type]` is `none` when the index is past the last entry. -/
def idToParserFeature (type : Nat) : Except Exception (Option ParserFeature) :=
  if type > PARSER_FEATURE_COUNT then .error (.driver (.BadCommandDriverError type))
  else .ok PARSER_FEATURES[type]?

/-- The engine's `Xapian::QueryParser::stem_strategy`. -/
inductive stem_strategy
  | STEM_NONE | STEM_SOME | STEM_ALL
  deriving DecidableEq, Repr

/-- The source's `Driver::STEM_STRATEGY_COUNT`. -/
def STEM_STRATEGY_COUNT : Nat := 3

/-- The source's `Driver::STEM_STRATEGIES[STEM_STRATEGY_COUNT]`. -/
def STEM_STRATEGIES : List stem_strategy := [.STEM_NONE, .STEM_SOME, .STEM_ALL]

/-- The source's `Driver::readStemmingStrategy`.  The result of the array read
`STEM_STRATEGIES[type]` is `none` when the index is past the last entry. -/
def readStemmingStrategy (params : ParamDecoder) : Read (Option stem_strategy) :=
  match ParamDecoder.uint8 params with
  | .error e => .error e
  | .ok (type, params) =>
    if type > STEM_STRATEGY_COUNT then .error (.driver (.BadCommandDriverError type))
    else .ok (STEM_STRATEGIES[type]?, params)

/-- The source's `Driver::decodeParserFeatureFlags`: table entries are or-ed
into `flags` until the zero byte; the flags are kept as the list of entries
or-ed in.  The loop reads one byte per round, so `fuel` rounds are enough for
a buffer of at most `fuel` bytes; `none` means the fuel ran out. -/
def decodeParserFeatureFlagsLoop :
    Nat → List (Option ParserFeature) → ParamDecoder →
      Option (Read (List (Option ParserFeature)))
  | 0, _, _ => none
  | fuel + 1, flags, params =>
    match ParamDecoder.uint8 params with
    | .error e => some (.error e)
    | .ok (type, params) =>
      if type = 0 then some (.ok (flags, params))
      else
        match idToParserFeature type with
        | .error e => some (.error e)
        | .ok feature => decodeParserFeatureFlagsLoop fuel (flags ++ [feature]) params

/-- The source's `Driver::decodeParserFeatureFlags`. -/
def decodeParserFeatureFlags (params : ParamDecoder) :
    Option (Read (List (Option ParserFeature))) :=
  decodeParserFeatureFlagsLoop (params.length + 1) [] params

/-! ## The driver: `applyDocument` -/

/-- The engine's `Xapian::TermGenerator`, as far as the driver sets it: the
stemmer and the current term position. -/
structure TermGenerator where
  stemmer : Stem
  termpos : Nat
  deriving DecidableEq, Repr

/-- Engine: `TermGenerator::increase_termpos`. -/
def TermGenerator.increase_termpos (tg : TermGenerator) (delta : Nat) : TermGenerator :=
  { tg with termpos := (tg.termpos + delta) % WORD }

/-- The engine capabilities that the document editor calls besides the
`Xapian::Document` methods: `Xapian::sortable_serialise` on the eight bytes of
a double, and `TermGenerator::index_text`, which adds the terms of a text to
the generator's document and moves the generator on. -/
structure TextEngine where
  sortable_serialise : List Nat → Str
  index_text : TermGenerator → Document → Str → Nat → Str → TermGenerator × Document

/-- The type tags read by `Driver::decodeValue`. -/
inductive valueType
  | STRING_TYPE | DOUBLE_TYPE
  deriving DecidableEq, Repr

/-- What `applyDocument` and its helpers leave behind: the document, the
exception thrown (`none` for a normal return), and the request cursor. -/
structure Applied where
  doc : Document
  raised : Option Exception
  params : ParamDecoder
  deriving DecidableEq, Repr

/-- A parameter read inside an edit: a failed read throws, with the document
and the cursor as they were. -/
def withRead {α : Type} (doc : Document) (params : ParamDecoder) (r : Read α)
    (k : α → ParamDecoder → Applied) : Applied :=
  match r with
  | .error e => { doc := doc, raised := some e, params := params }
  | .ok (a, rest) => k a rest

/-- An edit whose parameters were read up to `params`. -/
def Applied.ofEffect (r : Effect) (params : ParamDecoder) : Applied :=
  { doc := r.doc, raised := r.raised, params := params }

/-- The source's `Driver::decodeValue`. -/
def decodeValue (E : TextEngine) (V : CaseTable valueType) (params : ParamDecoder) :
    Read Str :=
  match ParamDecoder.uint8 params with
  | .error e => .error e
  | .ok (type, params) =>
    match V.ofByte type with
    | some .STRING_TYPE => ParamDecoder.string params
    | some .DOUBLE_TYPE =>
      match ParamDecoder.double params with
      | .error e => .error e
      | .ok (d, params) => .ok (E.sortable_serialise d, params)
    | none => .error (.driver (.BadCommandDriverError type))

/-- The source's `Driver::handleTerm`, from its parameter reads on. -/
def handleTermFrom (params : ParamDecoder) (command : fieldTypeIn) (doc : Document) :
    Applied :=
  withRead doc params (ParamDecoder.string params) fun tname params =>
  withRead doc params (ParamDecoder.uint32 params) fun wdf params =>
  withRead doc params (ParamDecoder.bool params) fun ignore params =>
  Applied.ofEffect (handleTerm tname wdf ignore command doc) params

/-- The source's `Driver::handleValue`, from its parameter reads on. -/
def handleValueFrom (E : TextEngine) (V : CaseTable valueType) (params : ParamDecoder)
    (command : fieldTypeIn) (doc : Document) : Applied :=
  withRead doc params (ParamDecoder.uint32 params) fun slot params =>
  withRead doc params (decodeValue E V params) fun value params =>
  withRead doc params (ParamDecoder.bool params) fun ignore params =>
  Applied.ofEffect (handleValue slot value ignore command doc) params

/-- The source's `Driver::handlePosting`, from its parameter reads on. -/
def handlePostingFrom (params : ParamDecoder) (command : fieldTypeIn) (doc : Document) :
    Applied :=
  withRead doc params (ParamDecoder.string params) fun tname params =>
  withRead doc params (ParamDecoder.uint32 params) fun tpos params =>
  withRead doc params (ParamDecoder.uint32 params) fun wdf params =>
  withRead doc params (ParamDecoder.bool params) fun ignore params =>
  Applied.ofEffect (handlePosting tname tpos wdf ignore command doc) params

/-- One round of the `switch (command)` in `Driver::applyDocument`, for the
case label `command`. -/
def applyField (E : TextEngine) (V : CaseTable valueType) (command : fieldTypeIn)
    (termGenerator : TermGenerator) (doc : Document) (params : ParamDecoder) :
    TermGenerator × Applied :=
  match command with
  | .STEMMER =>
    match ParamDecoder.stem params with
    | .error e => (termGenerator, { doc := doc, raised := some e, params := params })
    | .ok (stemmer, params) =>
      ({ termGenerator with stemmer := stemmer },
       { doc := doc, raised := none, params := params })
  | .DATA =>
    (termGenerator,
     withRead doc params (ParamDecoder.string params) fun data params =>
       { doc := doc.set_data data, raised := none, params := params })
  | .DELTA =>
    match ParamDecoder.uint32 params with
    | .error e => (termGenerator, { doc := doc, raised := some e, params := params })
    | .ok (delta, params) =>
      (termGenerator.increase_termpos delta,
       { doc := doc, raised := none, params := params })
  | .TEXT =>
    match ParamDecoder.string params with
    | .error e => (termGenerator, { doc := doc, raised := some e, params := params })
    | .ok (text, params) =>
      match ParamDecoder.uint32 params with
      | .error e => (termGenerator, { doc := doc, raised := some e, params := params })
      | .ok (wdf_inc, params) =>
        match ParamDecoder.string params with
        | .error e => (termGenerator, { doc := doc, raised := some e, params := params })
        | .ok (pfx, params) =>
          ((E.index_text termGenerator doc text wdf_inc pfx).1,
           { doc := (E.index_text termGenerator doc text wdf_inc pfx).2
             raised := none, params := params })
  | .SET_TERM | .ADD_TERM | .UPDATE_TERM | .REMOVE_TERM =>
    (termGenerator, handleTermFrom params command doc)
  | .ADD_VALUE | .SET_VALUE | .UPDATE_VALUE | .REMOVE_VALUE =>
    (termGenerator, handleValueFrom E V params command doc)
  | .SET_POSTING | .ADD_POSTING | .UPDATE_POSTING | .REMOVE_POSTING =>
    (termGenerator, handlePostingFrom params command doc)
  | .SET_WDF | .DEC_WDF =>
    (termGenerator,
     withRead doc params (ParamDecoder.string params) fun tname params =>
     withRead doc params (ParamDecoder.uint32 params) fun wdf params =>
     withRead doc params (ParamDecoder.bool params) fun ignore params =>
       if command = .SET_WDF then
         Applied.ofEffect (trySetWDF doc tname wdf ignore) params
       else
         Applied.ofEffect (tryDecreaseWDF doc tname wdf ignore) params)
  | .REMOVE_VALUES =>
    (termGenerator, { doc := doc.clear_values, raised := none, params := params })
  | .REMOVE_TERMS =>
    (termGenerator, { doc := doc.clear_terms, raised := none, params := params })
  | .REMOVE_POSITIONS =>
    (termGenerator,
     { doc := clearAllTermPositions doc, raised := none, params := params })
  | .REMOVE_TERM_POSITIONS =>
    (termGenerator,
     withRead doc params (ParamDecoder.string params) fun tname params =>
     withRead doc params (ParamDecoder.bool params) fun ignore params =>
       Applied.ofEffect (tryClearTermPositions doc tname ignore) params)

/-- The `while (const uint8_t command = params)` loop of
`Driver::applyDocument`.  Every round reads the command byte, so `fuel` rounds
are enough for a buffer shorter than `fuel`; `none` means the fuel ran out. -/
def applyDocumentLoop (E : TextEngine) (F : TagTable fieldTypeIn)
    (V : CaseTable valueType) :
    Nat → TermGenerator → Document → ParamDecoder → Option Applied
  | 0, _, _, _ => none
  | fuel + 1, termGenerator, doc, params =>
    match ParamDecoder.uint8 params with
    | .error e => some { doc := doc, raised := some e, params := params }
    | .ok (command, params) =>
      if command = 0 then some { doc := doc, raised := none, params := params }
      else
        match F.ofByte command with
        | none =>
          some { doc := doc, raised := some (.driver (.BadCommandDriverError command))
                 params := params }
        | some tag =>
          match (applyField E V tag termGenerator doc params).2.raised with
          | some _ => some (applyField E V tag termGenerator doc params).2
          | none =>
            applyDocumentLoop E F V fuel
              (applyField E V tag termGenerator doc params).1
              (applyField E V tag termGenerator doc params).2.doc
              (applyField E V tag termGenerator doc params).2.params

/-- The source's `Driver::applyDocument`: a fresh term generator with the
session's default stemmer, then the loop. -/
def applyDocument (E : TextEngine) (F : TagTable fieldTypeIn) (V : CaseTable valueType)
    (m_default_stemmer : Stem) (params : ParamDecoder) (doc : Document) :
    Option Applied :=
  applyDocumentLoop E F V (params.length + 1)
    { stemmer := m_default_stemmer, termpos := 0 } doc params

/-! ## Edit programs, as the specification describes them -/

/-- The four actions of the term, value and posting operations. -/
inductive EditAction
  | set | add | update | remove
  deriving DecidableEq, Repr

/-- The tag of a term operation. -/
def EditAction.termTag : EditAction → fieldTypeIn
  | .set => .SET_TERM | .add => .ADD_TERM | .update => .UPDATE_TERM
  | .remove => .REMOVE_TERM

/-- The tag of a value operation. -/
def EditAction.valueTag : EditAction → fieldTypeIn
  | .set => .SET_VALUE | .add => .ADD_VALUE | .update => .UPDATE_VALUE
  | .remove => .REMOVE_VALUE

/-- The tag of a posting operation. -/
def EditAction.postingTag : EditAction → fieldTypeIn
  | .set => .SET_POSTING | .add => .ADD_POSTING | .update => .UPDATE_POSTING
  | .remove => .REMOVE_POSTING

/-- The value of a value operation as the client supplies it: a string, or
the eight bytes of a double. -/
inductive ValueArg
  | string (s : Str)
  | double (d : List Nat)
  deriving DecidableEq, Repr

/-- The stored form of a supplied value. -/
def ValueArg.stored (E : TextEngine) : ValueArg → Str
  | .string s => s
  | .double d => E.sortable_serialise d

/-- The variant `EditOperation` of the specification's data model. -/
inductive EditOperation
  | setStemmer (stemmer : Stem)
  | setData (data : Str)
  | advancePosition (delta : Nat)
  | indexText (text : Str) (wdf_inc : Nat) (pfx : Str)
  | term (action : EditAction) (tname : Str) (wdf : Nat) (ignore : Bool)
  | value (action : EditAction) (slot : Nat) (value : ValueArg) (ignore : Bool)
  | posting (action : EditAction) (tname : Str) (tpos wdf : Nat) (ignore : Bool)
  | setWordFrequency (tname : Str) (wdf : Nat) (ignore : Bool)
  | decreaseWordFrequency (tname : Str) (wdf : Nat) (ignore : Bool)
  | clearValues
  | clearTerms
  | clearAllPositions
  | clearPositionsOfTerm (tname : Str) (ignore : Bool)
  deriving DecidableEq, Repr

namespace EditOperation

/-- The tag an operation is sent under. -/
def tag : EditOperation → fieldTypeIn
  | setStemmer _ => .STEMMER
  | setData _ => .DATA
  | advancePosition _ => .DELTA
  | indexText _ _ _ => .TEXT
  | term action _ _ _ => action.termTag
  | value action _ _ _ => action.valueTag
  | posting action _ _ _ _ => action.postingTag
  | setWordFrequency _ _ _ => .SET_WDF
  | decreaseWordFrequency _ _ _ => .DEC_WDF
  | clearValues => .REMOVE_VALUES
  | clearTerms => .REMOVE_TERMS
  | clearAllPositions => .REMOVE_POSITIONS
  | clearPositionsOfTerm _ _ => .REMOVE_TERM_POSITIONS

/-- The typed fields that follow the tag. -/
def fields (V : CaseTable valueType) : EditOperation → List Nat
  | setStemmer stemmer => ParamDecoder.putString stemmer.language
  | setData data => ParamDecoder.putString data
  | advancePosition delta => ParamDecoder.putUInt32 delta
  | indexText text wdf_inc pfx =>
    ParamDecoder.putString text ++ ParamDecoder.putUInt32 wdf_inc ++
      ParamDecoder.putString pfx
  | term _ tname wdf ignore =>
    ParamDecoder.putString tname ++ ParamDecoder.putUInt32 wdf ++
      ParamDecoder.putBool ignore
  | value _ slot (.string s) ignore =>
    ParamDecoder.putUInt32 slot ++ V.toByte .STRING_TYPE :: ParamDecoder.putString s ++
      ParamDecoder.putBool ignore
  | value _ slot (.double d) ignore =>
    ParamDecoder.putUInt32 slot ++ V.toByte .DOUBLE_TYPE :: d ++
      ParamDecoder.putBool ignore
  | posting _ tname tpos wdf ignore =>
    ParamDecoder.putString tname ++ ParamDecoder.putUInt32 tpos ++
      ParamDecoder.putUInt32 wdf ++ ParamDecoder.putBool ignore
  | setWordFrequency tname wdf ignore =>
    ParamDecoder.putString tname ++ ParamDecoder.putUInt32 wdf ++
      ParamDecoder.putBool ignore
  | decreaseWordFrequency tname wdf ignore =>
    ParamDecoder.putString tname ++ ParamDecoder.putUInt32 wdf ++
      ParamDecoder.putBool ignore
  | clearValues => []
  | clearTerms => []
  | clearAllPositions => []
  | clearPositionsOfTerm tname ignore =>
    ParamDecoder.putString tname ++ ParamDecoder.putBool ignore

/-- The encoding of one operation: its tag byte, then its fields. -/
def encode (F : TagTable fieldTypeIn) (V : CaseTable valueType) (op : EditOperation) :
    List Nat :=
  F.toByte op.tag :: op.fields V

/-- An operation whose fields fit their wire types: 32-bit numbers, strings
shorter than 2^32 bytes, doubles of eight bytes. -/
def WellFormed : EditOperation → Prop
  | setStemmer stemmer => stemmer.language.length < WORD
  | setData data => data.length < WORD
  | advancePosition delta => delta < WORD
  | indexText text wdf_inc pfx => text.length < WORD ∧ wdf_inc < WORD ∧ pfx.length < WORD
  | term _ tname wdf _ => tname.length < WORD ∧ wdf < WORD
  | value _ slot (.string s) _ => slot < WORD ∧ s.length < WORD
  | value _ slot (.double d) _ => slot < WORD ∧ d.length = 8
  | posting _ tname tpos wdf _ => tname.length < WORD ∧ tpos < WORD ∧ wdf < WORD
  | setWordFrequency tname wdf _ => tname.length < WORD ∧ wdf < WORD
  | decreaseWordFrequency tname wdf _ => tname.length < WORD ∧ wdf < WORD
  | clearValues => True
  | clearTerms => True
  | clearAllPositions => True
  | clearPositionsOfTerm tname _ => tname.length < WORD

instance (op : EditOperation) : Decidable op.WellFormed := by
  cases op with
  | value action slot v ignore => cases v <;> (unfold WellFormed; infer_instance)
  | _ => unfold WellFormed; infer_instance

/-- The effect of one operation applied directly to a document, with the
term generator in hand. -/
def apply (E : TextEngine) (op : EditOperation) (termGenerator : TermGenerator)
    (doc : Document) : TermGenerator × Effect :=
  match op with
  | setStemmer stemmer => ({ termGenerator with stemmer := stemmer }, Effect.done doc)
  | setData data => (termGenerator, Effect.done (doc.set_data data))
  | advancePosition delta => (termGenerator.increase_termpos delta, Effect.done doc)
  | indexText text wdf_inc pfx =>
    ((E.index_text termGenerator doc text wdf_inc pfx).1,
     Effect.done (E.index_text termGenerator doc text wdf_inc pfx).2)
  | term action tname wdf ignore =>
    (termGenerator, handleTerm tname wdf ignore action.termTag doc)
  | value action slot v ignore =>
    (termGenerator, handleValue slot (v.stored E) ignore action.valueTag doc)
  | posting action tname tpos wdf ignore =>
    (termGenerator, handlePosting tname tpos wdf ignore action.postingTag doc)
  | setWordFrequency tname wdf ignore => (termGenerator, trySetWDF doc tname wdf ignore)
  | decreaseWordFrequency tname wdf ignore =>
    (termGenerator, tryDecreaseWDF doc tname wdf ignore)
  | clearValues => (termGenerator, Effect.done doc.clear_values)
  | clearTerms => (termGenerator, Effect.done doc.clear_terms)
  | clearAllPositions => (termGenerator, Effect.done (clearAllTermPositions doc))
  | clearPositionsOfTerm tname ignore =>
    (termGenerator, tryClearTermPositions doc tname ignore)

end EditOperation

/-- The encoding of a list of operations, one after the other. -/
def encodeOps (F : TagTable fieldTypeIn) (V : CaseTable valueType) :
    List EditOperation → List Nat
  | [] => []
  | op :: ops => op.encode F V ++ encodeOps F V ops

/-- The operations applied one by one, in order, to one document, stopping at
the first one that raises. -/
def applyOps (E : TextEngine) :
    List EditOperation → TermGenerator → Document → Effect
  | [], _, doc => Effect.done doc
  | op :: ops, termGenerator, doc =>
    match (op.apply E termGenerator doc).2.raised with
    | some _ => (op.apply E termGenerator doc).2
    | none =>
      applyOps E ops (op.apply E termGenerator doc).1 (op.apply E termGenerator doc).2.doc

/-! ## The driver: query parsers (`Driver::readParser`) -/

/-- One prefix added to a parser: by `add_prefix(field, prefix)` or by
`add_boolean_prefix(field, prefix, exclusive)`. -/
inductive PrefixEntry
  | plain (field pfx : Str)
  | boolean (field pfx : Str) (exclusive : Bool)
  deriving DecidableEq, Repr

/-- The configuration of a parser object (`Xapian::QueryParser::Internal`)
that the driver sets: the stemmer, the stemming strategy (`none` stands for a
strategy read past the end of `STEM_STRATEGIES`), the wildcard limit, the
default operator and the prefixes in the order they were added. -/
structure QueryParser where
  stemmer : Option Stem
  stemming_strategy : Option stem_strategy
  max_wildcard_expansion : Nat
  default_op : Nat
  prefixes : List PrefixEntry
  deriving DecidableEq, Repr

/-- The parser members of the `Driver` object, by the configuration they
carry: the source's default parser and empty parser (`m_default_` and
`m_empty_` followed by `parser`). -/
structure ParserState where
  m_parser_default : QueryParser
  m_parser_empty : QueryParser
  deriving DecidableEq, Repr

/-- The case labels of `Driver::readParser` (`enum queryParserCommand`). -/
inductive queryParserCommand
  | QP_STEMMER | QP_STEMMING_STRATEGY | QP_MAX_WILDCARD_EXPANSION | QP_DEFAULT_OP
  | QP_PARSER_TYPE | QP_PREFIX
  deriving DecidableEq, Repr

/-- The case labels of `Driver::selectParser` (`enum queryParserType`). -/
inductive queryParserType
  | QP_TYPE_DEFAULT | QP_TYPE_EMPTY
  deriving DecidableEq, Repr

/-- The source's `Driver::addPrefix`. -/
def addPrefix (params : ParamDecoder) (qp : QueryParser) : Read QueryParser :=
  match ParamDecoder.string params with
  | .error e => .error e
  | .ok (field, params) =>
    match ParamDecoder.string params with
    | .error e => .error e
    | .ok (pfx, params) =>
      match ParamDecoder.bool params with
      | .error e => .error e
      | .ok (is_boolean, params) =>
        match ParamDecoder.bool params with
        | .error e => .error e
        | .ok (is_exclusive, params) =>
          if is_boolean then
            .ok ({ qp with prefixes :=
                     qp.prefixes ++ [.boolean field pfx is_exclusive] }, params)
          else
            .ok ({ qp with prefixes := qp.prefixes ++ [.plain field pfx] }, params)

/-- The source's `Driver::selectParser`. -/
def selectParser (S : ParserState) (Ty : CaseTable queryParserType)
    (params : ParamDecoder) : Read QueryParser :=
  match ParamDecoder.uint8 params with
  | .error e => .error e
  | .ok (type, params) =>
    match Ty.ofByte type with
    | some .QP_TYPE_DEFAULT => .ok (S.m_parser_default, params)
    | some .QP_TYPE_EMPTY => .ok (S.m_parser_empty, params)
    | none => .error (.driver (.BadCommandDriverError type))

/-- One round of the `switch (command)` in `Driver::readParser`, for the case
label `command`, on the local parser `qp`. -/
def readParserCase (S : ParserState) (Ty : CaseTable queryParserType)
    (command : queryParserCommand) (qp : QueryParser) (params : ParamDecoder) :
    Read QueryParser :=
  match command with
  | .QP_PARSER_TYPE => selectParser S Ty params
  | .QP_STEMMER =>
    match ParamDecoder.stem params with
    | .error e => .error e
    | .ok (stemmer, params) => .ok ({ qp with stemmer := some stemmer }, params)
  | .QP_STEMMING_STRATEGY =>
    match readStemmingStrategy params with
    | .error e => .error e
    | .ok (strategy, params) => .ok ({ qp with stemming_strategy := strategy }, params)
  | .QP_MAX_WILDCARD_EXPANSION =>
    match ParamDecoder.uint32 params with
    | .error e => .error e
    | .ok (limit, params) => .ok ({ qp with max_wildcard_expansion := limit }, params)
  | .QP_DEFAULT_OP =>
    match ParamDecoder.uint8 params with
    | .error e => .error e
    | .ok (default_op, params) => .ok ({ qp with default_op := default_op }, params)
  | .QP_PREFIX => addPrefix params qp

/-- The `do { switch (command) ... } while ((command = params))` loop of
`Driver::readParser`.  Every round reads the next command byte, so `fuel`
rounds are enough for a buffer shorter than `fuel`; `none` means the fuel ran
out. -/
def readParserLoop (S : ParserState) (P : TagTable queryParserCommand)
    (Ty : CaseTable queryParserType) :
    Nat → QueryParser → Nat → ParamDecoder → Option (Read QueryParser)
  | 0, _, _, _ => none
  | fuel + 1, qp, command, params =>
    match P.ofByte command with
    | none => some (.error (.driver (.BadCommandDriverError command)))
    | some tag =>
      match readParserCase S Ty tag qp params with
      | .error e => some (.error e)
      | .ok (qp, params) =>
        match ParamDecoder.uint8 params with
        | .error e => some (.error e)
        | .ok (command, params) =>
          if command = 0 then some (.ok (qp, params))
          else readParserLoop S P Ty fuel qp command params

/-- The source's `Driver::readParser`, by the configuration of the parser it
returns: a zero first byte gives the configuration of the default parser;
otherwise the local `qp` starts with that configuration and goes through the
loop.  Which parser objects the calls write to is the subject of
`Handle.readParser` below. -/
def readParser (S : ParserState) (P : TagTable queryParserCommand)
    (Ty : CaseTable queryParserType) (params : ParamDecoder) :
    Option (Read QueryParser) :=
  match ParamDecoder.uint8 params with
  | .error e => some (.error e)
  | .ok (command, params) =>
    if command = 0 then some (.ok (S.m_parser_default, params))
    else readParserLoop S P Ty (params.length + 1) S.m_parser_default command params

/-! ## Engine model: `Xapian::QueryParser` as a handle to a parser object -/

/-- What the engine's copy constructor and assignment of `Xapian::QueryParser`
do with the parser object behind the handle: `share` for a copy that refers
to the same object (the class holds its internals through a reference-counted
pointer, as the engine's classes do: the driver relies on it when it reads
through `m_db` after `m_db = m_wdb`), `clone` for a copy that gets an object
of its own with the same configuration. -/
inductive CopySemantics
  | share | clone
  deriving DecidableEq, Repr

/-- The engine's parser objects: the object behind the handle `i` is entry
`i`. -/
abbrev ParserHeap : Type := List QueryParser

namespace ParserHeap

/-- A setter called through the handle `ref`: the object behind it
changes. -/
def update : ParserHeap → Nat → (QueryParser → QueryParser) → ParserHeap
  | [], _, _ => []
  | q :: heap, 0, f => f q :: heap
  | q :: heap, ref + 1, f => q :: update heap ref f

/-- A copy of the handle `ref`: the objects afterwards, and the handle the
copy holds. -/
def copy (K : CopySemantics) (heap : ParserHeap) (ref : Nat) : ParserHeap × Nat :=
  match K with
  | .share => (heap, ref)
  | .clone =>
    match heap[ref]? with
    | some q => (heap ++ [q], heap.length)
    | none => (heap, ref)

end ParserHeap

/-- The parser members of the `Driver` object as handles: the source's
default parser and empty parser. -/
structure ParserMembers where
  m_parser_default : Nat
  m_parser_empty : Nat
  deriving DecidableEq, Repr

namespace Handle

/-- What a call leaves behind: the parser objects, and what the call returned
(a handle and the advanced cursor) or threw. -/
structure Run where
  heap : ParserHeap
  result : Except Exception (Nat × ParamDecoder)
  deriving DecidableEq

/-- The source's `Driver::addPrefix(params, qp)`, with `qp` passed by
reference: the prefix is added to the object behind `qp`. -/
def addPrefix (heap : ParserHeap) (params : ParamDecoder) (qp : Nat) : Run :=
  match ParamDecoder.string params with
  | .error e => { heap := heap, result := .error e }
  | .ok (field, params) =>
    match ParamDecoder.string params with
    | .error e => { heap := heap, result := .error e }
    | .ok (pfx, params) =>
      match ParamDecoder.bool params with
      | .error e => { heap := heap, result := .error e }
      | .ok (is_boolean, params) =>
        match ParamDecoder.bool params with
        | .error e => { heap := heap, result := .error e }
        | .ok (is_exclusive, params) =>
          if is_boolean then
            { heap := heap.update qp (fun q =>
                { q with prefixes := q.prefixes ++ [.boolean field pfx is_exclusive] })
              result := .ok (qp, params) }
          else
            { heap := heap.update qp (fun q =>
                { q with prefixes := q.prefixes ++ [.plain field pfx] })
              result := .ok (qp, params) }

/-- The source's `Driver::selectParser`: `return m_default_parser;` and
`return m_empty_parser;` return a copy of the member. -/
def selectParser (K : CopySemantics) (Ty : CaseTable queryParserType)
    (M : ParserMembers) (heap : ParserHeap) (params : ParamDecoder) : Run :=
  match ParamDecoder.uint8 params with
  | .error e => { heap := heap, result := .error e }
  | .ok (type, params) =>
    match Ty.ofByte type with
    | some .QP_TYPE_DEFAULT =>
      { heap := (heap.copy K M.m_parser_default).1
        result := .ok ((heap.copy K M.m_parser_default).2, params) }
    | some .QP_TYPE_EMPTY =>
      { heap := (heap.copy K M.m_parser_empty).1
        result := .ok ((heap.copy K M.m_parser_empty).2, params) }
    | none => { heap := heap, result := .error (.driver (.BadCommandDriverError type)) }

/-- One round of the `switch (command)` in `Driver::readParser`, for the case
label `command`, with the local `qp` holding the handle `qp`.  The setters go
to the object behind `qp`; `qp = selectParser(params)` makes `qp` hold the
returned copy. -/
def readParserCase (K : CopySemantics) (Ty : CaseTable queryParserType)
    (M : ParserMembers) (heap : ParserHeap) (command : queryParserCommand) (qp : Nat)
    (params : ParamDecoder) : Run :=
  match command with
  | .QP_PARSER_TYPE => selectParser K Ty M heap params
  | .QP_STEMMER =>
    match ParamDecoder.stem params with
    | .error e => { heap := heap, result := .error e }
    | .ok (stemmer, params) =>
      { heap := heap.update qp (fun q => { q with stemmer := some stemmer })
        result := .ok (qp, params) }
  | .QP_STEMMING_STRATEGY =>
    match readStemmingStrategy params with
    | .error e => { heap := heap, result := .error e }
    | .ok (strategy, params) =>
      { heap := heap.update qp (fun q => { q with stemming_strategy := strategy })
        result := .ok (qp, params) }
  | .QP_MAX_WILDCARD_EXPANSION =>
    match ParamDecoder.uint32 params with
    | .error e => { heap := heap, result := .error e }
    | .ok (limit, params) =>
      { heap := heap.update qp (fun q => { q with max_wildcard_expansion := limit })
        result := .ok (qp, params) }
  | .QP_DEFAULT_OP =>
    match ParamDecoder.uint8 params with
    | .error e => { heap := heap, result := .error e }
    | .ok (default_op, params) =>
      { heap := heap.update qp (fun q => { q with default_op := default_op })
        result := .ok (qp, params) }
  | .QP_PREFIX => addPrefix heap params qp

/-- The `do { switch (command) ... } while ((command = params))` loop of
`Driver::readParser`, on handles.  When a round throws, the objects stay as
the rounds before it left them.  `none` means the fuel ran out. -/
def readParserLoop (K : CopySemantics) (P : TagTable queryParserCommand)
    (Ty : CaseTable queryParserType) (M : ParserMembers) :
    Nat → ParserHeap → Nat → Nat → ParamDecoder → Option Run
  | 0, _, _, _, _ => none
  | fuel + 1, heap, qp, command, params =>
    match P.ofByte command with
    | none =>
      some { heap := heap, result := .error (.driver (.BadCommandDriverError command)) }
    | some tag =>
      match (readParserCase K Ty M heap tag qp params).result with
      | .error e =>
        some { heap := (readParserCase K Ty M heap tag qp params).heap, result := .error e }
      | .ok (qp1, params1) =>
        match ParamDecoder.uint8 params1 with
        | .error e =>
          some { heap := (readParserCase K Ty M heap tag qp params).heap
                 result := .error e }
        | .ok (command1, params2) =>
          if command1 = 0 then
            some { heap := (readParserCase K Ty M heap tag qp params).heap
                   result := .ok (qp1, params2) }
          else
            readParserLoop K P Ty M fuel
              (readParserCase K Ty M heap tag qp params).heap qp1 command1 params2

/-- The source's `Driver::readParser`, on handles.  A zero first byte returns
a copy of the member `m_default_parser`; otherwise
`Xapian::QueryParser qp = m_default_parser;` makes the local `qp` a copy of
the member, the loop runs on `qp`, and `qp` is returned. -/
def readParser (K : CopySemantics) (P : TagTable queryParserCommand)
    (Ty : CaseTable queryParserType) (M : ParserMembers) (heap : ParserHeap)
    (params : ParamDecoder) : Option Run :=
  match ParamDecoder.uint8 params with
  | .error e => some { heap := heap, result := .error e }
  | .ok (command, params) =>
    if command = 0 then
      some { heap := (heap.copy K M.m_parser_default).1
             result := .ok ((heap.copy K M.m_parser_default).2, params) }
    else
      readParserLoop K P Ty M (params.length + 1) (heap.copy K M.m_parser_default).1
        (heap.copy K M.m_parser_default).2 command params

end Handle

/-! ## Parser programs, as the specification describes them -/

/-- One customisation of the parser mini-language. -/
inductive ParserCommand
  | setStemmer (stemmer : Stem)
  | setStemmingStrategy (strategy : stem_strategy)
  | setMaxWildcardExpansion (limit : Nat)
  | setDefaultOp (default_op : Nat)
  | selectParser (type : queryParserType)
  | addPrefix (field pfx : Str) (is_boolean is_exclusive : Bool)
  deriving DecidableEq, Repr

/-- The code of a stemming strategy: its index in `STEM_STRATEGIES`. -/
def stem_strategy.code : stem_strategy → Nat
  | .STEM_NONE => 0 | .STEM_SOME => 1 | .STEM_ALL => 2

namespace ParserCommand

/-- The tag a customisation is sent under. -/
def tag : ParserCommand → queryParserCommand
  | setStemmer _ => .QP_STEMMER
  | setStemmingStrategy _ => .QP_STEMMING_STRATEGY
  | setMaxWildcardExpansion _ => .QP_MAX_WILDCARD_EXPANSION
  | setDefaultOp _ => .QP_DEFAULT_OP
  | selectParser _ => .QP_PARSER_TYPE
  | addPrefix _ _ _ _ => .QP_PREFIX

/-- The typed fields that follow the tag. -/
def fields (Ty : CaseTable queryParserType) : ParserCommand → List Nat
  | setStemmer stemmer => ParamDecoder.putString stemmer.language
  | setStemmingStrategy strategy => ParamDecoder.putUInt8 strategy.code
  | setMaxWildcardExpansion limit => ParamDecoder.putUInt32 limit
  | setDefaultOp default_op => ParamDecoder.putUInt8 default_op
  | selectParser type => [Ty.toByte type]
  | addPrefix field pfx is_boolean is_exclusive =>
    ParamDecoder.putString field ++ ParamDecoder.putString pfx ++
      ParamDecoder.putBool is_boolean ++ ParamDecoder.putBool is_exclusive

/-- A customisation whose fields fit their wire types. -/
def WellFormed : ParserCommand → Prop
  | setStemmer stemmer => stemmer.language.length < WORD
  | setStemmingStrategy _ => True
  | setMaxWildcardExpansion limit => limit < WORD
  | setDefaultOp default_op => default_op < 256
  | selectParser _ => True
  | addPrefix field pfx _ _ => field.length < WORD ∧ pfx.length < WORD

instance (c : ParserCommand) : Decidable c.WellFormed := by
  cases c <;> (unfold WellFormed; infer_instance)

/-- The customisation applied to a parser: a setter changes its field,
`selectParser` replaces the parser by a copy of the session's default or empty
parser, `addPrefix` appends a prefix. -/
def apply (S : ParserState) (c : ParserCommand) (qp : QueryParser) : QueryParser :=
  match c with
  | setStemmer stemmer => { qp with stemmer := some stemmer }
  | setStemmingStrategy strategy => { qp with stemming_strategy := some strategy }
  | setMaxWildcardExpansion limit => { qp with max_wildcard_expansion := limit }
  | setDefaultOp default_op => { qp with default_op := default_op }
  | selectParser .QP_TYPE_DEFAULT => S.m_parser_default
  | selectParser .QP_TYPE_EMPTY => S.m_parser_empty
  | addPrefix field pfx true is_exclusive =>
    { qp with prefixes := qp.prefixes ++ [.boolean field pfx is_exclusive] }
  | addPrefix field pfx false _ =>
    { qp with prefixes := qp.prefixes ++ [.plain field pfx] }

end ParserCommand

/-- The encoding of a parser program: each customisation as its tag byte and
its fields, one after the other. -/
def encodeParserCommands (P : TagTable queryParserCommand)
    (Ty : CaseTable queryParserType) : List ParserCommand → List Nat
  | [] => []
  | c :: cs => P.toByte c.tag :: (c.fields Ty ++ encodeParserCommands P Ty cs)

/-- The customisation carried out through handles that share their object:
a setter changes the object behind the handle `st.2` among the objects
`st.1`, `selectParser` makes the handle the one of the session's default or
empty parser, `addPrefix` appends a prefix to the object behind the
handle. -/
def ParserCommand.applyShared (M : ParserMembers) (c : ParserCommand)
    (st : ParserHeap × Nat) : ParserHeap × Nat :=
  match c with
  | .setStemmer stemmer =>
    (st.1.update st.2 (fun q => { q with stemmer := some stemmer }), st.2)
  | .setStemmingStrategy strategy =>
    (st.1.update st.2 (fun q => { q with stemming_strategy := some strategy }), st.2)
  | .setMaxWildcardExpansion limit =>
    (st.1.update st.2 (fun q => { q with max_wildcard_expansion := limit }), st.2)
  | .setDefaultOp default_op =>
    (st.1.update st.2 (fun q => { q with default_op := default_op }), st.2)
  | .selectParser .QP_TYPE_DEFAULT => (st.1, M.m_parser_default)
  | .selectParser .QP_TYPE_EMPTY => (st.1, M.m_parser_empty)
  | .addPrefix field pfx true is_exclusive =>
    (st.1.update st.2 (fun q =>
      { q with prefixes := q.prefixes ++ [.boolean field pfx is_exclusive] }), st.2)
  | .addPrefix field pfx false _ =>
    (st.1.update st.2 (fun q => { q with prefixes := q.prefixes ++ [.plain field pfx] }),
     st.2)

/-! ## The driver: `buildQuery` -/

/-- The case labels of `Driver::buildQuery` (`enum queryType`). -/
inductive queryType
  | QUERY_GROUP | QUERY_VALUE | QUERY_VALUE_RANGE | QUERY_TERM | QUERY_PARSER
  | QUERY_SCALE_WEIGHT
  deriving DecidableEq, Repr

/-- A `Xapian::Query`, by the constructor call that made it: a combinator
over sub-queries, a value leaf, a value-range leaf, a term leaf, the result of
`parse_query`, or a sub-query with a scaled weight. -/
inductive Query
  | group (op : Nat) (subQueries : List Query) (parameter : Nat)
  | value (op slot : Nat) (value : Str)
  | valueRange (op slot : Nat) (lo hi : Str)
  | term (name : Str) (wqf pos : Nat)
  | parsed (parser : QueryParser) (query_string : Str)
      (flags : List (Option ParserFeature)) (default_pfx : Str)
  | scale (op : Nat) (sub_query : Query) (factor : List Nat)

/-- The loop `for (i = 0; i < subQueryCount; i++) push_back(buildQuery(params))`
over a given reader `build`. -/
def readMany {α : Type} (build : ParamDecoder → Option (Read α)) :
    Nat → ParamDecoder → Option (Read (List α))
  | 0, params => some (.ok ([], params))
  | n + 1, params =>
    match build params with
    | none => none
    | some (.error e) => some (.error e)
    | some (.ok (q, params)) =>
      match readMany build n params with
      | none => none
      | some (.error e) => some (.error e)
      | some (.ok (qs, params)) => some (.ok (q :: qs, params))

/-- The tag bytes `buildQuery` and the functions it calls switch over. -/
structure QueryTags where
  query : TagTable queryType
  parser : TagTable queryParserCommand
  parserType : CaseTable queryParserType

/-- The body of `Driver::buildQuery`, with `build` standing for the recursive
calls. -/
def buildNode (S : ParserState) (T : QueryTags)
    (build : ParamDecoder → Option (Read Query)) (params : ParamDecoder) :
    Option (Read Query) :=
  match ParamDecoder.uint8 params with
  | .error e => some (.error e)
  | .ok (type, params) =>
    match T.query.ofByte type with
    | some .QUERY_GROUP =>
      match ParamDecoder.uint8 params with
      | .error e => some (.error e)
      | .ok (op, params) =>
        match ParamDecoder.uint32 params with
        | .error e => some (.error e)
        | .ok (parameter, params) =>
          match ParamDecoder.uint32 params with
          | .error e => some (.error e)
          | .ok (subQueryCount, params) =>
            match readMany build subQueryCount params with
            | none => none
            | some (.error e) => some (.error e)
            | some (.ok (subQueries, params)) =>
              some (.ok (.group op subQueries parameter, params))
    | some .QUERY_VALUE =>
      match ParamDecoder.uint8 params with
      | .error e => some (.error e)
      | .ok (op, params) =>
        match ParamDecoder.uint32 params with
        | .error e => some (.error e)
        | .ok (slot, params) =>
          match ParamDecoder.string params with
          | .error e => some (.error e)
          | .ok (value, params) => some (.ok (.value op slot value, params))
    | some .QUERY_VALUE_RANGE =>
      match ParamDecoder.uint8 params with
      | .error e => some (.error e)
      | .ok (op, params) =>
        match ParamDecoder.uint32 params with
        | .error e => some (.error e)
        | .ok (slot, params) =>
          match ParamDecoder.string params with
          | .error e => some (.error e)
          | .ok (lo, params) =>
            match ParamDecoder.string params with
            | .error e => some (.error e)
            | .ok (hi, params) => some (.ok (.valueRange op slot lo hi, params))
    | some .QUERY_TERM =>
      match ParamDecoder.string params with
      | .error e => some (.error e)
      | .ok (name, params) =>
        match ParamDecoder.uint32 params with
        | .error e => some (.error e)
        | .ok (wqf, params) =>
          match ParamDecoder.uint32 params with
          | .error e => some (.error e)
          | .ok (pos, params) => some (.ok (.term name wqf pos, params))
    | some .QUERY_PARSER =>
      match readParser S T.parser T.parserType params with
      | none => none
      | some (.error e) => some (.error e)
      | some (.ok (parser, params)) =>
        match ParamDecoder.string params with
        | .error e => some (.error e)
        | .ok (query_string, params) =>
          match ParamDecoder.string params with
          | .error e => some (.error e)
          | .ok (default_pfx, params) =>
            match decodeParserFeatureFlags params with
            | none => none
            | some (.error e) => some (.error e)
            | some (.ok (flags, params)) =>
              some (.ok (.parsed parser query_string flags default_pfx, params))
    | some .QUERY_SCALE_WEIGHT =>
      match ParamDecoder.uint8 params with
      | .error e => some (.error e)
      | .ok (op, params) =>
        match ParamDecoder.double params with
        | .error e => some (.error e)
        | .ok (factor, params) =>
          match build params with
          | none => none
          | some (.error e) => some (.error e)
          | some (.ok (sub_query, params)) =>
            some (.ok (.scale op sub_query factor, params))
    | none => some (.error (.driver (.BadCommandDriverError type)))

/-- The source's `Driver::buildQuery` with a bound on the depth of the
recursion: `none` means the bound was reached. -/
def buildQueryFuel (S : ParserState) (T : QueryTags) :
    Nat → ParamDecoder → Option (Read Query)
  | 0, _ => none
  | fuel + 1, params => buildNode S T (buildQueryFuel S T fuel) params

/-- The source's `Driver::buildQuery`.  Every call reads its tag byte before
it recurses, so the depth of the recursion stays below the length of the
buffer plus one. -/
def buildQuery (S : ParserState) (T : QueryTags) (params : ParamDecoder) :
    Option (Read Query) :=
  buildQueryFuel S T (params.length + 1) params

/-- The bytes `node` are a well-formed encoded query: whatever follows them,
`buildQuery` returns `q` and leaves what follows unread. -/
def Decodes (S : ParserState) (T : QueryTags) (node : List Nat) (q : Query) : Prop :=
  ∀ rest, buildQuery S T (node ++ rest) = some (.ok (q, rest))

/-- The bytes `node` make `buildQuery` throw `e`, whatever follows them. -/
def Fails (S : ParserState) (T : QueryTags) (node : List Nat) (e : Exception) : Prop :=
  ∀ rest, buildQuery S T (node ++ rest) = some (.error e)

/-- The encoding of a combinator node that announces `count` children. -/
def encodeGroupHeader (T : QueryTags) (op parameter count : Nat) : List Nat :=
  T.query.toByte .QUERY_GROUP :: op ::
    (ParamDecoder.putUInt32 parameter ++ ParamDecoder.putUInt32 count)

/-- The encoding of a scaled-weight node over an already encoded child: the
tag, the operator byte, the eight bytes of the factor, and the child. -/
def encodeScale (T : QueryTags) (op : Nat) (factor child : List Nat) : List Nat :=
  T.query.toByte .QUERY_SCALE_WEIGHT :: op :: (factor ++ child)

/-- The input `node` leads `buildQuery` to a node tag `tag` that is not a
recognised query tag: as the tag of the node itself, or inside a combinator
node after well-formed children, or as the child of a scaled-weight node, at
any depth. -/
inductive ReadsUnknownTag (S : ParserState) (T : QueryTags) : List Nat → Nat → Prop
  | top (b : Nat) (h : T.query.ofByte (b % 256) = none) :
    ReadsUnknownTag S T [b] (b % 256)
  | inGroup (op parameter count : Nat) (before : List (List Nat × Query))
      (bad : List Nat) (tag : Nat) (hop : op < 256) (hpar : parameter < WORD)
      (hcount : count < WORD) (hlen : before.length < count)
      (hbefore : ∀ c ∈ before, Decodes S T c.1 c.2) (hbad : ReadsUnknownTag S T bad tag) :
    ReadsUnknownTag S T
      (encodeGroupHeader T op parameter count ++
        ((before.map (fun c => c.1)).flatten ++ bad)) tag
  | inScale (op : Nat) (factor bad : List Nat) (tag : Nat) (hop : op < 256)
      (hfactor : factor.length = 8) (hbad : ReadsUnknownTag S T bad tag) :
    ReadsUnknownTag S T (encodeScale T op factor bad) tag

/-- The encoding of a term leaf. -/
def encodeTerm (T : QueryTags) (name : Str) (wqf pos : Nat) : List Nat :=
  T.query.toByte .QUERY_TERM ::
    (ParamDecoder.putString name ++ (ParamDecoder.putUInt32 wqf ++
      ParamDecoder.putUInt32 pos))

/-! ## The driver: `matchSet` and the match spies -/

/-- Modelled from the spec: the handle registry `ObjectRegister`
(`object_register.h` is not among the sources): `put` stores an object under
the next handle of a counter that only grows, starting at 1; `get` fails with
`ResourceNotFound` for a handle that is not live. -/
structure ObjectRegister (α : Type) where
  elements : List (Nat × α)
  counter : Nat
  deriving DecidableEq, Repr

namespace ObjectRegister

/-- The registry's `get`. -/
def get {α : Type} (reg : ObjectRegister α) (num : Nat) : Except Exception α :=
  match mapFind num reg.elements with
  | some x => .ok x
  | none => .error (.driver .ResourceNotFound)

/-- The registry's `put`: the new handle and the registry holding the object. -/
def put {α : Type} (reg : ObjectRegister α) (x : α) : Nat × ObjectRegister α :=
  (reg.counter + 1,
   { elements := reg.elements ++ [(reg.counter + 1, x)], counter := reg.counter + 1 })

/-- A change made through the reference that `get` returned. -/
def set {α : Type} (reg : ObjectRegister α) (num : Nat) (x : α) : ObjectRegister α :=
  { reg with elements := reg.elements.map (fun e => if e.1 = num then (num, x) else e) }

end ObjectRegister

/-- Modelled from the spec: the state of a `SpyController` (`spy_ctrl.h` is
not among the sources) that `matchSet` looks at: whether the spy was consumed
by a match collection (`is_finalized`, set by `finalize`). -/
structure SpyController where
  finalized : Bool
  deriving DecidableEq, Repr

/-- Engine: the part of a `Xapian::Enquire` that `matchSet` changes: the
handles of the match spies attached by `add_matchspy` and dropped by
`clear_matchspies`. -/
structure Enquire where
  matchspies : List Nat
  deriving DecidableEq, Repr

/-- Engine: a `Xapian::MSet`, by the `get_mset` call that made it: its three
arguments and the spies attached to the enquire during the call. -/
structure MSet where
  first : Nat
  maxitems : Nat
  checkatleast : Nat
  spies : List Nat
  deriving DecidableEq, Repr

/-- The members of the `Driver` object that `matchSet` uses, and the document
count the engine reports for `m_db`. -/
structure MatchState where
  m_enquire_store : ObjectRegister Enquire
  m_match_spy_store : ObjectRegister SpyController
  m_mset_store : ObjectRegister MSet
  doccount : Nat
  deriving DecidableEq, Repr

/-- What a call of `matchSet` leaves behind: the session members, the bytes
written to the reply, and the exception thrown, if any. -/
structure MatchRun where
  state : MatchState
  written : List Nat
  raised : Option Exception
  deriving DecidableEq, Repr

/-- The throw of an exception out of `matchSet`. -/
def MatchRun.throw (M : MatchState) (e : Exception) : MatchRun :=
  { state := M, written := [], raised := some e }

/-- The end of `Driver::matchSet`, after its spy loop: collect the matches,
drop the spies from the enquire, register the result set and write its
handle. -/
def matchSetCollect (L : ReplyLayout) (M : MatchState) (enquire_num : Nat)
    (enquire : Enquire) (first maxitems checkatleast : Nat) : MatchRun :=
  let mset : MSet :=
    { first := first, maxitems := maxitems, checkatleast := checkatleast
      spies := enquire.matchspies }
  let enquire : Enquire := { enquire with matchspies := [] }
  let stored := M.m_mset_store.put mset
  { state :=
      { M with m_enquire_store := M.m_enquire_store.set enquire_num enquire
               m_mset_store := stored.2 }
    written := L.uint32 stored.1
    raised := none }

/-- The spy loop of `Driver::matchSet` and what follows it.  The body of
`while (const uint32_t num = params)` ends in an unconditional `break`, so the
loop reads one handle and runs at most one round. -/
def matchSetSpies (L : ReplyLayout) (M : MatchState) (enquire_num : Nat)
    (enquire : Enquire) (first maxitems checkatleast : Nat) (params : ParamDecoder) :
    MatchRun :=
  match ParamDecoder.uint32 params with
  | .error e => MatchRun.throw M e
  | .ok (num, _) =>
    if num = 0 then
      matchSetCollect L M enquire_num enquire first maxitems checkatleast
    else
      match M.m_match_spy_store.get num with
      | .error e => MatchRun.throw M e
      | .ok spy =>
        if !spy.finalized then
          let enquire : Enquire := { enquire with matchspies := enquire.matchspies ++ [num] }
          let M1 : MatchState :=
            { M with
                m_enquire_store := M.m_enquire_store.set enquire_num enquire
                m_match_spy_store := M.m_match_spy_store.set num { finalized := true } }
          matchSetCollect L M1 enquire_num enquire first maxitems checkatleast
        else
          MatchRun.throw M (.driver .MatchSpyFinalizedDriverError)

/-- The source's `Driver::matchSet`. -/
def matchSet (L : ReplyLayout) (M : MatchState) (params : ParamDecoder) : MatchRun :=
  match ParamDecoder.uint32 params with
  | .error e => MatchRun.throw M e
  | .ok (enquire_num, params) =>
    match M.m_enquire_store.get enquire_num with
    | .error e => MatchRun.throw M e
    | .ok enquire =>
      match ParamDecoder.uint32 params with
      | .error e => MatchRun.throw M e
      | .ok (first, params) =>
        match ParamDecoder.uint8 params with
        | .error e => MatchRun.throw M e
        | .ok (is_undefined, params) =>
          if is_undefined ≠ 0 then
            match ParamDecoder.uint32 params with
            | .error e => MatchRun.throw M e
            | .ok (checkatleast, params) =>
              matchSetSpies L M enquire_num enquire first M.doccount checkatleast params
          else
            match ParamDecoder.uint32 params with
            | .error e => MatchRun.throw M e
            | .ok (maxitems, params) =>
              match ParamDecoder.uint32 params with
              | .error e => MatchRun.throw M e
              | .ok (checkatleast, params) =>
                matchSetSpies L M enquire_num enquire first maxitems checkatleast params

/-- The request of `matchSet` for an enquire handle, with `maxitems` left
undefined, and a zero-terminated list of spy handles. -/
def encodeMatchSet (enquire_num first checkatleast : Nat) (spies : List Nat) : List Nat :=
  ParamDecoder.putUInt32 enquire_num ++ ParamDecoder.putUInt32 first ++ [1] ++
    ParamDecoder.putUInt32 checkatleast ++
    (spies.map ParamDecoder.putUInt32).flatten ++ ParamDecoder.putUInt32 0

/-! ## The driver: `qlcInit` -/

/-- The cursor kinds switched over by `Driver::qlcInit` (`QlcType`). -/
inductive QlcType
  | MSET | TERMS | SPY_TERMS
  deriving DecidableEq, Repr

/-- A registered cursor (`QlcTable`; `qlc_table.h` is not among the sources),
as far as `qlcInit` uses it: its kind, the resource it wraps, the captured
schema bytes and the number of rows it reports (`numOfObjects`). -/
structure QlcTable where
  kind : QlcType
  resource_num : Nat
  schema : List Nat
  numOfObjects : Nat
  deriving DecidableEq, Repr

/-- What a call of `qlcInit` leaves behind: the cursor registry, the bytes
written to the reply, and the exception thrown, if any. -/
structure QlcRun where
  m_qlc_store : ObjectRegister QlcTable
  written : List Nat
  raised : Option Exception
  deriving DecidableEq, Repr

/-- The source's `Driver::qlcInit`.  `build` stands for the body of a
recognised case up to the constructed table (resource lookup, schema capture,
`new MSetQlcTable` or `new TermQlcTable`); the table is then registered and
its handle and size are written.  The `default` case throws
`BadCommandDriverError(resource_type)`. -/
def qlcInit (L : ReplyLayout) (K : CaseTable QlcType)
    (build : QlcType → Nat → Nat → ParamDecoder → Except Exception QlcTable)
    (m_qlc_store : ObjectRegister QlcTable) (params : ParamDecoder) : QlcRun :=
  match ParamDecoder.uint8 params with
  | .error e => { m_qlc_store := m_qlc_store, written := [], raised := some e }
  | .ok (qlc_type, params) =>
    match ParamDecoder.uint8 params with
    | .error e => { m_qlc_store := m_qlc_store, written := [], raised := some e }
    | .ok (resource_type, params) =>
      match ParamDecoder.uint32 params with
      | .error e => { m_qlc_store := m_qlc_store, written := [], raised := some e }
      | .ok (resource_num, params) =>
        match K.ofByte qlc_type with
        | some kind =>
          match build kind resource_type resource_num params with
          | .error e => { m_qlc_store := m_qlc_store, written := [], raised := some e }
          | .ok qlcTable =>
            { m_qlc_store := (m_qlc_store.put qlcTable).2
              written := L.uint32 (m_qlc_store.put qlcTable).1 ++
                L.uint32 qlcTable.numOfObjects
              raised := none }
        | none =>
          { m_qlc_store := m_qlc_store, written := []
            raised := some (.driver (.BadCommandDriverError resource_type)) }

/-! ## Outcomes of decoding, for the termination of `buildQuery` -/

/-- The two kinds of exception that decoding a request throws on its own: a
read past the end of the buffer, and an unrecognised tag. -/
def Exception.isDecodeError : Exception → Bool
  | .driver .Truncated => true
  | .driver (.BadCommandDriverError _) => true
  | _ => false

mutual
/-- The number of calls of `buildQuery` that returned while the query was
built: one for the node, plus those for its sub-queries. -/
def Query.calls : Query → Nat
  | .group _ subQueries _ => 1 + Query.callsList subQueries
  | .scale _ sub_query _ => 1 + Query.calls sub_query
  | .value _ _ _ => 1
  | .valueRange _ _ _ _ => 1
  | .term _ _ _ => 1
  | .parsed _ _ _ _ => 1
/-- The number of calls of `buildQuery` behind a list of queries. -/
def Query.callsList : List Query → Nat
  | [] => 0
  | q :: qs => Query.calls q + Query.callsList qs
end

/-- The outcome `r` of a reader started on `params` is in order: a returned
value of size `size a` left at least that many bytes fewer unread, and a
thrown exception is `Truncated` or `BadCommand`. -/
def Consumes {α : Type} (size : α → Nat) (params : ParamDecoder) (r : Read α) : Prop :=
  match r with
  | .ok (a, rest) => size a + rest.length ≤ params.length
  | .error e => e.isDecodeError = true

/-! ## The driver: term rows and `qlcTermIteratorLookup` -/

/-- The case labels of `Driver::retrieveTerm`. -/
inductive termField
  | TERM_VALUE | TERM_WDF | TERM_FREQ | TERM_POS_COUNT | TERM_POSITIONS
  deriving DecidableEq, Repr

/-- What a `Xapian::TermIterator` reports at one position besides the term
itself: `get_wdf()`, `get_termfreq()` and the position list. -/
structure TermRow where
  wdf : Nat
  termfreq : Nat
  positions : List Nat
  deriving DecidableEq, Repr

/-- Declarations used by the row encoders that the sources do not contain
(`result_encoder.h`): the byte layout the reply writer gives a string, a
32-bit integer and a double (a double is kept as its eight bytes). -/
structure RowLayout where
  string : Str → List Nat
  uint32 : Nat → List Nat
  double : List Nat → List Nat

/-- One case of the `switch (command)` in `Driver::retrieveTerm`: the bytes
written for the field `command` of the term under the iterator. -/
def retrieveTermField (R : RowLayout) (iter : Str × TermRow) : termField → List Nat
  | .TERM_VALUE => R.string iter.1
  | .TERM_WDF => R.uint32 iter.2.wdf
  | .TERM_FREQ => R.uint32 iter.2.termfreq
  | .TERM_POS_COUNT => R.uint32 iter.2.positions.length
  | .TERM_POSITIONS =>
    R.uint32 iter.2.positions.length ++ (iter.2.positions.map R.uint32).flatten

/-- The source's `Driver::retrieveTerm`: the loop
`while (const uint8_t command = params)` over the schema bytes.  No case reads
a field from `params`, so every round takes exactly the command byte; the
read of that byte is written out on the two shapes of the buffer (empty:
`Truncated`). -/
def retrieveTerm (R : RowLayout) (C : TagTable termField) (iter : Str × TermRow) :
    ParamDecoder → Dispatched
  | [] => { written := [], raised := some (.driver .Truncated) }
  | b :: params =>
    if b % 256 = 0 then { written := [], raised := none }
    else
      match C.ofByte (b % 256) with
      | none =>
        { written := [], raised := some (.driver (.BadCommandDriverError (b % 256))) }
      | some command =>
        { written := retrieveTermField R iter command ++ (retrieveTerm R C iter params).written
          raised := (retrieveTerm R C iter params).raised }

/-- The container insertion `std::set::insert`: the set is kept as a strictly
ascending list, and an element already present is not inserted again. -/
def setInsert {κ : Type} [LinearOrder κ] (k : κ) : List κ → List κ
  | [] => [k]
  | e :: rest =>
    if k < e then k :: e :: rest
    else if k = e then e :: rest
    else e :: setInsert k rest

/-- The first loop of `Driver::qlcTermIteratorLookup`: strings are read from
`driver_params` and inserted into `terms` until the empty string.  (The
`assert` lines are compiled out.)  Every round reads at least the four length
bytes, so `fuel` rounds are enough for a buffer shorter than `fuel`; `none`
means the fuel ran out. -/
def readLookupTerms : Nat → List Str → ParamDecoder → Option (Read (List Str))
  | 0, _, _ => none
  | fuel + 1, terms, driver_params =>
    match ParamDecoder.string driver_params with
    | .error e => some (.error e)
    | .ok (term, driver_params) =>
      if term = [] then some (.ok (terms, driver_params))
      else readLookupTerms fuel (setInsert term terms) driver_params

/-- The branch `if (terms.size() == 1)` of `Driver::qlcTermIteratorLookup`:
`skip_to(term)`, one comparison, at most one row, then the stop byte. -/
def lookupSkip (R : RowLayout) (C : TagTable termField) (schema_params : ParamDecoder)
    (term : Str) (iter : List (Str × TermRow)) : Dispatched :=
  match skip_to term iter with
  | [] => { written := [0], raised := none }
  | row :: _ =>
    if row.1 = term then
      match (retrieveTerm R C row schema_params).raised with
      | some e =>
        { written := 1 :: (retrieveTerm R C row schema_params).written, raised := some e }
      | none =>
        { written := 1 :: (retrieveTerm R C row schema_params).written ++ [0]
          raised := none }
    else { written := [0], raised := none }

/-- The loop `for (; iter != end; iter++)` of `Driver::qlcTermIteratorLookup`
and the stop byte after it: every term found in `terms` is written after the
byte `more`. -/
def lookupScan (R : RowLayout) (C : TagTable termField) (schema_params : ParamDecoder)
    (terms : List Str) : List (Str × TermRow) → Dispatched
  | [] => { written := [0], raised := none }
  | row :: rest =>
    if row.1 ∈ terms then
      match (retrieveTerm R C row schema_params).raised with
      | some e =>
        { written := 1 :: (retrieveTerm R C row schema_params).written, raised := some e }
      | none =>
        { written := 1 :: (retrieveTerm R C row schema_params).written ++
            (lookupScan R C schema_params terms rest).written
          raised := (lookupScan R C schema_params terms rest).raised }
    else lookupScan R C schema_params terms rest

/-- The source's `Driver::qlcTermIteratorLookup`, on the terms from `iter` to
`end` as a list.  With no term read the function returns before it has
written anything. -/
def qlcTermIteratorLookup (R : RowLayout) (C : TagTable termField)
    (driver_params schema_params : ParamDecoder) (iter : List (Str × TermRow)) :
    Option Dispatched :=
  match readLookupTerms (driver_params.length + 1) [] driver_params with
  | none => none
  | some (.error e) => some { written := [], raised := some e }
  | some (.ok (terms, _)) =>
    match terms with
    | [] => some { written := [], raised := none }
    | [term] => some (lookupSkip R C schema_params term iter)
    | _ :: _ :: _ => some (lookupScan R C schema_params terms iter)

/-! ## Lookup requests and row streams, as the specification describes them -/

/-- The key list of a lookup request: the keys one after the other, then the
empty key. -/
def encodeLookupKeys (keys : List Str) : List Nat :=
  (keys.map ParamDecoder.putString).flatten ++ ParamDecoder.putString []

/-- A term schema: the field commands, then the zero byte. -/
def encodeTermSchema (C : TagTable termField) (fields : List termField) : List Nat :=
  fields.map C.toByte ++ [0]

/-- The encoded stream of a list of rows: every row after the byte `more`
(1), then the byte `stop` (0); the stream breaks off where the encoding of a
row throws. -/
def rowStream {ρ : Type} (emit : ρ → Dispatched) : List ρ → Dispatched
  | [] => { written := [0], raised := none }
  | row :: rest =>
    match (emit row).raised with
    | some e => { written := 1 :: (emit row).written, raised := some e }
    | none =>
      { written := 1 :: (emit row).written ++ (rowStream emit rest).written
        raised := (rowStream emit rest).raised }

/-! ## The driver: `applyDocumentSchema` -/

/-- A read whose value is discarded (`(void) value`): what is left is the
advanced cursor, or the exception of the read. -/
def skipRead {α : Type} (r : Read α) : Except Exception ParamDecoder :=
  match r with
  | .error e => .error e
  | .ok (_, params) => .ok params

/-- The next discarded read of a case, behind the reads before it. -/
def thenSkip {α : Type} (r : Except Exception ParamDecoder)
    (read : ParamDecoder → Read α) : Except Exception ParamDecoder :=
  match r with
  | .error e => .error e
  | .ok params => skipRead (read params)

/-- One round of the `switch (command)` in `Driver::applyDocumentSchema`, for
the case label `command`: the fields of the command are read and discarded.
The four value commands read a slot, a string and a boolean. -/
def applyDocumentSchemaField (command : fieldTypeIn) (params : ParamDecoder) :
    Except Exception ParamDecoder :=
  match command with
  | .STEMMER => skipRead (ParamDecoder.stem params)
  | .DATA => skipRead (ParamDecoder.string params)
  | .DELTA => skipRead (ParamDecoder.uint32 params)
  | .TEXT =>
    thenSkip (thenSkip (skipRead (ParamDecoder.string params)) ParamDecoder.uint32)
      ParamDecoder.string
  | .SET_TERM | .ADD_TERM | .UPDATE_TERM | .REMOVE_TERM =>
    thenSkip (thenSkip (skipRead (ParamDecoder.string params)) ParamDecoder.uint32)
      ParamDecoder.bool
  | .ADD_VALUE | .SET_VALUE | .UPDATE_VALUE | .REMOVE_VALUE =>
    thenSkip (thenSkip (skipRead (ParamDecoder.uint32 params)) ParamDecoder.string)
      ParamDecoder.bool
  | .SET_POSTING | .ADD_POSTING | .UPDATE_POSTING | .REMOVE_POSTING =>
    thenSkip (thenSkip (thenSkip (skipRead (ParamDecoder.string params))
      ParamDecoder.uint32) ParamDecoder.uint32) ParamDecoder.bool
  | .DEC_WDF | .SET_WDF =>
    thenSkip (thenSkip (skipRead (ParamDecoder.string params)) ParamDecoder.uint32)
      ParamDecoder.bool
  | .REMOVE_VALUES | .REMOVE_TERMS | .REMOVE_POSITIONS => .ok params
  | .REMOVE_TERM_POSITIONS =>
    thenSkip (skipRead (ParamDecoder.string params)) ParamDecoder.bool

/-- The `while (const uint8_t command = params)` loop of
`Driver::applyDocumentSchema`; the result is the cursor behind the zero byte.
Every round reads the command byte, so `fuel` rounds are enough for a buffer
shorter than `fuel`; `none` means the fuel ran out. -/
def applyDocumentSchemaLoop (F : TagTable fieldTypeIn) :
    Nat → ParamDecoder → Option (Except Exception ParamDecoder)
  | 0, _ => none
  | fuel + 1, params =>
    match ParamDecoder.uint8 params with
    | .error e => some (.error e)
    | .ok (command, params) =>
      if command = 0 then some (.ok params)
      else
        match F.ofByte command with
        | none => some (.error (.driver (.BadCommandDriverError command)))
        | some tag =>
          match applyDocumentSchemaField tag params with
          | .error e => some (.error e)
          | .ok params => applyDocumentSchemaLoop F fuel params

/-- The source's `Driver::applyDocumentSchema`: the bytes between the cursor
positions `from` and `to` (the `ParamDecoderController` returned), and the
advanced cursor. -/
def applyDocumentSchema (F : TagTable fieldTypeIn) (params : ParamDecoder) :
    Option (Read ParamDecoder) :=
  match applyDocumentSchemaLoop F (params.length + 1) params with
  | none => none
  | some (.error e) => some (.error e)
  | some (.ok rest) => some (.ok (params.take (params.length - rest.length), rest))

/-! ## The driver: `updateDocument` -/

/-- The engine's `Xapian::WritableDatabase`, as far as `updateDocument` uses
it: the stored documents by document id, in ascending order of the ids, and
the highest id handed out so far. -/
structure WritableDatabase where
  docs : List (Nat × Document)
  lastdocid : Nat
  deriving DecidableEq, Repr

namespace WritableDatabase

/-- Engine: `Database::term_exists`: some stored document is indexed by the
term. -/
def term_exists (db : WritableDatabase) (tname : Str) : Bool :=
  db.docs.any (fun d => (d.2.term tname).isSome)

/-- Engine: `Database::get_doccount`. -/
def get_doccount (db : WritableDatabase) : Nat :=
  db.docs.length

/-- Engine: `Database::get_document`; `DocNotFoundError` for an id that is not
in use. -/
def get_document (db : WritableDatabase) (docid : Nat) : Except XapianError Document :=
  match mapFind docid db.docs with
  | some doc => .ok doc
  | none => .error .DocNotFoundError

/-- Engine: `WritableDatabase::replace_document(docid, doc)`: the document
under `docid` is replaced, or created if the id is not in use. -/
def replace_document (db : WritableDatabase) (docid : Nat) (doc : Document) :
    WritableDatabase :=
  { docs := mapInsert docid doc db.docs, lastdocid := max db.lastdocid docid }

/-- Engine: `WritableDatabase::add_document`: the document is stored under the
next id, which is returned. -/
def add_document (db : WritableDatabase) (doc : Document) : Nat × WritableDatabase :=
  (db.lastdocid + 1,
   { docs := mapInsert (db.lastdocid + 1) doc db.docs, lastdocid := db.lastdocid + 1 })

/-- Engine: the ids in the match set of `Query(tname)` asked for with
`get_mset(0, get_doccount())`: every document indexed by the term.  (The
engine sorts a match set by weight; the ids are given here by ascending
id.) -/
def get_mset (db : WritableDatabase) (tname : Str) : List Nat :=
  ((db.docs.filter (fun d => (d.2.term tname).isSome)).map (fun d => d.1)).take
    db.get_doccount

end WritableDatabase

/-- The case labels of the `switch (uint8_t idType = params)` in
`Driver::updateDocument`. -/
inductive idType
  | UNIQUE_DOCID | UNIQUE_TERM
  deriving DecidableEq, Repr

/-- The first statements of the case `UNIQUE_DOCID` of
`Driver::updateDocument`: the document under `docid`; with `create`, a
`DocNotFoundError` is caught and the document stays the new, empty one. -/
def fetchForUpdate (create : Bool) (m_wdb : WritableDatabase) (docid : Nat) :
    Except Exception Document :=
  match m_wdb.get_document docid with
  | .ok doc => .ok doc
  | .error .DocNotFoundError =>
    if create then .ok Document.empty else .error (.xapian .DocNotFoundError)
  | .error e => .error (.xapian e)

/-- What a call of `updateDocument` leaves behind: the index, the bytes
written to the reply, and the exception thrown, if any. -/
structure Updated where
  m_wdb : WritableDatabase
  written : List Nat
  raised : Option Exception
  deriving DecidableEq, Repr

/-- The loop `for (m = mset.begin(); m != mset.end(); ++m)` of
`Driver::updateDocument`: every matched document is fetched, edited by the
captured program and written back under its id.  The result is the index and
the exception that ended the loop, if any; `none` means an edit ran out of
fuel. -/
def updateMatches (E : TextEngine) (F : TagTable fieldTypeIn) (V : CaseTable valueType)
    (m_default_stemmer : Stem) (schema : ParamDecoder) :
    List Nat → WritableDatabase → Option (WritableDatabase × Option Exception)
  | [], m_wdb => some (m_wdb, none)
  | docid :: mset, m_wdb =>
    match m_wdb.get_document docid with
    | .error e => some (m_wdb, some (.xapian e))
    | .ok doc =>
      match applyDocument E F V m_default_stemmer schema doc with
      | none => none
      | some r =>
        match r.raised with
        | some e => some (m_wdb, some e)
        | none =>
          updateMatches E F V m_default_stemmer schema mset
            (m_wdb.replace_document docid r.doc)

/-- The source's `Driver::updateDocument`.  `assertWriteable` returns, the
edit program is captured by `applyDocumentSchema`, and the identification that
follows it selects the documents the captured program is run on. -/
def updateDocument (L : ReplyLayout) (E : TextEngine) (F : TagTable fieldTypeIn)
    (V : CaseTable valueType) (I : CaseTable idType) (m_default_stemmer : Stem)
    (create : Bool) (m_wdb : WritableDatabase) (params : ParamDecoder) :
    Option Updated :=
  match applyDocumentSchema F params with
  | none => none
  | some (.error e) => some { m_wdb := m_wdb, written := [], raised := some e }
  | some (.ok (schema, params)) =>
    match ParamDecoder.uint8 params with
    | .error e => some { m_wdb := m_wdb, written := [], raised := some e }
    | .ok (idType, params) =>
      match I.ofByte idType with
      | some .UNIQUE_DOCID =>
        match ParamDecoder.uint32 params with
        | .error e => some { m_wdb := m_wdb, written := [], raised := some e }
        | .ok (docid, _) =>
          match fetchForUpdate create m_wdb docid with
          | .error e => some { m_wdb := m_wdb, written := [], raised := some e }
          | .ok doc =>
            match applyDocument E F V m_default_stemmer schema doc with
            | none => none
            | some r =>
              match r.raised with
              | some e => some { m_wdb := m_wdb, written := [], raised := some e }
              | none =>
                some { m_wdb := m_wdb.replace_document docid r.doc
                       written := L.uint32 docid, raised := none }
      | some .UNIQUE_TERM =>
        match ParamDecoder.string params with
        | .error e => some { m_wdb := m_wdb, written := [], raised := some e }
        | .ok (unique_term, _) =>
          if m_wdb.term_exists unique_term then
            match updateMatches E F V m_default_stemmer schema
                (m_wdb.get_mset unique_term) m_wdb with
            | none => none
            | some (m_wdb, some e) =>
              some { m_wdb := m_wdb, written := [], raised := some e }
            | some (m_wdb, none) =>
              some { m_wdb := m_wdb, written := L.uint32 0, raised := none }
          else if create then
            match applyDocument E F V m_default_stemmer schema Document.empty with
            | none => none
            | some r =>
              match r.raised with
              | some e => some { m_wdb := m_wdb, written := [], raised := some e }
              | none =>
                some { m_wdb := (m_wdb.add_document r.doc).2
                       written := L.uint32 (m_wdb.add_document r.doc).1
                       raised := none }
          else
            some { m_wdb := m_wdb, written := []
                   raised := some (.driver .BadArgumentDriverError) }
      | none =>
        some { m_wdb := m_wdb, written := []
               raised := some (.driver (.BadCommandDriverError idType)) }

/-! ## Update requests, as the specification describes them -/

/-- An update request addressed by a unique term: the encoded edit program
with its zero terminator, the identification tag, and the term. -/
def encodeUpdateByTerm (F : TagTable fieldTypeIn) (V : CaseTable valueType)
    (I : CaseTable idType) (ops : List EditOperation) (unique_term : Str) : List Nat :=
  encodeOps F V ops ++ 0 :: I.toByte .UNIQUE_TERM :: ParamDecoder.putString unique_term

/-- The operation is one of the four value operations. -/
def EditOperation.isValue : EditOperation → Bool
  | .value _ _ _ _ => true
  | _ => false

/-! ## The driver: document rows and their schema -/

/-- The case labels of the three overloads of `Driver::retrieveDocument` and
of `Driver::retrieveDocumentSchema`. -/
inductive fieldTypeOut
  | GET_VALUE | GET_FLOAT_VALUE | GET_DATA | GET_DOCID
  | GET_WEIGHT | GET_RANK | GET_PERCENT | GET_MULTI_DOCID | GET_DB_NUMBER
  deriving DecidableEq, Repr

/-- The case labels of `Driver::selectEncoderAndRetrieveDocument`: which
overload of `retrieveDocument` encodes a row. -/
inductive decoderType
  | DEC_DOCUMENT | DEC_ITERATOR | DEC_BOTH
  deriving DecidableEq, Repr

/-- The case labels that the overload of `retrieveDocument` for a decoder type
has: those of the overload taking a document, of the overload taking a match
set iterator, and of the overload taking both. -/
def decoderType.cases : decoderType → List fieldTypeOut
  | .DEC_DOCUMENT => [.GET_VALUE, .GET_FLOAT_VALUE, .GET_DATA, .GET_DOCID]
  | .DEC_ITERATOR =>
    [.GET_WEIGHT, .GET_RANK, .GET_PERCENT, .GET_DOCID, .GET_MULTI_DOCID, .GET_DB_NUMBER]
  | .DEC_BOTH =>
    [.GET_VALUE, .GET_FLOAT_VALUE, .GET_DATA, .GET_DOCID, .GET_WEIGHT, .GET_RANK,
     .GET_PERCENT, .GET_MULTI_DOCID, .GET_DB_NUMBER]

/-- What a `Xapian::MSetIterator` reports at one position: the document and
its `get_docid()`, the weight (the eight bytes of the double), the rank, the
percentage, the id `*mset_iter`, and `docid_sub` and `subdb_num` of that id. -/
structure MSetRow where
  doc : Document
  docid : Nat
  weight : List Nat
  rank : Nat
  percent : Nat
  multi_docid : Nat
  docid_sub : Nat
  subdb_num : Nat
  deriving DecidableEq, Repr

/-- What an overload of `retrieveDocument` leaves behind: the bytes written,
the exception thrown, if any, and the cursor over the schema. -/
structure Retrieved where
  written : List Nat
  raised : Option Exception
  params : ParamDecoder
  deriving DecidableEq, Repr

/-- One case of the `switch (command)` in `retrieveDocument`: the bytes written
for the field `command` of the row, and the cursor behind the slot that the
two value cases read.  `sortable_unserialise` is the engine's
`Xapian::sortable_unserialise`, giving the eight bytes of the double.  The
case `GET_DOCID` writes `docid_sub(*mset_iter)` in the overload that has only
the iterator and `doc.get_docid()` in the other two. -/
def retrieveDocumentField (R : RowLayout) (V : CaseTable valueType)
    (sortable_unserialise : Str → List Nat) (variant : decoderType) (row : MSetRow)
    (command : fieldTypeOut) (params : ParamDecoder) : Read (List Nat) :=
  match command with
  | .GET_VALUE =>
    match ParamDecoder.uint32 params with
    | .error e => .error e
    | .ok (slot, params) =>
      .ok (V.toByte .STRING_TYPE :: R.string (row.doc.get_value slot), params)
  | .GET_FLOAT_VALUE =>
    match ParamDecoder.uint32 params with
    | .error e => .error e
    | .ok (slot, params) =>
      .ok (V.toByte .DOUBLE_TYPE ::
        R.double (sortable_unserialise (row.doc.get_value slot)), params)
  | .GET_DATA => .ok (R.string row.doc.data, params)
  | .GET_DOCID =>
    match variant with
    | .DEC_ITERATOR => .ok (R.uint32 row.docid_sub, params)
    | _ => .ok (R.uint32 row.docid, params)
  | .GET_WEIGHT => .ok (R.double row.weight, params)
  | .GET_RANK => .ok (R.uint32 row.rank, params)
  | .GET_PERCENT => .ok ([row.percent % 256], params)
  | .GET_MULTI_DOCID => .ok (R.uint32 row.multi_docid, params)
  | .GET_DB_NUMBER => .ok (R.uint32 row.subdb_num, params)

/-- The `while (const uint8_t command = params)` loop of the overload of
`retrieveDocument` for `variant`: a command that is not among the case labels
of that overload goes to `default`.  Every round reads the command byte, so
`fuel` rounds are enough for a buffer shorter than `fuel`; `none` means the
fuel ran out. -/
def retrieveDocumentLoop (R : RowLayout) (V : CaseTable valueType)
    (O : TagTable fieldTypeOut) (sortable_unserialise : Str → List Nat)
    (variant : decoderType) (row : MSetRow) : Nat → ParamDecoder → Option Retrieved
  | 0, _ => none
  | fuel + 1, params =>
    match ParamDecoder.uint8 params with
    | .error e => some { written := [], raised := some e, params := params }
    | .ok (command, params) =>
      if command = 0 then some { written := [], raised := none, params := params }
      else
        match O.ofByte command with
        | none =>
          some { written := [], raised := some (.driver (.BadCommandDriverError command))
                 params := params }
        | some tag =>
          if tag ∈ variant.cases then
            match retrieveDocumentField R V sortable_unserialise variant row tag params with
            | .error e => some { written := [], raised := some e, params := params }
            | .ok (bytes, params) =>
              match retrieveDocumentLoop R V O sortable_unserialise variant row fuel
                  params with
              | none => none
              | some r =>
                some { written := bytes ++ r.written, raised := r.raised
                       params := r.params }
          else
            some { written := [], raised := some (.driver (.BadCommandDriverError command))
                   params := params }

/-- The three overloads of the source's `Driver::retrieveDocument`, told apart
by `variant`: the decoder type is read and compared with the one of the
overload (`BadArgumentDriverError` if it differs), then the loop runs. -/
def retrieveDocument (R : RowLayout) (V : CaseTable valueType) (O : TagTable fieldTypeOut)
    (D : CaseTable decoderType) (sortable_unserialise : Str → List Nat)
    (variant : decoderType) (row : MSetRow) (params : ParamDecoder) : Option Retrieved :=
  match ParamDecoder.uint8 params with
  | .error e => some { written := [], raised := some e, params := params }
  | .ok (decoder_type, params) =>
    if decoder_type ≠ D.toByte variant then
      some { written := [], raised := some (.driver .BadArgumentDriverError)
             params := params }
    else
      retrieveDocumentLoop R V O sortable_unserialise variant row (params.length + 1) params

/-- The source's `Driver::selectEncoderAndRetrieveDocument`: the decoder type
is read from a copy of the cursor, and the overload it selects starts from the
cursor as it was. -/
def selectEncoderAndRetrieveDocument (R : RowLayout) (V : CaseTable valueType)
    (O : TagTable fieldTypeOut) (D : CaseTable decoderType)
    (sortable_unserialise : Str → List Nat) (row : MSetRow) (params : ParamDecoder) :
    Option Retrieved :=
  match ParamDecoder.uint8 params with
  | .error e => some { written := [], raised := some e, params := params }
  | .ok (decoder_type, _) =>
    match D.ofByte decoder_type with
    | some variant => retrieveDocument R V O D sortable_unserialise variant row params
    | none =>
      some { written := [], raised := some (.driver (.BadCommandDriverError decoder_type))
             params := params }

/-- The `while (const uint8_t command = params)` loop of
`Driver::retrieveDocumentSchema`; the result is the cursor behind the zero
byte.  Every round reads the command byte, so `fuel` rounds are enough for a
buffer shorter than `fuel`; `none` means the fuel ran out. -/
def retrieveDocumentSchemaLoop (O : TagTable fieldTypeOut) :
    Nat → ParamDecoder → Option (Except Exception ParamDecoder)
  | 0, _ => none
  | fuel + 1, params =>
    match ParamDecoder.uint8 params with
    | .error e => some (.error e)
    | .ok (command, params) =>
      if command = 0 then some (.ok params)
      else
        match O.ofByte command with
        | none => some (.error (.driver (.BadCommandDriverError command)))
        | some .GET_FLOAT_VALUE | some .GET_VALUE =>
          match ParamDecoder.uint32 params with
          | .error e => some (.error e)
          | .ok (_, params) => retrieveDocumentSchemaLoop O fuel params
        | some _ => retrieveDocumentSchemaLoop O fuel params

/-- The source's `Driver::retrieveDocumentSchema`: the decoder type is read
and not looked at (`(void) decoder_type`), the loop checks the commands, and
the bytes between the cursor positions `from` and `to` are returned with the
advanced cursor. -/
def retrieveDocumentSchema (O : TagTable fieldTypeOut) (params : ParamDecoder) :
    Option (Read ParamDecoder) :=
  match ParamDecoder.uint8 params with
  | .error e => some (.error e)
  | .ok (_, params1) =>
    match retrieveDocumentSchemaLoop O (params1.length + 1) params1 with
    | none => none
    | some (.error e) => some (.error e)
    | some (.ok rest) => some (.ok (params.take (params.length - rest.length), rest))

/-! ## Row schemas, as the specification describes them -/

/-- One field-emission instruction of a replay schema. -/
inductive EmitField
  | value (slot : Nat)
  | floatValue (slot : Nat)
  | data | docid | weight | rank | percent | multiDocid | dbNumber
  deriving DecidableEq, Repr

namespace EmitField

/-- The command an instruction is sent under. -/
def tag : EmitField → fieldTypeOut
  | value _ => .GET_VALUE
  | floatValue _ => .GET_FLOAT_VALUE
  | data => .GET_DATA
  | docid => .GET_DOCID
  | weight => .GET_WEIGHT
  | rank => .GET_RANK
  | percent => .GET_PERCENT
  | multiDocid => .GET_MULTI_DOCID
  | dbNumber => .GET_DB_NUMBER

/-- The typed fields that follow the command byte. -/
def fields : EmitField → List Nat
  | value slot => ParamDecoder.putUInt32 slot
  | floatValue slot => ParamDecoder.putUInt32 slot
  | _ => []

/-- An instruction whose slot fits 32 bits. -/
def WellFormed : EmitField → Prop
  | value slot => slot < WORD
  | floatValue slot => slot < WORD
  | _ => True

instance (f : EmitField) : Decidable f.WellFormed := by
  cases f <;> (unfold WellFormed; infer_instance)

end EmitField

/-- The encoding of a list of instructions, one after the other. -/
def encodeEmitFields (O : TagTable fieldTypeOut) : List EmitField → List Nat
  | [] => []
  | f :: fs => O.toByte f.tag :: (f.fields ++ encodeEmitFields O fs)

/-- A replay schema for document rows: the decoder type, the instructions,
and the zero byte. -/
def encodeRowSchema (O : TagTable fieldTypeOut) (D : CaseTable decoderType)
    (variant : decoderType) (fs : List EmitField) : List Nat :=
  D.toByte variant :: (encodeEmitFields O fs ++ [0])

/-! ## Sample inputs -/

/-- A sample document: data `x`, value `42` in slot 0 and `a` in slot 3, term
`cat` with frequency 5 at positions 3, 7, 12, and term `dog` with frequency 2
at the sentinel position 666. -/
def sampleDoc : Document :=
  { data := str "x"
    values := [(0, str "42"), (3, str "a")]
    terms := [(str "cat", { wdf := 5, positions := [3, 7, 12] }),
              (str "dog", { wdf := 2, positions := [666] })] }

/-- A sample reply layout: a string is its length byte followed by its
characters, a 32-bit integer is four bytes with the low byte last, the type of
an exception is `D` for a driver error and `X` for an engine error, and every
message is `m`. -/
def sampleLayout : ReplyLayout :=
  { string := fun s => s.length % 256 :: s.toList.map Char.toNat
    uint32 := fun n => [n / 16777216 % 256, n / 65536 % 256, n / 256 % 256, n % 256]
    get_type := fun e =>
      match e with
      | .driver _ => "D"
      | .xapian _ => "X"
    what := fun _ => "m"
    get_msg := fun _ => "m" }

/-- An operation that has appended two payload bytes when it meets the
unrecognised tag 99, as `msetInfo` or `databaseInfo` do after a first
field. -/
def sampleInterrupted : Dispatched :=
  { written := [9, 9], raised := some (.driver (.BadCommandDriverError 99)) }

/-- An engine whose writable handle counts the calls it receives and accepts
every one of them. -/
def countingEngine : IndexEngine Nat :=
  { begin_transaction := fun w => .ok (w + 1)
    cancel_transaction := fun w => .ok (w + 1)
    commit_transaction := fun w => .ok (w + 1)
    set_metadata := fun w _ _ => .ok (w + 1) }

/-- The session state right after construction: no database was opened. -/
def Driver.initial : Driver Nat :=
  { m_wdb := 0, m_number_of_databases := 0 }

/-- Sample tag bytes for the edit operations: the case labels numbered from 1
in the order of the `switch` in `applyDocument`. -/
def sampleFieldTags : TagTable fieldTypeIn :=
  { ofByte := fun b =>
      match b with
      | 1 => some .STEMMER | 2 => some .DATA | 3 => some .DELTA | 4 => some .TEXT
      | 5 => some .SET_TERM | 6 => some .ADD_TERM | 7 => some .UPDATE_TERM
      | 8 => some .REMOVE_TERM
      | 9 => some .ADD_VALUE | 10 => some .SET_VALUE | 11 => some .UPDATE_VALUE
      | 12 => some .REMOVE_VALUE
      | 13 => some .SET_POSTING | 14 => some .ADD_POSTING | 15 => some .UPDATE_POSTING
      | 16 => some .REMOVE_POSTING
      | 17 => some .SET_WDF | 18 => some .DEC_WDF
      | 19 => some .REMOVE_VALUES | 20 => some .REMOVE_TERMS
      | 21 => some .REMOVE_POSITIONS | 22 => some .REMOVE_TERM_POSITIONS
      | _ => none
    toByte := fun t =>
      match t with
      | .STEMMER => 1 | .DATA => 2 | .DELTA => 3 | .TEXT => 4
      | .SET_TERM => 5 | .ADD_TERM => 6 | .UPDATE_TERM => 7 | .REMOVE_TERM => 8
      | .ADD_VALUE => 9 | .SET_VALUE => 10 | .UPDATE_VALUE => 11 | .REMOVE_VALUE => 12
      | .SET_POSTING => 13 | .ADD_POSTING => 14 | .UPDATE_POSTING => 15
      | .REMOVE_POSTING => 16
      | .SET_WDF => 17 | .DEC_WDF => 18
      | .REMOVE_VALUES => 19 | .REMOVE_TERMS => 20 | .REMOVE_POSITIONS => 21
      | .REMOVE_TERM_POSITIONS => 22
    ofByte_toByte := by intro t; cases t <;> rfl
    toByte_pos := by intro t; cases t <;> decide
    toByte_lt := by intro t; cases t <;> decide }

/-- Sample tag bytes for the value types. -/
def sampleValueTags : CaseTable valueType :=
  { ofByte := fun b =>
      match b with
      | 1 => some .STRING_TYPE | 2 => some .DOUBLE_TYPE | _ => none
    toByte := fun t =>
      match t with
      | .STRING_TYPE => 1 | .DOUBLE_TYPE => 2
    ofByte_toByte := by intro t; cases t <;> rfl
    toByte_ofByte := by
      intro b t h
      match b, h with
      | 0, h => cases h
      | 1, h => cases h; rfl
      | 2, h => cases h; rfl
      | _ + 3, h => cases h
    toByte_lt := by intro t; cases t <;> decide }

/-- A sample text engine: a double is stored as its eight bytes, and a text
is indexed as one term, the prefix followed by the text, at the next
position. -/
def sampleTextEngine : TextEngine :=
  { sortable_serialise := fun d => d
    index_text := fun tg doc text wdf_inc pfx =>
      ({ tg with termpos := tg.termpos + 1 },
       doc.add_posting (pfx ++ text) (tg.termpos + 1) wdf_inc) }

/-- A sample edit program: set the data to `v2`, add the term `cow` with
frequency 3, set slot 1 to `7`. -/
def sampleOps : List EditOperation :=
  [.setData (str "v2"), .term .add (str "cow") 3 false,
   .value .set 1 (.string (str "7")) false]

/-- Sample tag bytes for the parser customisations, as in the header under
`c_src`. -/
def sampleParserTags : TagTable queryParserCommand :=
  { ofByte := fun b =>
      match b with
      | 1 => some .QP_STEMMER | 2 => some .QP_STEMMING_STRATEGY
      | 3 => some .QP_MAX_WILDCARD_EXPANSION | 4 => some .QP_DEFAULT_OP
      | 5 => some .QP_PARSER_TYPE | 6 => some .QP_PREFIX | _ => none
    toByte := fun t =>
      match t with
      | .QP_STEMMER => 1 | .QP_STEMMING_STRATEGY => 2 | .QP_MAX_WILDCARD_EXPANSION => 3
      | .QP_DEFAULT_OP => 4 | .QP_PARSER_TYPE => 5 | .QP_PREFIX => 6
    ofByte_toByte := by intro t; cases t <;> rfl
    toByte_pos := by intro t; cases t <;> decide
    toByte_lt := by intro t; cases t <;> decide }

/-- Sample bytes for the parser types, as in the header under `c_src`. -/
def sampleParserTypeTags : CaseTable queryParserType :=
  { ofByte := fun b =>
      match b with
      | 0 => some .QP_TYPE_DEFAULT | 1 => some .QP_TYPE_EMPTY | _ => none
    toByte := fun t =>
      match t with
      | .QP_TYPE_DEFAULT => 0 | .QP_TYPE_EMPTY => 1
    ofByte_toByte := by intro t; cases t <;> rfl
    toByte_ofByte := by
      intro b t h
      match b, h with
      | 0, h => cases h; rfl
      | 1, h => cases h; rfl
      | _ + 2, h => cases h
    toByte_lt := by intro t; cases t <;> decide }

/-- A sample session: the default parser stems English with strategy `some`,
the empty parser has nothing set. -/
def sampleSession : ParserState :=
  { m_parser_default :=
      { stemmer := some { language := str "en" }, stemming_strategy := some .STEM_SOME
        max_wildcard_expansion := 0, default_op := 0, prefixes := [] }
    m_parser_empty :=
      { stemmer := none, stemming_strategy := some .STEM_NONE
        max_wildcard_expansion := 0, default_op := 0, prefixes := [] } }

/-- The sample session's parser objects: object 0 is the default parser,
object 1 the empty parser. -/
def sampleParserHeap : ParserHeap :=
  [sampleSession.m_parser_default, sampleSession.m_parser_empty]

/-- The handles of the sample session's parser members. -/
def sampleParserMembers : ParserMembers :=
  { m_parser_default := 0, m_parser_empty := 1 }

/-- A sample parser program: stem everything, then add the boolean prefix
`XA` for the field `author`. -/
def sampleParserCommands : List ParserCommand :=
  [.setStemmingStrategy .STEM_ALL, .addPrefix (str "author") (str "XA") true false]

/-- Sample tag bytes for the query nodes. -/
def sampleQueryTags : QueryTags :=
  { query :=
      { ofByte := fun b =>
          match b with
          | 1 => some .QUERY_GROUP | 2 => some .QUERY_VALUE
          | 3 => some .QUERY_VALUE_RANGE | 4 => some .QUERY_TERM
          | 5 => some .QUERY_PARSER | 6 => some .QUERY_SCALE_WEIGHT | _ => none
        toByte := fun t =>
          match t with
          | .QUERY_GROUP => 1 | .QUERY_VALUE => 2 | .QUERY_VALUE_RANGE => 3
          | .QUERY_TERM => 4 | .QUERY_PARSER => 5 | .QUERY_SCALE_WEIGHT => 6
        ofByte_toByte := by intro t; cases t <;> rfl
        toByte_pos := by intro t; cases t <;> decide
        toByte_lt := by intro t; cases t <;> decide }
    parser := sampleParserTags
    parserType := sampleParserTypeTags }

/-- A sample session for `matchSet`: one enquire under handle 1, the match
spy 1 not yet used, the match spy 2 already finalized, no result set, five
documents in the database. -/
def sampleMatchState : MatchState :=
  { m_enquire_store := { elements := [(1, { matchspies := [] })], counter := 1 }
    m_match_spy_store :=
      { elements := [(1, { finalized := false }), (2, { finalized := true })]
        counter := 2 }
    m_mset_store := { elements := [], counter := 0 }
    doccount := 5 }

/-- A sample session for `matchSet` with two match spies, 1 and 2, neither of
them used yet. -/
def sampleFreshSpies : MatchState :=
  { m_enquire_store := { elements := [(1, { matchspies := [] })], counter := 1 }
    m_match_spy_store :=
      { elements := [(1, { finalized := false }), (2, { finalized := false })]
        counter := 2 }
    m_mset_store := { elements := [], counter := 0 }
    doccount := 5 }

/-- Sample tag bytes for the cursor kinds. -/
def sampleQlcTags : CaseTable QlcType :=
  { ofByte := fun b =>
      match b with
      | 0 => some .MSET | 1 => some .TERMS | 2 => some .SPY_TERMS | _ => none
    toByte := fun t =>
      match t with
      | .MSET => 0 | .TERMS => 1 | .SPY_TERMS => 2
    ofByte_toByte := by intro t; cases t <;> rfl
    toByte_ofByte := by
      intro b t h
      match b, h with
      | 0, h => cases h; rfl
      | 1, h => cases h; rfl
      | 2, h => cases h; rfl
      | _ + 3, h => cases h
    toByte_lt := by intro t; cases t <;> decide }

/-- A sample table builder: every recognised kind yields a cursor of three
rows over the named resource, with the rest of the request as its schema. -/
def sampleQlcBuild (kind : QlcType) (_resource_type resource_num : Nat)
    (params : ParamDecoder) : Except Exception QlcTable :=
  .ok { kind := kind, resource_num := resource_num, schema := params, numOfObjects := 3 }

/-- Sample tag bytes for the term fields. -/
def sampleTermTags : TagTable termField :=
  { ofByte := fun b =>
      match b with
      | 1 => some .TERM_VALUE | 2 => some .TERM_WDF | 3 => some .TERM_FREQ
      | 4 => some .TERM_POS_COUNT | 5 => some .TERM_POSITIONS | _ => none
    toByte := fun t =>
      match t with
      | .TERM_VALUE => 1 | .TERM_WDF => 2 | .TERM_FREQ => 3
      | .TERM_POS_COUNT => 4 | .TERM_POSITIONS => 5
    ofByte_toByte := by intro t; cases t <;> rfl
    toByte_pos := by intro t; cases t <;> decide
    toByte_lt := by intro t; cases t <;> decide }

/-- A sample reply layout for rows: strings and integers as in a request. -/
def sampleRowLayout : RowLayout :=
  { string := ParamDecoder.putString
    uint32 := ParamDecoder.putUInt32
    double := fun d => d }

/-- A sample term list of three terms. -/
def sampleTerms : List (Str × TermRow) :=
  [(str "ant", { wdf := 1, termfreq := 4, positions := [2] }),
   (str "bee", { wdf := 2, termfreq := 5, positions := [] }),
   (str "cat", { wdf := 3, termfreq := 6, positions := [1, 7] })]

/-- Sample tag bytes for the identification of a document. -/
def sampleIdTags : CaseTable idType :=
  { ofByte := fun b =>
      match b with
      | 1 => some .UNIQUE_DOCID | 2 => some .UNIQUE_TERM | _ => none
    toByte := fun t =>
      match t with
      | .UNIQUE_DOCID => 1 | .UNIQUE_TERM => 2
    ofByte_toByte := by intro t; cases t <;> rfl
    toByte_ofByte := by
      intro b t h
      match b, h with
      | 0, h => cases h
      | 1, h => cases h; rfl
      | 2, h => cases h; rfl
      | _ + 3, h => cases h
    toByte_lt := by intro t; cases t <;> decide }

/-- A sample index of two documents: document 1 carries the term `k1` and the
data `v1`, document 2 carries the term `k2`. -/
def sampleIndex : WritableDatabase :=
  { docs := [(1, { data := str "v1", values := []
                   terms := [(str "k1", { wdf := 1, positions := [] })] }),
             (2, { data := str "w", values := []
                   terms := [(str "k2", { wdf := 1, positions := [] })] })]
    lastdocid := 2 }

/-- Sample tag bytes for the row fields. -/
def sampleOutTags : TagTable fieldTypeOut :=
  { ofByte := fun b =>
      match b with
      | 1 => some .GET_VALUE | 2 => some .GET_FLOAT_VALUE | 3 => some .GET_DATA
      | 4 => some .GET_DOCID | 5 => some .GET_WEIGHT | 6 => some .GET_RANK
      | 7 => some .GET_PERCENT | 8 => some .GET_MULTI_DOCID | 9 => some .GET_DB_NUMBER
      | _ => none
    toByte := fun t =>
      match t with
      | .GET_VALUE => 1 | .GET_FLOAT_VALUE => 2 | .GET_DATA => 3 | .GET_DOCID => 4
      | .GET_WEIGHT => 5 | .GET_RANK => 6 | .GET_PERCENT => 7 | .GET_MULTI_DOCID => 8
      | .GET_DB_NUMBER => 9
    ofByte_toByte := by intro t; cases t <;> rfl
    toByte_pos := by intro t; cases t <;> decide
    toByte_lt := by intro t; cases t <;> decide }

/-- Sample tag bytes for the decoder types. -/
def sampleDecoderTags : CaseTable decoderType :=
  { ofByte := fun b =>
      match b with
      | 0 => some .DEC_DOCUMENT | 1 => some .DEC_ITERATOR | 2 => some .DEC_BOTH
      | _ => none
    toByte := fun t =>
      match t with
      | .DEC_DOCUMENT => 0 | .DEC_ITERATOR => 1 | .DEC_BOTH => 2
    ofByte_toByte := by intro t; cases t <;> rfl
    toByte_ofByte := by
      intro b t h
      match b, h with
      | 0, h => cases h; rfl
      | 1, h => cases h; rfl
      | 2, h => cases h; rfl
      | _ + 3, h => cases h
    toByte_lt := by intro t; cases t <;> decide }

/-- A sample row: the sample document as the first match. -/
def sampleRow : MSetRow :=
  { doc := sampleDoc, docid := 7, weight := [0, 0, 0, 0, 0, 0, 240, 63], rank := 0
    percent := 100, multi_docid := 7, docid_sub := 7, subdb_num := 0 }

/-! ## Lemmas on ordered maps -/

section OrderedMapLemmas

variable {κ : Type} {α : Type} [LinearOrder κ]

theorem mapFind_of_forall_lt (k : κ) (l : List (κ × α)) (h : ∀ e ∈ l, k < e.1) :
    mapFind k l = none := by
  induction l with
  | nil => rfl
  | cons e rest ih =>
    have he : k < e.1 := h e (List.mem_cons_self _ _)
    have hne : ¬ e.1 = k := fun heq => absurd he (by rw [heq]; exact lt_irrefl k)
    simp only [mapFind, if_neg hne]
    exact ih (fun x hx => h x (List.mem_cons_of_mem _ hx))

theorem skip_to_nil_find (k : κ) (l : List (κ × α)) (h : skip_to k l = []) :
    mapFind k l = none := by
  induction l with
  | nil => rfl
  | cons e rest ih =>
    by_cases hlt : e.1 < k
    · have hne : ¬ e.1 = k := ne_of_lt hlt
      simp only [skip_to, if_pos hlt] at h
      simp only [mapFind, if_neg hne]
      exact ih h
    · simp [skip_to, if_neg hlt] at h

theorem skip_to_cons_find (k : κ) (l : List (κ × α)) (hl : Ascending l)
    (e : κ × α) (r : List (κ × α)) (h : skip_to k l = e :: r) :
    mapFind k l = if e.1 = k then some e.2 else none := by
  induction l with
  | nil => simp [skip_to] at h
  | cons x rest ih =>
    have hl2 := List.pairwise_cons.mp hl
    by_cases hlt : x.1 < k
    · have hne : ¬ x.1 = k := ne_of_lt hlt
      simp only [skip_to, if_pos hlt] at h
      simp only [mapFind, if_neg hne]
      exact ih hl2.2 h
    · simp only [skip_to, if_neg hlt] at h
      have hx : x = e := (List.cons.inj h).1
      subst hx
      by_cases heq : x.1 = k
      · simp [mapFind, heq]
      · have hk : k < x.1 := lt_of_le_of_ne (not_lt.mp hlt) (fun h2 => heq h2.symm)
        simp only [mapFind, if_neg heq]
        exact mapFind_of_forall_lt k rest (fun y hy => lt_trans hk (hl2.1 y hy))

theorem mapFind_mapInsert (k k2 : κ) (v : α) (l : List (κ × α)) :
    mapFind k2 (mapInsert k v l) = if k2 = k then some v else mapFind k2 l := by
  induction l with
  | nil =>
    by_cases h : k2 = k
    · simp [mapInsert, mapFind, h]
    · have h2 : ¬ k = k2 := fun h3 => h h3.symm
      simp [mapInsert, mapFind, h, h2]
  | cons e rest ih =>
    by_cases hlt : k < e.1
    · by_cases h : k2 = k
      · simp [mapInsert, mapFind, hlt, h]
      · have h2 : ¬ k = k2 := fun h3 => h h3.symm
        simp [mapInsert, mapFind, hlt, h, h2]
    · by_cases heq : k = e.1
      · by_cases h : k2 = k
        · simp [mapInsert, mapFind, hlt, heq, h]
        · have h2 : ¬ e.1 = k2 := fun h3 => h (by rw [heq, h3])
          have h4 : ¬ k = k2 := fun h3 => h h3.symm
          simp only [mapInsert, if_neg hlt, if_pos heq, mapFind, if_neg h2, if_neg h4,
            if_neg h]
      · simp only [mapInsert, if_neg hlt, if_neg heq, mapFind, ih]
        by_cases h : k2 = k
        · have h2 : ¬ e.1 = k2 := fun h3 => heq (by rw [h3, h])
          simp [h, h2]
          intro h5; exact absurd h5.symm heq
        · simp [h]

theorem mapFind_mapErase (k k2 : κ) (l : List (κ × α)) :
    mapFind k2 (mapErase k l) = if k2 = k then none else mapFind k2 l := by
  induction l with
  | nil => simp [mapErase, mapFind]
  | cons e rest ih =>
    by_cases heq : e.1 = k
    · simp only [mapErase, if_pos heq, ih, mapFind]
      by_cases h : k2 = k
      · simp [h]
      · have h2 : ¬ e.1 = k2 := fun h3 => h (by rw [← h3, heq])
        simp [h, h2]
    · simp only [mapErase, if_neg heq, mapFind, ih]
      by_cases h : k2 = k
      · have h2 : ¬ e.1 = k2 := fun h3 => heq (by rw [h3, h])
        simp [h, h2]
        intro h5; exact absurd h5 heq
      · simp [h]

theorem mem_mapInsert (k : κ) (v : α) (l : List (κ × α)) (x : κ × α)
    (hx : x ∈ mapInsert k v l) : x = (k, v) ∨ x ∈ l := by
  induction l with
  | nil => simp [mapInsert] at hx; exact Or.inl hx
  | cons e rest ih =>
    by_cases hlt : k < e.1
    · simp only [mapInsert, if_pos hlt, List.mem_cons] at hx
      rcases hx with h | h | h
      · exact Or.inl h
      · exact Or.inr (by simp [h])
      · exact Or.inr (List.mem_cons_of_mem _ h)
    · by_cases heq : k = e.1
      · simp only [mapInsert, if_neg hlt, if_pos heq, List.mem_cons] at hx
        rcases hx with h | h
        · exact Or.inl h
        · exact Or.inr (List.mem_cons_of_mem _ h)
      · simp only [mapInsert, if_neg hlt, if_neg heq, List.mem_cons] at hx
        rcases hx with h | h
        · exact Or.inr (by simp [h])
        · rcases ih h with h2 | h2
          · exact Or.inl h2
          · exact Or.inr (List.mem_cons_of_mem _ h2)

theorem mem_mapErase (k : κ) (l : List (κ × α)) (x : κ × α)
    (hx : x ∈ mapErase k l) : x ∈ l := by
  induction l with
  | nil => simp [mapErase] at hx
  | cons e rest ih =>
    by_cases heq : e.1 = k
    · simp only [mapErase, if_pos heq] at hx
      exact List.mem_cons_of_mem _ (ih hx)
    · simp only [mapErase, if_neg heq, List.mem_cons] at hx
      rcases hx with h | h
      · simp [h]
      · exact List.mem_cons_of_mem _ (ih h)

theorem Ascending.mapInsert (k : κ) (v : α) (l : List (κ × α)) (hl : Ascending l) :
    Ascending (mapInsert k v l) := by
  induction l with
  | nil => simp [XapianErlang.mapInsert, Ascending]
  | cons e rest ih =>
    have hl2 := List.pairwise_cons.mp hl
    by_cases hlt : k < e.1
    · simp only [XapianErlang.mapInsert, if_pos hlt]
      refine List.pairwise_cons.mpr ⟨?_, hl⟩
      intro y hy
      rcases List.mem_cons.mp hy with h | h
      · rw [h]; exact hlt
      · exact lt_trans hlt (hl2.1 y h)
    · by_cases heq : k = e.1
      · simp only [XapianErlang.mapInsert, if_neg hlt, if_pos heq]
        refine List.pairwise_cons.mpr ⟨?_, hl2.2⟩
        intro y hy
        show k < y.1
        rw [heq]; exact hl2.1 y hy
      · simp only [XapianErlang.mapInsert, if_neg hlt, if_neg heq]
        refine List.pairwise_cons.mpr ⟨?_, ih hl2.2⟩
        intro y hy
        rcases mem_mapInsert k v rest y hy with h | h
        · rw [h]
          exact lt_of_le_of_ne (not_lt.mp hlt) (fun h2 => heq h2.symm)
        · exact hl2.1 y h

theorem Ascending.mapErase (k : κ) (l : List (κ × α)) (hl : Ascending l) :
    Ascending (mapErase k l) := by
  induction l with
  | nil => simp [XapianErlang.mapErase, Ascending]
  | cons e rest ih =>
    have hl2 := List.pairwise_cons.mp hl
    by_cases heq : e.1 = k
    · simp only [XapianErlang.mapErase, if_pos heq]
      exact ih hl2.2
    · simp only [XapianErlang.mapErase, if_neg heq]
      refine List.pairwise_cons.mpr ⟨?_, ih hl2.2⟩
      intro y hy
      exact hl2.1 y (mem_mapErase k rest y hy)

theorem mapInsert_mapInsert (k : κ) (v v2 : α) (l : List (κ × α)) :
    mapInsert k v (mapInsert k v2 l) = mapInsert k v l := by
  induction l with
  | nil => simp [mapInsert]
  | cons e rest ih =>
    by_cases hlt : k < e.1
    · simp [mapInsert, hlt]
    · by_cases heq : k = e.1
      · simp [mapInsert, hlt, heq]
      · simp [mapInsert, hlt, heq, ih]

theorem mapFind_some_mem (k : κ) (v : α) (l : List (κ × α))
    (h : mapFind k l = some v) : (k, v) ∈ l := by
  induction l with
  | nil => simp [mapFind] at h
  | cons e rest ih =>
    by_cases heq : e.1 = k
    · simp only [mapFind, if_pos heq, Option.some.injEq] at h
      have : e = (k, v) := Prod.ext heq h
      simp [this]
    · simp only [mapFind, if_neg heq] at h
      exact List.mem_cons_of_mem _ (ih h)

end OrderedMapLemmas

/-! ## Lemmas on the driver's existence checks -/

theorem skip_to_pos_head (p : Nat) (P : List Nat) (hP : P.Pairwise (· < ·)) :
    (match skip_to_pos p P with
      | [] => false
      | q :: _ => decide (q = p)) = decide (p ∈ P) := by
  induction P with
  | nil => simp [skip_to_pos]
  | cons x rest ih =>
    have h2 := List.pairwise_cons.mp hP
    by_cases hlt : x < p
    · have hne : ¬ p = x := fun h => absurd hlt (by rw [h]; exact lt_irrefl x)
      simp only [skip_to_pos, if_pos hlt, List.mem_cons, hne, false_or]
      exact ih h2.2
    · simp only [skip_to_pos, if_neg hlt, List.mem_cons]
      by_cases heq : x = p
      · simp [heq]
      · have hpx : p < x := lt_of_le_of_ne (not_lt.mp hlt) (fun h => heq h.symm)
        have hnot : p ∉ rest := fun hm => absurd (h2.1 p hm) (not_lt.mpr (le_of_lt hpx))
        have hne : ¬ p = x := fun h => heq h.symm
        simp [heq, hne, hnot]

theorem isTermExist_eq (doc : Document) (tname : Str) (h : Ascending doc.terms) :
    isTermExist doc tname = (doc.term tname).isSome := by
  unfold isTermExist Document.term Document.termlist_begin
  cases hs : skip_to tname doc.terms with
  | nil => rw [skip_to_nil_find _ _ hs]; simp [hs]
  | cons e r =>
    rw [skip_to_cons_find _ _ h e r hs]
    have hne : doc.terms ≠ [] := by
      intro h0; rw [h0] at hs; simp [skip_to] at hs
    by_cases heq : e.1 = tname <;> simp [heq, hne, hs]

theorem getTermFrequency_eq (doc : Document) (tname : Str) (h : Ascending doc.terms) :
    getTermFrequency doc tname =
      match doc.term tname with
      | some t => t.wdf
      | none => 0 := by
  unfold getTermFrequency Document.term Document.termlist_begin
  cases hs : skip_to tname doc.terms with
  | nil => rw [skip_to_nil_find _ _ hs]; simp [hs]
  | cons e r =>
    rw [skip_to_cons_find _ _ h e r hs]
    have hne : doc.terms ≠ [] := by
      intro h0; rw [h0] at hs; simp [skip_to] at hs
    by_cases heq : e.1 = tname
    · simp [heq, hne, hs]
    · have heq2 : ¬ tname = e.1 := fun h2 => heq h2.symm
      simp [heq, heq2, hne, hs]

theorem getExistedTermFrequency_eq (doc : Document) (tname : Str)
    (h : Ascending doc.terms) :
    getExistedTermFrequency doc tname =
      match doc.term tname with
      | some t => .ok t.wdf
      | none => .error .BadArgumentDriverError := by
  unfold getExistedTermFrequency Document.term Document.termlist_begin
  cases hs : skip_to tname doc.terms with
  | nil => rw [skip_to_nil_find _ _ hs]; simp [hs]
  | cons e r =>
    rw [skip_to_cons_find _ _ h e r hs]
    have hne : doc.terms ≠ [] := by
      intro h0; rw [h0] at hs; simp [skip_to] at hs
    by_cases heq : e.1 = tname
    · simp [heq, hne, hs]
    · have heq2 : ¬ tname = e.1 := fun h2 => heq h2.symm
      simp [heq, heq2, hne, hs]

theorem isValueExist_eq (doc : Document) (slot_no : Nat) (h : Ascending doc.values) :
    isValueExist doc slot_no = (doc.value slot_no).isSome := by
  unfold isValueExist Document.value Document.values_begin
  cases hs : skip_to slot_no doc.values with
  | nil => rw [skip_to_nil_find _ _ hs]; simp [hs]
  | cons e r =>
    rw [skip_to_cons_find _ _ h e r hs]
    have hne : doc.values ≠ [] := by
      intro h0; rw [h0] at hs; simp [skip_to] at hs
    by_cases heq : e.1 = slot_no <;> simp [heq, hne, hs]

theorem isPostingExist_eq (doc : Document) (tname : Str) (term_pos : Nat)
    (h : doc.WF) :
    isPostingExist doc tname term_pos =
      match doc.term tname with
      | some t => decide (term_pos ∈ t.positions)
      | none => false := by
  unfold isPostingExist Document.term Document.termlist_begin
  cases hs : skip_to tname doc.terms with
  | nil => rw [skip_to_nil_find _ _ hs]; simp [hs]
  | cons e r =>
    have hfind := skip_to_cons_find _ _ h.1 e r hs
    rw [hfind]
    have hne : doc.terms ≠ [] := by
      intro h0; rw [h0] at hs; simp [skip_to] at hs
    by_cases heq : e.1 = tname
    · rw [if_pos heq] at hfind
      have hmem := mapFind_some_mem _ _ _ hfind
      have hP := (h.2.2 _ hmem).1
      have hhead := skip_to_pos_head term_pos e.2.positions hP
      simp only [hs, heq, hne, List.isEmpty_eq_true, if_true, if_false]
      by_cases hemp : e.2.positions = []
      · simp [hemp]
      · simp only [hemp, if_false]
        exact hhead
    · simp [heq, hne, hs]

/-! ## The session guard (C1) -/

/-- C1, the code as written: `assertWriteable` returns normally in every
session state, so `startTransaction` always goes on to the engine's
`begin_transaction` and never ends with `NotWritable`; on the session as
constructed (nothing opened) with an engine that accepts the call, the
command completes and the engine's writable handle has been touched. -/
theorem assertWriteable_never_raises {W : Type} (E : IndexEngine W) (d : Driver W) :
    assertWriteable d = .ok () ∧
    startTransaction E d = d.onWritable (E.begin_transaction d.m_wdb) ∧
    startTransaction E d ≠ .error (.driver .NotWritable) ∧
    (startTransaction countingEngine Driver.initial).toOption.map (·.m_wdb) = some 1 := by
  refine ⟨rfl, rfl, ?_, rfl⟩
  unfold startTransaction assertWriteable Driver.onWritable
  cases E.begin_transaction d.m_wdb <;> simp

/-! ## The reply of `handleCommand` (C2) -/

/-- C2: when the dispatched operation completes, the reply written into a
fresh buffer is the status byte 0 followed by the bytes the operation wrote;
when it throws a driver error or an engine error, the reply is the status
byte 1 followed by the exception's type and message only, whatever the buffer
held and whatever the operation had written before the throw. -/
theorem handleCommand_reply (L : ReplyLayout) (body : Dispatched)
    (result : ResultEncoder) :
    (body.raised = none →
      handleCommand L body ResultEncoder.fresh = { buffer := SUCCESS :: body.written }) ∧
    (∀ e, body.raised = some (.driver e) →
      handleCommand L body result =
        { buffer := ERROR :: (L.string (L.get_type (.driver e)) ++ L.string (L.what e)) }) ∧
    (∀ e, body.raised = some (.xapian e) →
      handleCommand L body result =
        { buffer := ERROR :: (L.string (L.get_type (.xapian e)) ++ L.string (L.get_msg e)) }) := by
  refine ⟨?_, ?_, ?_⟩
  · intro h
    simp [handleCommand, h, ResultEncoder.fresh, ResultEncoder.put_uint8,
      ResultEncoder.append, SUCCESS]
  · intro e h
    simp [handleCommand, h, ResultEncoder.reset, ResultEncoder.put_uint8,
      ResultEncoder.append, ERROR]
  · intro e h
    simp [handleCommand, h, ResultEncoder.reset, ResultEncoder.put_uint8,
      ResultEncoder.append, ERROR]

/-- Witness for C2: `getLastDocId` reporting id 5 replies `0` and the four
bytes of 5; an operation interrupted after two payload bytes, on a buffer
that already held a byte, replies `1`, `D`, `m` and nothing else. -/
theorem handleCommand_reply_witness :
    handleCommand sampleLayout (getLastDocId sampleLayout 5) ResultEncoder.fresh =
      { buffer := [0, 0, 0, 0, 5] } ∧
    handleCommand sampleLayout sampleInterrupted { buffer := [7] } =
      { buffer := [1, 1, 68, 1, 109] } :=
  ⟨((handleCommand_reply sampleLayout (getLastDocId sampleLayout 5)
      ResultEncoder.fresh).1 rfl).trans (by decide),
   ((handleCommand_reply sampleLayout sampleInterrupted { buffer := [7] }).2.1
      (.BadCommandDriverError 99) rfl).trans (by decide)⟩

/-! ## Term operations (C3 to C6) -/

theorem term_add_term_absent (doc : Document) (tname : Str) (wdfinc : Nat)
    (h : doc.term tname = none) :
    doc.add_term tname wdfinc =
      { doc with terms := mapInsert tname { wdf := wdfinc, positions := [] } doc.terms } := by
  unfold Document.term at h
  simp [Document.add_term, h]

theorem term_add_term_present (doc : Document) (tname : Str) (wdfinc : Nat)
    (t : OmDocumentTerm) (h : doc.term tname = some t) :
    doc.add_term tname wdfinc =
      { doc with terms := mapInsert tname (t.inc_wdf wdfinc) doc.terms } := by
  unfold Document.term at h
  simp [Document.add_term, h]

/-- C3: add-term on a document that contains the term, and update-term on a
document that does not, leave the document as it was and raise
`BadArgumentDriverError` exactly when `ignore` is false; add-term without
`ignore` applied twice to a document lacking the term returns normally the
first time and raises `BadArgumentDriverError` the second time. -/
theorem handleTerm_existence_gate (doc : Document) (tname : Str) (wdf : Nat)
    (ignore : Bool) (hwf : doc.WF) :
    (doc.term tname ≠ none →
      handleTerm tname wdf ignore .ADD_TERM doc =
        { doc := doc
          raised := if ignore then none else some (.driver .BadArgumentDriverError) }) ∧
    (doc.term tname = none →
      handleTerm tname wdf ignore .UPDATE_TERM doc =
        { doc := doc
          raised := if ignore then none else some (.driver .BadArgumentDriverError) }) ∧
    (doc.term tname = none →
      (handleTerm tname wdf false .ADD_TERM doc).raised = none ∧
      handleTerm tname wdf false .ADD_TERM (handleTerm tname wdf false .ADD_TERM doc).doc =
        { doc := (handleTerm tname wdf false .ADD_TERM doc).doc
          raised := some (.driver .BadArgumentDriverError) }) := by
  have hex := isTermExist_eq doc tname hwf.1
  refine ⟨?_, ?_, ?_⟩
  · intro h
    have h1 : isTermExist doc tname = true := by
      rw [hex]; cases hterm : doc.term tname with
      | none => exact absurd hterm h
      | some t => rfl
    cases ignore <;> simp [handleTerm, finishEdit, h1, Effect.done, Effect.throw]
  · intro h
    have h1 : isTermExist doc tname = false := by rw [hex, h]; rfl
    cases ignore <;> simp [handleTerm, finishEdit, h1, Effect.done, Effect.throw]
  · intro h
    have h1 : isTermExist doc tname = false := by rw [hex, h]; rfl
    have hfirst : handleTerm tname wdf false .ADD_TERM doc =
        Effect.done (doc.add_term tname wdf) := by
      simp [handleTerm, finishEdit, h1]
    rw [hfirst]
    refine ⟨rfl, ?_⟩
    have hdoc := term_add_term_absent doc tname wdf h
    have hasc : Ascending (doc.add_term tname wdf).terms := by
      rw [hdoc]; exact Ascending.mapInsert _ _ _ hwf.1
    have h2 : isTermExist (doc.add_term tname wdf) tname = true := by
      rw [isTermExist_eq _ _ hasc, hdoc]
      simp [Document.term, mapFind_mapInsert]
    simp [Effect.done, handleTerm, finishEdit, h2, Effect.throw]

/-- Witness for C3 on the sample document: `cat` is there, `cow` is not. -/
theorem handleTerm_existence_gate_witness :
    handleTerm (str "cat") 3 false .ADD_TERM sampleDoc =
      { doc := sampleDoc, raised := some (.driver .BadArgumentDriverError) } ∧
    handleTerm (str "cow") 3 true .UPDATE_TERM sampleDoc =
      { doc := sampleDoc, raised := none } ∧
    (handleTerm (str "cow") 3 false .ADD_TERM sampleDoc).raised = none ∧
    (handleTerm (str "cow") 3 false .ADD_TERM
      (handleTerm (str "cow") 3 false .ADD_TERM sampleDoc).doc).raised =
        some (.driver .BadArgumentDriverError) :=
  have h := handleTerm_existence_gate sampleDoc
  ⟨((h (str "cat") 3 false (by decide)).1 (by decide)).trans (by decide),
   ((h (str "cow") 3 true (by decide)).2.1 (by decide)).trans (by decide),
   ((h (str "cow") 3 false (by decide)).2.2 (by decide)).1,
   (congrArg Effect.raised ((h (str "cow") 3 false (by decide)).2.2 (by decide)).2)⟩

theorem remove_term_present (doc : Document) (tname : Str) (t : OmDocumentTerm)
    (h : doc.term tname = some t) :
    doc.remove_term tname = .ok { doc with terms := mapErase tname doc.terms } := by
  unfold Document.term at h
  simp [Document.remove_term, h]

theorem tryRemoveTerm_present (doc : Document) (tname : Str) (t : OmDocumentTerm)
    (ignore : Bool) (h : doc.term tname = some t) :
    tryRemoveTerm doc tname ignore =
      Effect.done { doc with terms := mapErase tname doc.terms } := by
  cases ignore <;>
    simp [tryRemoveTerm, remove_term_present doc tname t h, Effect.engine,
      Effect.catchInvalidArgument, Effect.done]

/-- C4: on a document that contains the term with frequency `t.wdf`,
remove-term with a supplied frequency of zero or of `t.wdf` returns normally
with the term gone and every other term, the values and the data as they
were; with any other frequency the document is as it was (the term is not
added by the `ADD_TERM` case the code falls into) and
`BadArgumentDriverError` is raised exactly when `ignore` is false. -/
theorem remove_term_frequency_gate (doc : Document) (tname : Str) (wdf : Nat) (ignore : Bool)
    (t : OmDocumentTerm) (hwf : doc.WF) (hterm : doc.term tname = some t) :
    ((wdf = 0 ∨ wdf = t.wdf) →
      (handleTerm tname wdf ignore .REMOVE_TERM doc).raised = none ∧
      (handleTerm tname wdf ignore .REMOVE_TERM doc).doc.term tname = none ∧
      (∀ t2, t2 ≠ tname →
        (handleTerm tname wdf ignore .REMOVE_TERM doc).doc.term t2 = doc.term t2) ∧
      (handleTerm tname wdf ignore .REMOVE_TERM doc).doc.values = doc.values ∧
      (handleTerm tname wdf ignore .REMOVE_TERM doc).doc.data = doc.data) ∧
    (¬ (wdf = 0 ∨ wdf = t.wdf) →
      handleTerm tname wdf ignore .REMOVE_TERM doc =
        { doc := doc
          raised := if ignore then none else some (.driver .BadArgumentDriverError) }) := by
  have hfreq : getTermFrequency doc tname = t.wdf := by
    rw [getTermFrequency_eq doc tname hwf.1, hterm]
  have hex : isTermExist doc tname = true := by
    rw [isTermExist_eq doc tname hwf.1, hterm]; rfl
  refine ⟨?_, ?_⟩
  · intro hw
    have hrun : handleTerm tname wdf ignore .REMOVE_TERM doc =
        Effect.done { doc with terms := mapErase tname doc.terms } := by
      simp only [handleTerm, hfreq, if_pos hw]
      exact tryRemoveTerm_present doc tname t ignore hterm
    rw [hrun]
    refine ⟨rfl, ?_, ?_, rfl, rfl⟩
    · simp [Effect.done, Document.term, mapFind_mapErase]
    · intro t2 h2
      simp [Effect.done, Document.term, mapFind_mapErase, h2]
  · intro hw
    simp only [handleTerm, hfreq, if_neg hw]
    cases ignore <;> simp [finishEdit, hex, Effect.done, Effect.throw]

/-- Witness for C4 on the sample document, whose term `cat` has frequency
5: removing with frequency 5 removes it, removing with frequency 4 raises. -/
theorem remove_term_frequency_gate_witness :
    (handleTerm (str "cat") 5 false .REMOVE_TERM sampleDoc).doc.term (str "cat") = none ∧
    handleTerm (str "cat") 4 false .REMOVE_TERM sampleDoc =
      { doc := sampleDoc, raised := some (.driver .BadArgumentDriverError) } :=
  ⟨((remove_term_frequency_gate sampleDoc (str "cat") 5 false
      { wdf := 5, positions := [3, 7, 12] } (by decide) (by decide)).1 (by decide)).2.1,
   (remove_term_frequency_gate sampleDoc (str "cat") 4 false
      { wdf := 5, positions := [3, 7, 12] } (by decide) (by decide)).2 (by decide)⟩

theorem tryRemoveTerm_ignore_raised (doc : Document) (tname : Str) :
    (tryRemoveTerm doc tname true).raised = none := by
  unfold tryRemoveTerm Document.remove_term
  cases mapFind tname doc.terms <;>
    simp [Effect.engine, Effect.catchInvalidArgument]

theorem removeTerm_ignore_quiet (doc : Document) (tname : Str) (wdf : Nat) :
    (handleTerm tname wdf true .REMOVE_TERM doc).raised = none := by
  by_cases hw : wdf = 0 ∨ wdf = getTermFrequency doc tname
  · simp only [handleTerm, if_pos hw]
    exact tryRemoveTerm_ignore_raised doc tname
  · simp only [handleTerm, if_neg hw]
    by_cases hex : isTermExist doc tname = true <;>
      simp [finishEdit, hex, Effect.done]

/-- C5: remove-term with `ignore` set raises nothing, on every document
(with or without the term) and for every supplied frequency; hence a second
remove-term with `ignore`, applied to what the first one left, raises
nothing either. -/
theorem handleTerm_remove_ignore_never_raises (doc : Document) (tname : Str)
    (wdf wdf2 : Nat) :
    (handleTerm tname wdf true .REMOVE_TERM doc).raised = none ∧
    (handleTerm tname wdf2 true .REMOVE_TERM
      (handleTerm tname wdf true .REMOVE_TERM doc).doc).raised = none :=
  ⟨removeTerm_ignore_quiet doc tname wdf,
   removeTerm_ignore_quiet _ tname wdf2⟩

/-- C6, refuted as stated: on the sample document, whose term `cat` has
frequency 5, update-term(`cat`, 3) returns normally and the frequency of
`cat` is then 8, not 3. -/
theorem handleTerm_update_accumulates :
    ¬ ((handleTerm (str "cat") 3 false .UPDATE_TERM sampleDoc).raised = none →
        ((handleTerm (str "cat") 3 false .UPDATE_TERM sampleDoc).doc.term
          (str "cat")).map (·.wdf) = some 3) := by
  decide

/-- C6, amended: add-term on a document lacking the term returns normally and
leaves the term with frequency exactly `wdf` and no positions; update-term and
set-term on a document in which the term has frequency `t.wdf` return
normally and leave it with frequency `t.wdf + wdf` (as a 32-bit sum) and its
positions. -/
theorem handleTerm_frequency (doc : Document) (tname : Str) (wdf : Nat)
    (ignore : Bool) (hwf : doc.WF) :
    (doc.term tname = none →
      (handleTerm tname wdf ignore .ADD_TERM doc).raised = none ∧
      (handleTerm tname wdf ignore .ADD_TERM doc).doc.term tname =
        some { wdf := wdf, positions := [] }) ∧
    (∀ t, doc.term tname = some t →
      ∀ command, command = fieldTypeIn.UPDATE_TERM ∨ command = fieldTypeIn.SET_TERM →
      (handleTerm tname wdf ignore command doc).raised = none ∧
      (handleTerm tname wdf ignore command doc).doc.term tname =
        some { wdf := (t.wdf + wdf) % WORD, positions := t.positions }) := by
  have hex := isTermExist_eq doc tname hwf.1
  refine ⟨?_, ?_⟩
  · intro h
    have h1 : isTermExist doc tname = false := by rw [hex, h]; rfl
    have hrun : handleTerm tname wdf ignore .ADD_TERM doc =
        Effect.done (doc.add_term tname wdf) := by
      simp [handleTerm, finishEdit, h1]
    rw [hrun, term_add_term_absent doc tname wdf h]
    refine ⟨rfl, ?_⟩
    simp [Effect.done, Document.term, mapFind_mapInsert]
  · intro t h command hc
    have h1 : isTermExist doc tname = true := by rw [hex, h]; rfl
    have hrun : handleTerm tname wdf ignore command doc =
        Effect.done (doc.add_term tname wdf) := by
      rcases hc with hc | hc <;> subst hc <;> simp [handleTerm, finishEdit, h1]
    rw [hrun, term_add_term_present doc tname wdf t h]
    refine ⟨rfl, ?_⟩
    simp [Effect.done, Document.term, mapFind_mapInsert, OmDocumentTerm.inc_wdf]

/-- Witness for the amended C6 on the sample document: adding `cow` with 3
gives frequency 3; setting `cat` (frequency 5) with 3 gives frequency 8. -/
theorem handleTerm_frequency_witness :
    (handleTerm (str "cow") 3 false .ADD_TERM sampleDoc).doc.term (str "cow") =
      some { wdf := 3, positions := [] } ∧
    (handleTerm (str "cat") 3 false .SET_TERM sampleDoc).doc.term (str "cat") =
      some { wdf := 8, positions := [3, 7, 12] } :=
  ⟨((handleTerm_frequency sampleDoc (str "cow") 3 false (by decide)).1 (by decide)).2,
   (((handleTerm_frequency sampleDoc (str "cat") 3 false (by decide)).2
      { wdf := 5, positions := [3, 7, 12] } (by decide) .SET_TERM (Or.inr rfl)).2).trans
      (by decide)⟩

/-! ## Value operations (C7, C8) -/

theorem tryRemoveValue_present (doc : Document) (slot : Nat) (x : Str) (ignore : Bool)
    (h : doc.value slot = some x) :
    tryRemoveValue doc slot ignore =
      Effect.done { doc with values := mapErase slot doc.values } := by
  unfold Document.value at h
  cases ignore <;>
    simp [tryRemoveValue, Document.remove_value, h, Effect.engine,
      Effect.catchInvalidArgument, Effect.done]

/-- C7: on a document whose slot holds the value `x`, remove-value returns
normally; with an empty supplied value the slot is removed; with a non-empty
supplied value the slot is removed when that value equals `x` and the document
is left as it was when it differs; every other slot, the terms and the data
are as they were in every case. -/
theorem handleValue_remove (doc : Document) (slot : Nat) (value x : Str)
    (ignore : Bool) (hslot : doc.value slot = some x) :
    (handleValue slot value ignore .REMOVE_VALUE doc).raised = none ∧
    (value = [] → (handleValue slot value ignore .REMOVE_VALUE doc).doc.value slot = none) ∧
    (value ≠ [] → value = x →
      (handleValue slot value ignore .REMOVE_VALUE doc).doc.value slot = none) ∧
    (value ≠ [] → value ≠ x →
      (handleValue slot value ignore .REMOVE_VALUE doc).doc = doc) ∧
    (∀ s2, s2 ≠ slot →
      (handleValue slot value ignore .REMOVE_VALUE doc).doc.value s2 = doc.value s2) ∧
    (handleValue slot value ignore .REMOVE_VALUE doc).doc.terms = doc.terms ∧
    (handleValue slot value ignore .REMOVE_VALUE doc).doc.data = doc.data := by
  have hget : doc.get_value slot = x := by
    unfold Document.value at hslot
    simp [Document.get_value, hslot]
  by_cases hv : value = [] ∨ value = x
  · have hrun : handleValue slot value ignore .REMOVE_VALUE doc =
        Effect.done { doc with values := mapErase slot doc.values } := by
      simp only [handleValue, hget, if_pos hv]
      exact tryRemoveValue_present doc slot x ignore hslot
    rw [hrun]
    refine ⟨rfl, ?_, ?_, ?_, ?_, rfl, rfl⟩
    · intro _; simp [Effect.done, Document.value, mapFind_mapErase]
    · intro _ _; simp [Effect.done, Document.value, mapFind_mapErase]
    · intro h1 h2; exact absurd hv (by simp [h1, h2])
    · intro s2 h2; simp [Effect.done, Document.value, mapFind_mapErase, h2]
  · have hrun : handleValue slot value ignore .REMOVE_VALUE doc = Effect.done doc := by
      simp only [handleValue, hget, if_neg hv]
    rw [hrun]
    refine ⟨rfl, ?_, ?_, ?_, ?_, rfl, rfl⟩
    · intro h1; exact absurd (Or.inl h1) hv
    · intro _ h2; exact absurd (Or.inr h2) hv
    · intro _ _; rfl
    · intro s2 _; rfl

/-- Witness for C7 on the sample document, whose slot 0 holds `42`: the empty
value removes the slot, the value `43` leaves the document as it was. -/
theorem handleValue_remove_witness :
    (handleValue 0 [] false .REMOVE_VALUE sampleDoc).doc.value 0 = none ∧
    (handleValue 0 (str "43") false .REMOVE_VALUE sampleDoc).doc = sampleDoc :=
  ⟨(handleValue_remove sampleDoc 0 [] (str "42") false (by decide)).2.1 rfl,
   (handleValue_remove sampleDoc 0 (str "43") (str "42") false (by decide)).2.2.2.1
      (by decide) (by decide)⟩

theorem get_value_add_value (doc : Document) (slot : Nat) (value : Str) :
    (doc.add_value slot value).get_value slot = value := by
  by_cases hv : value = []
  · simp [Document.add_value, Document.get_value, hv, mapFind_mapErase]
  · simp [Document.add_value, Document.get_value, hv, mapFind_mapInsert]

theorem value_add_value_other (doc : Document) (slot s2 : Nat) (value : Str)
    (h : s2 ≠ slot) :
    (doc.add_value slot value).value s2 = doc.value s2 := by
  by_cases hv : value = []
  · simp [Document.add_value, Document.value, hv, mapFind_mapErase, h]
  · simp [Document.add_value, Document.value, hv, mapFind_mapInsert, h]

theorem add_value_frame (doc : Document) (slot : Nat) (value : Str) :
    (doc.add_value slot value).terms = doc.terms ∧
    (doc.add_value slot value).data = doc.data := by
  by_cases hv : value = [] <;> simp [Document.add_value, hv]

/-- C8: add-value on an occupied slot and update-value on an empty slot leave
the document as it was, raising `BadArgumentDriverError` exactly when `ignore`
is false; add-value on an empty slot, update-value on an occupied slot and
set-value on any slot return normally, after which the slot reads exactly the
supplied value and every other slot, the terms and the data are as they
were. -/
theorem handleValue_existence_gate (doc : Document) (slot : Nat) (value : Str)
    (ignore : Bool) (hwf : doc.WF) :
    (doc.value slot ≠ none →
      handleValue slot value ignore .ADD_VALUE doc =
        { doc := doc
          raised := if ignore then none else some (.driver .BadArgumentDriverError) }) ∧
    (doc.value slot = none →
      handleValue slot value ignore .UPDATE_VALUE doc =
        { doc := doc
          raised := if ignore then none else some (.driver .BadArgumentDriverError) }) ∧
    (∀ command,
      (command = fieldTypeIn.ADD_VALUE ∧ doc.value slot = none) ∨
      (command = fieldTypeIn.UPDATE_VALUE ∧ doc.value slot ≠ none) ∨
      command = fieldTypeIn.SET_VALUE →
      (handleValue slot value ignore command doc).raised = none ∧
      (handleValue slot value ignore command doc).doc.get_value slot = value ∧
      (∀ s2, s2 ≠ slot →
        (handleValue slot value ignore command doc).doc.value s2 = doc.value s2) ∧
      (handleValue slot value ignore command doc).doc.terms = doc.terms ∧
      (handleValue slot value ignore command doc).doc.data = doc.data) := by
  have hex := isValueExist_eq doc slot hwf.2.1
  have htrue : doc.value slot ≠ none → isValueExist doc slot = true := by
    intro h
    rw [hex]
    cases hs : doc.value slot with
    | none => exact absurd hs h
    | some x => rfl
  have hfalse : doc.value slot = none → isValueExist doc slot = false := by
    intro h; rw [hex, h]; rfl
  refine ⟨?_, ?_, ?_⟩
  · intro h
    cases ignore <;> simp [handleValue, finishEdit, htrue h, Effect.done, Effect.throw]
  · intro h
    cases ignore <;> simp [handleValue, finishEdit, hfalse h, Effect.done, Effect.throw]
  · intro command hc
    have hrun : handleValue slot value ignore command doc =
        Effect.done (doc.add_value slot value) := by
      rcases hc with ⟨hc, h⟩ | ⟨hc, h⟩ | hc
      · subst hc; simp [handleValue, finishEdit, hfalse h]
      · subst hc; simp [handleValue, finishEdit, htrue h]
      · subst hc; simp [handleValue, finishEdit]
    rw [hrun]
    exact ⟨rfl, get_value_add_value doc slot value,
      fun s2 h2 => value_add_value_other doc slot s2 value h2,
      (add_value_frame doc slot value).1, (add_value_frame doc slot value).2⟩

/-- Witness for C8 on the sample document, whose slot 0 is occupied and whose
slot 1 is empty. -/
theorem handleValue_existence_gate_witness :
    handleValue 0 (str "7") false .ADD_VALUE sampleDoc =
      { doc := sampleDoc, raised := some (.driver .BadArgumentDriverError) } ∧
    handleValue 1 (str "7") true .UPDATE_VALUE sampleDoc =
      { doc := sampleDoc, raised := none } ∧
    (handleValue 1 (str "7") false .ADD_VALUE sampleDoc).doc.get_value 1 = str "7" :=
  have h := handleValue_existence_gate sampleDoc
  ⟨((h 0 (str "7") false (by decide)).1 (by decide)).trans (by decide),
   ((h 1 (str "7") true (by decide)).2.1 (by decide)).trans (by decide),
   ((h 1 (str "7") false (by decide)).2.2 .ADD_VALUE (Or.inl ⟨rfl, by decide⟩)).2.1⟩

/-! ## Word-frequency edits and position clearing (C9, C10) -/

theorem agreesOff_refl (doc : Document) (tname : Str) : doc.agreesOff doc tname :=
  ⟨fun _ _ => rfl, rfl, rfl⟩

theorem agreesOff_trans (d1 d2 d3 : Document) (tname : Str)
    (h12 : d1.agreesOff d2 tname) (h23 : d2.agreesOff d3 tname) :
    d1.agreesOff d3 tname :=
  ⟨fun t2 h => (h23.1 t2 h).trans (h12.1 t2 h), h23.2.1.trans h12.2.1,
    h23.2.2.trans h12.2.2⟩

theorem setTerm_spec (doc : Document) (tname : Str) (t : OmDocumentTerm) :
    ({ doc with terms := mapInsert tname t doc.terms } : Document).term tname = some t ∧
    doc.agreesOff { doc with terms := mapInsert tname t doc.terms } tname := by
  refine ⟨?_, ?_, rfl, rfl⟩
  · simp [Document.term, mapFind_mapInsert]
  · intro t2 h2
    simp [Document.term, mapFind_mapInsert, h2]

theorem add_term_spec (doc : Document) (tname : Str) (wdfinc : Nat)
    (t : OmDocumentTerm) (h : doc.term tname = some t) :
    (doc.add_term tname wdfinc).term tname = some (t.inc_wdf wdfinc) ∧
    doc.agreesOff (doc.add_term tname wdfinc) tname := by
  rw [term_add_term_present doc tname wdfinc t h]
  exact setTerm_spec doc tname _

theorem add_posting_spec (doc : Document) (tname : Str) (tpos wdfinc : Nat)
    (t : OmDocumentTerm) (h : doc.term tname = some t) :
    (doc.add_posting tname tpos wdfinc).term tname =
      some ((t.add_position tpos).inc_wdf wdfinc) ∧
    doc.agreesOff (doc.add_posting tname tpos wdfinc) tname := by
  have hrun : doc.add_posting tname tpos wdfinc =
      { doc with terms :=
          mapInsert tname ((t.add_position tpos).inc_wdf wdfinc) doc.terms } := by
    unfold Document.term at h
    simp [Document.add_posting, h]
  rw [hrun]
  exact setTerm_spec doc tname _

theorem remove_posting_spec (doc : Document) (tname : Str) (tpos wdfdec : Nat)
    (t : OmDocumentTerm) (h : doc.term tname = some t) (hp : tpos ∈ t.positions) :
    ∃ doc2, doc.remove_posting tname tpos wdfdec = .ok doc2 ∧
      doc2.term tname =
        some (OmDocumentTerm.dec_wdf
          { wdf := t.wdf, positions := t.positions.erase tpos } wdfdec) ∧
      doc.agreesOff doc2 tname := by
  refine ⟨{ doc with terms := mapInsert tname (OmDocumentTerm.dec_wdf
      { wdf := t.wdf, positions := t.positions.erase tpos } wdfdec) doc.terms }, ?_, ?_⟩
  · unfold Document.term at h
    simp [Document.remove_posting, h, OmDocumentTerm.remove_position, hp]
  · exact setTerm_spec doc tname _

theorem positions_erase_insert (P : List Nat) (tpos : Nat) (hP : P.Pairwise (· < ·))
    (h : tpos ∈ P) :
    tpos ∉ P.erase tpos ∧ (P.erase tpos).orderedInsert (· ≤ ·) tpos = P := by
  have hnodup : P.Nodup := hP.imp (fun hab => ne_of_lt hab)
  have hsorted : P.Sorted (· ≤ ·) := hP.imp (fun hab => le_of_lt hab)
  exact ⟨hnodup.not_mem_erase, List.orderedInsert_erase tpos P h hsorted⟩

theorem add_position_mem (t : OmDocumentTerm) (tpos : Nat) :
    tpos ∈ (t.add_position tpos).positions := by
  by_cases h : tpos ∈ t.positions
  · simp [OmDocumentTerm.add_position, h]
  · simp [OmDocumentTerm.add_position, h, List.mem_orderedInsert]

theorem add_position_erase (t : OmDocumentTerm) (tpos : Nat) (h : tpos ∉ t.positions) :
    (t.add_position tpos).positions.erase tpos = t.positions := by
  simp only [OmDocumentTerm.add_position, if_neg h]
  exact List.erase_orderedInsert_of_not_mem h

/-- The destructor on a document in which the term has frequency `w` and
positions `Q`, where `P` is the list at construction and `Q` is `P`, or `P`
without the sentinel: the list `P` is restored. -/
theorem dtor_spec (doc2 : Document) (tname : Str) (w : Nat) (P Q : List Nat)
    (hP : P.Pairwise (· < ·)) (hw : w < WORD)
    (h2 : doc2.term tname = some { wdf := w, positions := Q })
    (hQ : Q = P ∨
      (HellTermPosition.HELL_POS ∈ P ∧ Q = P.erase HellTermPosition.HELL_POS)) :
    (HellTermPosition.dtor
        { m_is_exist := decide (HellTermPosition.HELL_POS ∈ P), m_tname := tname }
        doc2).term tname = some { wdf := w, positions := P } ∧
    doc2.agreesOff
      (HellTermPosition.dtor
        { m_is_exist := decide (HellTermPosition.HELL_POS ∈ P), m_tname := tname }
        doc2) tname := by
  by_cases hmem : HellTermPosition.HELL_POS ∈ P
  · have hspec := add_posting_spec doc2 tname HellTermPosition.HELL_POS 0 _ h2
    have hrt := positions_erase_insert P HellTermPosition.HELL_POS hP hmem
    simp only [HellTermPosition.dtor, hmem, decide_True, if_true]
    refine ⟨?_, hspec.2⟩
    rw [hspec.1]
    rcases hQ with hQ | ⟨_, hQ⟩
    · subst hQ
      simp [OmDocumentTerm.add_position, OmDocumentTerm.inc_wdf, hmem,
        Nat.mod_eq_of_lt hw]
    · subst hQ
      simp [OmDocumentTerm.add_position, OmDocumentTerm.inc_wdf, hrt.1, hrt.2,
        Nat.mod_eq_of_lt hw]
  · have hQP : Q = P := by
      rcases hQ with hQ | ⟨h1, _⟩
      · exact hQ
      · exact absurd h1 hmem
    subst hQP
    simp only [HellTermPosition.dtor, hmem, decide_False]
    exact ⟨h2, agreesOff_refl doc2 tname⟩

theorem term_bounds (doc : Document) (tname : Str) (t : OmDocumentTerm)
    (hwf : doc.WF) (h : doc.term tname = some t) :
    t.positions.Pairwise (· < ·) ∧ t.wdf < WORD :=
  hwf.2.2 (tname, t) (mapFind_some_mem tname t doc.terms h)

theorem dec_wdf_spec (doc : Document) (tname : Str) (w f : Nat) (P : List Nat)
    (b : Bool) (hwf : doc.WF)
    (h : doc.term tname = some { wdf := f, positions := P }) (hlt : w < f) :
    ∃ doc2, HellTermPosition.dec_wdf { m_is_exist := b, m_tname := tname } (f - w) doc =
        Effect.done doc2 ∧
      doc2.term tname =
        some { wdf := w,
               positions := if HellTermPosition.HELL_POS ∈ P
                 then P.erase HellTermPosition.HELL_POS else P } ∧
      doc.agreesOff doc2 tname := by
  have hf : f < WORD := (term_bounds doc tname _ hwf h).2
  have h1 := add_posting_spec doc tname HellTermPosition.HELL_POS 0 _ h
  have hp := add_position_mem { wdf := f, positions := P } HellTermPosition.HELL_POS
  have hp1 : HellTermPosition.HELL_POS ∈
      (OmDocumentTerm.inc_wdf
        (OmDocumentTerm.add_position { wdf := f, positions := P }
          HellTermPosition.HELL_POS) 0).positions := hp
  obtain ⟨doc2, hrun, hterm, hagree⟩ :=
    remove_posting_spec (doc.add_posting tname HellTermPosition.HELL_POS 0) tname
      HellTermPosition.HELL_POS (f - w) _ h1.1 hp1
  refine ⟨doc2, ?_, ?_, agreesOff_trans _ _ _ _ h1.2 hagree⟩
  · simp [HellTermPosition.dec_wdf, hrun, Effect.engine, Effect.done]
  · rw [hterm]
    have hwdf : (if f ≤ f - w then 0 else f - (f - w)) = w := by
      split_ifs with hc <;> omega
    by_cases hmem : HellTermPosition.HELL_POS ∈ P
    · simp [OmDocumentTerm.dec_wdf, OmDocumentTerm.inc_wdf, OmDocumentTerm.add_position,
        hmem, Nat.mod_eq_of_lt hf, hwdf]
    · have he := add_position_erase { wdf := f, positions := P }
        HellTermPosition.HELL_POS hmem
      simp only [OmDocumentTerm.add_position, if_neg hmem] at he
      simp [OmDocumentTerm.dec_wdf, OmDocumentTerm.inc_wdf, OmDocumentTerm.add_position,
        hmem, Nat.mod_eq_of_lt hf, hwdf, he]

theorem set_wdf_spec (doc : Document) (tname : Str) (w f : Nat) (P : List Nat)
    (b : Bool) (hwf : doc.WF)
    (h : doc.term tname = some { wdf := f, positions := P }) (hw : w < WORD) :
    ∃ doc2 Q, HellTermPosition.set_wdf { m_is_exist := b, m_tname := tname } w doc =
        Effect.done doc2 ∧
      doc2.term tname = some { wdf := w, positions := Q } ∧
      (Q = P ∨
        (HellTermPosition.HELL_POS ∈ P ∧ Q = P.erase HellTermPosition.HELL_POS)) ∧
      doc.agreesOff doc2 tname := by
  have hfreq : getTermFrequency doc tname = f := by
    rw [getTermFrequency_eq doc tname hwf.1, h]
  rcases Nat.lt_trichotomy f w with hlt | heq | hgt
  · have hspec := add_term_spec doc tname (w - f) _ h
    refine ⟨doc.add_term tname (w - f), P, ?_, ?_, Or.inl rfl, hspec.2⟩
    · simp [HellTermPosition.set_wdf, HellTermPosition.inc_wdf, hfreq, hlt]
    · rw [hspec.1]
      have hsum : (f + (w - f)) % WORD = w := by
        have : f + (w - f) = w := by omega
        rw [this]; exact Nat.mod_eq_of_lt hw
      simp [OmDocumentTerm.inc_wdf, hsum]
  · subst heq
    refine ⟨doc, P, ?_, h, Or.inl rfl, agreesOff_refl doc tname⟩
    simp [HellTermPosition.set_wdf, hfreq]
  · obtain ⟨doc2, hrun, hterm, hagree⟩ := dec_wdf_spec doc tname w f P b hwf h hgt
    refine ⟨doc2, _, ?_, hterm, ?_, hagree⟩
    · have hnot : ¬ f < w := by omega
      simp [HellTermPosition.set_wdf, hfreq, hnot, hgt, hrun]
    · by_cases hmem : HellTermPosition.HELL_POS ∈ P
      · exact Or.inr ⟨hmem, by simp [hmem]⟩
      · exact Or.inl (by simp [hmem])

/-- C9: on a document in which the term has frequency `f` and position list
`P` (with or without the sentinel 666), set-word-frequency to a 32-bit target
`w`, below, equal to or above `f`, returns normally and leaves the term with
frequency exactly `w` and position list exactly `P`; every other term, the
values and the data are as they were. -/
theorem trySetWDF_preserves_positions (doc : Document) (tname : Str) (w f : Nat)
    (P : List Nat) (ignore : Bool) (hwf : doc.WF)
    (h : doc.term tname = some { wdf := f, positions := P }) (hw : w < WORD) :
    (trySetWDF doc tname w ignore).raised = none ∧
    (trySetWDF doc tname w ignore).doc.term tname = some { wdf := w, positions := P } ∧
    doc.agreesOff (trySetWDF doc tname w ignore).doc tname := by
  have hb := term_bounds doc tname _ hwf h
  have hex : isTermExist doc tname = true := by
    rw [isTermExist_eq doc tname hwf.1, h]; rfl
  have hpost : isPostingExist doc tname HellTermPosition.HELL_POS =
      decide (HellTermPosition.HELL_POS ∈ P) := by
    rw [isPostingExist_eq doc tname _ hwf, h]
  obtain ⟨doc2, Q, hrun, hterm, hQ, hagree⟩ :=
    set_wdf_spec doc tname w f P (decide (HellTermPosition.HELL_POS ∈ P)) hwf h hw
  have hd := dtor_spec doc2 tname w P Q hb.1 hw hterm hQ
  have hscope : HellTermPosition.inScope doc tname (fun hpos d => hpos.set_wdf w d) =
      { doc := HellTermPosition.dtor
          { m_is_exist := decide (HellTermPosition.HELL_POS ∈ P), m_tname := tname } doc2
        raised := none } := by
    simp [HellTermPosition.inScope, HellTermPosition.ctor, hex, hpost, hrun, Effect.done]
  have hall : trySetWDF doc tname w ignore =
      { doc := HellTermPosition.dtor
          { m_is_exist := decide (HellTermPosition.HELL_POS ∈ P), m_tname := tname } doc2
        raised := none } := by
    cases ignore <;>
      simp [trySetWDF, hscope, Effect.catchInvalidArgumentOrBadCommand]
  rw [hall]
  exact ⟨rfl, hd.1, agreesOff_trans _ _ _ _ hagree hd.2⟩

/-- Witness for C9 on the sample document: `cat` has positions 3, 7, 12 and
frequency 5, and target 8 gives frequency 8 with positions 3, 7, 12; `dog`
stands at the sentinel position with frequency 2, and target 1 gives
frequency 1 with the sentinel position still there. -/
theorem trySetWDF_preserves_positions_witness :
    (trySetWDF sampleDoc (str "cat") 8 false).doc.term (str "cat") =
      some { wdf := 8, positions := [3, 7, 12] } ∧
    (trySetWDF sampleDoc (str "dog") 1 false).doc.term (str "dog") =
      some { wdf := 1, positions := [666] } :=
  ⟨(trySetWDF_preserves_positions sampleDoc (str "cat") 8 5 [3, 7, 12] false
      (by decide) (by decide) (by decide)).2.1,
   (trySetWDF_preserves_positions sampleDoc (str "dog") 1 2 [666] false
      (by decide) (by decide) (by decide)).2.1⟩

theorem clearTermPositions_present (doc : Document) (tname : Str) (f : Nat)
    (P : List Nat) (hwf : doc.WF)
    (h : doc.term tname = some { wdf := f, positions := P }) :
    clearTermPositions doc tname =
      Effect.done
        { doc with terms :=
            mapInsert tname { wdf := f, positions := [] } (mapErase tname doc.terms) } := by
  have hfreq : getExistedTermFrequency doc tname = .ok f := by
    rw [getExistedTermFrequency_eq doc tname hwf.1, h]
  have hgone : ({ doc with terms := mapErase tname doc.terms } : Document).term tname =
      none := by
    simp [Document.term, mapFind_mapErase]
  simp only [clearTermPositions, hfreq, remove_term_present doc tname _ h]
  rw [term_add_term_absent _ tname f hgone]

/-- C10: on a document in which the term has frequency `f`,
clear-positions-of-term returns normally and leaves the term in the document
with frequency exactly `f` and an empty position list; every other term (its
frequency and positions), the values and the data are as they were. -/
theorem tryClearTermPositions_keeps_frequency (doc : Document) (tname : Str) (f : Nat)
    (P : List Nat) (ignore : Bool) (hwf : doc.WF)
    (h : doc.term tname = some { wdf := f, positions := P }) :
    (tryClearTermPositions doc tname ignore).raised = none ∧
    (tryClearTermPositions doc tname ignore).doc.term tname =
      some { wdf := f, positions := [] } ∧
    (∀ t2, t2 ≠ tname →
      (tryClearTermPositions doc tname ignore).doc.term t2 = doc.term t2) ∧
    (tryClearTermPositions doc tname ignore).doc.values = doc.values ∧
    (tryClearTermPositions doc tname ignore).doc.data = doc.data := by
  have hrun : tryClearTermPositions doc tname ignore =
      Effect.done
        { doc with terms :=
            mapInsert tname { wdf := f, positions := [] } (mapErase tname doc.terms) } := by
    cases ignore <;>
      simp [tryClearTermPositions, clearTermPositions_present doc tname f P hwf h,
        Effect.catchInvalidArgument, Effect.done]
  rw [hrun]
  refine ⟨rfl, ?_, ?_, rfl, rfl⟩
  · simp [Effect.done, Document.term, mapFind_mapInsert]
  · intro t2 h2
    simp [Effect.done, Document.term, mapFind_mapInsert, mapFind_mapErase, h2]

/-- Witness for C10 on the sample document: `cat` keeps frequency 5 and
loses its positions 3, 7, 12. -/
theorem tryClearTermPositions_keeps_frequency_witness :
    (tryClearTermPositions sampleDoc (str "cat") false).doc.term (str "cat") =
      some { wdf := 5, positions := [] } :=
  (tryClearTermPositions_keeps_frequency sampleDoc (str "cat") 5 [3, 7, 12] false
    (by decide) (by decide)).2.1

/-! ## Clearing all positions (C11) -/

section ClearAll

variable {κ : Type} {α : Type} {β : Type} [LinearOrder κ]

theorem mapFind_of_forall_gt (k : κ) (l : List (κ × α)) (h : ∀ e ∈ l, e.1 < k) :
    mapFind k l = none := by
  induction l with
  | nil => rfl
  | cons e rest ih =>
    have hne : ¬ e.1 = k := ne_of_lt (h e (List.mem_cons_self _ _))
    simp only [mapFind, if_neg hne]
    exact ih (fun x hx => h x (List.mem_cons_of_mem _ hx))

theorem mapInsert_of_forall_gt (k : κ) (v : α) (l : List (κ × α))
    (h : ∀ e ∈ l, e.1 < k) : mapInsert k v l = l ++ [(k, v)] := by
  induction l with
  | nil => rfl
  | cons e rest ih =>
    have hlt : e.1 < k := h e (List.mem_cons_self _ _)
    have h1 : ¬ k < e.1 := not_lt.mpr (le_of_lt hlt)
    have h2 : ¬ k = e.1 := fun h3 => absurd hlt (by rw [h3]; exact lt_irrefl _)
    simp only [mapInsert, if_neg h1, if_neg h2, List.cons_append]
    rw [ih (fun x hx => h x (List.mem_cons_of_mem _ hx))]

theorem foldl_mapInsert_ascending (g : β → α) (l : List (κ × β)) :
    ∀ acc : List (κ × α), Ascending l → (∀ a ∈ acc, ∀ e ∈ l, a.1 < e.1) →
      l.foldl (fun m e => mapInsert e.1 (g e.2) m) acc =
        acc ++ l.map (fun e => (e.1, g e.2)) := by
  induction l with
  | nil => intro acc _ _; simp
  | cons x rest ih =>
    intro acc hl hacc
    have hl2 := List.pairwise_cons.mp hl
    have hins : mapInsert x.1 (g x.2) acc = acc ++ [(x.1, g x.2)] :=
      mapInsert_of_forall_gt _ _ _ (fun a ha => hacc a ha x (List.mem_cons_self _ _))
    simp only [List.foldl_cons, hins, List.map_cons]
    rw [ih _ hl2.2]
    · simp
    · intro a ha e he
      rcases List.mem_append.mp ha with h | h
      · exact hacc a h e (List.mem_cons_of_mem _ he)
      · simp only [List.mem_singleton] at h
        rw [h]; exact hl2.1 e he

theorem mapFind_map (g : β → α) (k : κ) (l : List (κ × β)) :
    mapFind k (l.map (fun e => (e.1, g e.2))) = (mapFind k l).map g := by
  induction l with
  | nil => rfl
  | cons e rest ih =>
    by_cases h : e.1 = k <;> simp [mapFind, h, ih]

end ClearAll

theorem foldl_add_term_ascending (m : List (Str × Nat)) :
    ∀ d : Document, Ascending m → (∀ a ∈ d.terms, ∀ e ∈ m, a.1 < e.1) →
      m.foldl (fun d e => d.add_term e.1 e.2) d =
        { d with terms :=
            d.terms ++ m.map (fun e => (e.1, { wdf := e.2, positions := [] })) } := by
  induction m with
  | nil => intro d _ _; simp
  | cons x rest ih =>
    intro d hm hd
    have hm2 := List.pairwise_cons.mp hm
    have hlt : ∀ a ∈ d.terms, a.1 < x.1 := fun a ha => hd a ha x (List.mem_cons_self _ _)
    have habsent : d.term x.1 = none := mapFind_of_forall_gt _ _ hlt
    have hstep : d.add_term x.1 x.2 =
        { d with terms := d.terms ++ [(x.1, { wdf := x.2, positions := [] })] } := by
      rw [term_add_term_absent d x.1 x.2 habsent, mapInsert_of_forall_gt _ _ _ hlt]
    simp only [List.foldl_cons, hstep, List.map_cons]
    rw [ih _ hm2.2]
    · simp
    · intro a ha e he
      rcases List.mem_append.mp ha with h | h
      · exact hd a h e (List.mem_cons_of_mem _ he)
      · simp only [List.mem_singleton] at h
        rw [h]; exact hm2.1 e he

theorem clearAllTermPositions_terms (doc : Document) (hwf : doc.WF) :
    clearAllTermPositions doc =
      { doc with terms :=
          doc.terms.map (fun e => (e.1, { wdf := e.2.wdf, positions := [] })) } := by
  have hmap : doc.terms.foldl (fun m e => mapInsert e.1 e.2.wdf m) [] =
      doc.terms.map (fun e => (e.1, e.2.wdf)) := by
    have h := foldl_mapInsert_ascending (fun t : OmDocumentTerm => t.wdf) doc.terms []
      hwf.1 (fun a ha => absurd ha (List.not_mem_nil a))
    simpa using h
  have hasc : Ascending (doc.terms.map (fun e => (e.1, e.2.wdf))) := by
    unfold Ascending
    rw [List.pairwise_map]
    exact hwf.1
  have h2 := foldl_add_term_ascending (doc.terms.map (fun e => (e.1, e.2.wdf)))
    doc.clear_terms hasc (fun a ha => absurd ha (by simp [Document.clear_terms]))
  simp only [clearAllTermPositions, Document.termlist_begin, hmap, h2]
  simp [Document.clear_terms, List.map_map, Function.comp]

/-- C11: clear-all-positions leaves every term of the document in place with
its previous frequency and an empty position list, adds no term, and leaves
the values and the data as they were. -/
theorem clearAllTermPositions_keeps_frequencies (doc : Document) (hwf : doc.WF) :
    (∀ tname, (clearAllTermPositions doc).term tname =
      (doc.term tname).map (fun t => { wdf := t.wdf, positions := [] })) ∧
    (clearAllTermPositions doc).values = doc.values ∧
    (clearAllTermPositions doc).data = doc.data := by
  rw [clearAllTermPositions_terms doc hwf]
  refine ⟨?_, rfl, rfl⟩
  intro tname
  exact mapFind_map (fun t : OmDocumentTerm => ({ wdf := t.wdf, positions := [] } :
    OmDocumentTerm)) tname doc.terms

/-- Witness for C11 on the sample document: `cat` keeps frequency 5, `dog`
keeps frequency 2, `cow` stays absent. -/
theorem clearAllTermPositions_keeps_frequencies_witness :
    (clearAllTermPositions sampleDoc).term (str "cat") =
      some { wdf := 5, positions := [] } ∧
    (clearAllTermPositions sampleDoc).term (str "dog") =
      some { wdf := 2, positions := [] } ∧
    (clearAllTermPositions sampleDoc).term (str "cow") = none :=
  have h := (clearAllTermPositions_keeps_frequencies sampleDoc (by decide)).1
  ⟨(h (str "cat")).trans (by decide), (h (str "dog")).trans (by decide),
   (h (str "cow")).trans (by decide)⟩

/-! ## The `ignore` flag and errors (C12, C13) -/

/-- C12, the code as written: on the sample document, which has no term
`cow`, set-word-frequency, decrease-word-frequency and
clear-positions-of-term with `ignore` set all raise `BadArgumentDriverError`
(the document is as it was). -/
theorem ignore_does_not_cover_missing_term :
    trySetWDF sampleDoc (str "cow") 9 true =
      { doc := sampleDoc, raised := some (.driver .BadArgumentDriverError) } ∧
    tryDecreaseWDF sampleDoc (str "cow") 1 true =
      { doc := sampleDoc, raised := some (.driver .BadArgumentDriverError) } ∧
    tryClearTermPositions sampleDoc (str "cow") true =
      { doc := sampleDoc, raised := some (.driver .BadArgumentDriverError) } := by
  decide

/-- C13, refuted as stated: on the sample document, which has no term `cow`,
the engine call `remove_term` raises `InvalidArgumentError`, and remove-term
with `ignore` set returns normally. -/
theorem tryRemoveTerm_swallows_engine_error :
    ¬ (∀ e, sampleDoc.remove_term (str "cow") = .error e →
        (tryRemoveTerm sampleDoc (str "cow") true).raised = some (.xapian e)) := by
  intro h
  exact absurd (h .InvalidArgumentError (by decide)) (by decide)

/-- C13, amended: with `ignore` set, the removal operations suppress the
engine's `InvalidArgumentError` for a term, value or posting that is not
there (a posting is not there when the term is missing, and also when the
term is there but does not occur at the position): they return normally with
the document as it was, while without `ignore` that error reaches the caller;
a removal that the engine carries out ends normally with the engine's
document, whatever `ignore` is; and the `catch` handlers of the edit
operations let every other engine error through. -/
theorem ignore_suppresses_only_invalid_argument (doc : Document) (tname : Str)
    (slot tpos wdf : Nat) :
    (doc.term tname = none →
      tryRemoveTerm doc tname true = { doc := doc, raised := none } ∧
      tryRemoveTerm doc tname false =
        { doc := doc, raised := some (.xapian .InvalidArgumentError) }) ∧
    ((∀ t, doc.term tname = some t → tpos ∉ t.positions) →
      tryRemovePosting doc tname tpos wdf true = { doc := doc, raised := none } ∧
      tryRemovePosting doc tname tpos wdf false =
        { doc := doc, raised := some (.xapian .InvalidArgumentError) }) ∧
    (doc.value slot = none →
      tryRemoveValue doc slot true = { doc := doc, raised := none } ∧
      tryRemoveValue doc slot false =
        { doc := doc, raised := some (.xapian .InvalidArgumentError) }) ∧
    (∀ (ignore : Bool) (doc1 : Document),
      (doc.remove_term tname = .ok doc1 →
        tryRemoveTerm doc tname ignore = { doc := doc1, raised := none }) ∧
      (doc.remove_posting tname tpos wdf = .ok doc1 →
        tryRemovePosting doc tname tpos wdf ignore = { doc := doc1, raised := none }) ∧
      (doc.remove_value slot = .ok doc1 →
        tryRemoveValue doc slot ignore = { doc := doc1, raised := none })) ∧
    (∀ (r : Effect) (e : XapianError), e ≠ .InvalidArgumentError →
      r.raised = some (.xapian e) →
      r.catchInvalidArgument = r ∧ r.catchInvalidArgumentOrBadCommand = r) := by
  refine ⟨?_, ?_, ?_, ?_, ?_⟩
  · intro h
    unfold Document.term at h
    simp [tryRemoveTerm, Document.remove_term, h, Effect.engine,
      Effect.catchInvalidArgument]
  · intro h
    unfold Document.term at h
    cases ht : mapFind tname doc.terms with
    | none =>
      simp [tryRemovePosting, Document.remove_posting, ht, Effect.engine,
        Effect.catchInvalidArgument]
    | some t =>
      have hpos : tpos ∉ t.positions := h t ht
      simp [tryRemovePosting, Document.remove_posting, ht,
        OmDocumentTerm.remove_position, hpos, Effect.engine, Effect.catchInvalidArgument]
  · intro h
    unfold Document.value at h
    simp [tryRemoveValue, Document.remove_value, h, Effect.engine,
      Effect.catchInvalidArgument]
  · intro ignore doc1
    refine ⟨?_, ?_, ?_⟩
    · intro h
      cases ignore <;>
        simp [tryRemoveTerm, h, Effect.engine, Effect.catchInvalidArgument]
    · intro h
      cases ignore <;>
        simp [tryRemovePosting, h, Effect.engine, Effect.catchInvalidArgument]
    · intro h
      cases ignore <;>
        simp [tryRemoveValue, h, Effect.engine, Effect.catchInvalidArgument]
  · intro r e he hr
    cases e <;>
      simp_all [Effect.catchInvalidArgument, Effect.catchInvalidArgumentOrBadCommand]

/-- Witness for the amended C13 on the sample document: `cow` is not a term
and slot 1 holds no value; `cat` is a term that does not occur at position 5,
and it does occur at position 7; an effect that ended in the engine's
`DatabaseError` passes both handlers. -/
theorem ignore_suppresses_only_invalid_argument_witness :
    tryRemoveTerm sampleDoc (str "cow") true = { doc := sampleDoc, raised := none } ∧
    tryRemoveValue sampleDoc 1 false =
      { doc := sampleDoc, raised := some (.xapian .InvalidArgumentError) } ∧
    tryRemovePosting sampleDoc (str "cat") 5 1 true =
      { doc := sampleDoc, raised := none } ∧
    tryRemovePosting sampleDoc (str "cat") 5 1 false =
      { doc := sampleDoc, raised := some (.xapian .InvalidArgumentError) } ∧
    tryRemovePosting sampleDoc (str "cat") 7 1 true =
      { doc :=
          { data := str "x"
            values := [(0, str "42"), (3, str "a")]
            terms := [(str "cat", { wdf := 4, positions := [3, 12] }),
                      (str "dog", { wdf := 2, positions := [666] })] }
        raised := none } ∧
    Effect.catchInvalidArgument
        { doc := sampleDoc, raised := some (.xapian .DatabaseError) } =
      { doc := sampleDoc, raised := some (.xapian .DatabaseError) } :=
  have h := ignore_suppresses_only_invalid_argument sampleDoc (str "cow") 1 0 0
  have hcat := ignore_suppresses_only_invalid_argument sampleDoc (str "cat") 1 5 1
  have hcat7 := ignore_suppresses_only_invalid_argument sampleDoc (str "cat") 1 7 1
  ⟨(h.1 (by decide)).1, (h.2.2.1 (by decide)).2,
   (hcat.2.1 (by
      intro t ht
      have ht2 : t = { wdf := 5, positions := [3, 7, 12] } :=
        (Option.some.inj ((show sampleDoc.term (str "cat") =
          some { wdf := 5, positions := [3, 7, 12] } by decide).symm.trans ht)).symm
      rw [ht2]; decide)).1,
   (hcat.2.1 (by
      intro t ht
      have ht2 : t = { wdf := 5, positions := [3, 7, 12] } :=
        (Option.some.inj ((show sampleDoc.term (str "cat") =
          some { wdf := 5, positions := [3, 7, 12] } by decide).symm.trans ht)).symm
      rw [ht2]; decide)).2,
   ((hcat7.2.2.2.1 true _).2.1 (by decide)),
   (h.2.2.2.2 { doc := sampleDoc, raised := some (.xapian .DatabaseError) } .DatabaseError
      (by decide) rfl).1⟩

/-! ## Table lookups of the query parser (C17, C18) -/

/-- C17, the code as written: the table `PARSER_FEATURES` has 13 entries,
indexed 0 to 12, and `idToParserFeature` accepts the feature id 13: it raises
nothing and reads past the last entry; id 14 is the first one refused. -/
theorem idToParserFeature_accepts_count :
    PARSER_FEATURES.length = 13 ∧
    idToParserFeature 13 = .ok none ∧
    idToParserFeature 12 = .ok (some .FLAG_DEFAULT) ∧
    idToParserFeature 14 = .error (.driver (.BadCommandDriverError 14)) := by
  decide

/-- C18, the code as written: the table `STEM_STRATEGIES` has 3 entries,
indexed 0 to 2, and `readStemmingStrategy` accepts the code 3: it raises
nothing and reads past the last entry; code 4 is the first one refused. -/
theorem readStemmingStrategy_accepts_count :
    STEM_STRATEGIES.length = 3 ∧
    readStemmingStrategy [3] = .ok (none, []) ∧
    readStemmingStrategy [2] = .ok (some .STEM_ALL, []) ∧
    readStemmingStrategy [4] = .error (.driver (.BadCommandDriverError 4)) := by
  decide

/-! ## Round trips of the wire codec -/

theorem uint8_cons (b : Nat) (rest : List Nat) :
    ParamDecoder.uint8 (b :: rest) = .ok (b % 256, rest) := rfl

theorem uint32_put (n : Nat) (rest : List Nat) (h : n < WORD) :
    ParamDecoder.uint32 (ParamDecoder.putUInt32 n ++ rest) = .ok (n, rest) := by
  have h2 : n < 4294967296 := h
  have hval : n % 256 % 256 + 256 * (n / 256 % 256 % 256) +
      65536 * (n / 65536 % 256 % 256) + 16777216 * (n / 16777216 % 256 % 256) = n := by
    omega
  simp only [ParamDecoder.uint32, ParamDecoder.putUInt32, List.cons_append,
    List.nil_append, hval]

theorem bool_put (b : Bool) (rest : List Nat) :
    ParamDecoder.bool (ParamDecoder.putBool b ++ rest) = .ok (b, rest) := by
  cases b <;> simp [ParamDecoder.bool, ParamDecoder.putBool]

theorem string_put (s : Str) (rest : List Nat) (h : s.length < WORD) :
    ParamDecoder.string (ParamDecoder.putString s ++ rest) = .ok (s, rest) := by
  simp [ParamDecoder.string, ParamDecoder.putString, List.append_assoc,
    uint32_put s.length (s ++ rest) h]

theorem double_put (d rest : List Nat) (h : d.length = 8) :
    ParamDecoder.double (d ++ rest) = .ok (d, rest) := by
  have h1 : ¬ (d.length + rest.length < 8) := by omega
  have h2 : List.take 8 (d ++ rest) = d := by
    rw [← h]; exact List.take_left' rfl
  have h3 : List.drop 8 (d ++ rest) = rest := by
    rw [← h]; exact List.drop_left' rfl
  simp [ParamDecoder.double, h1, h2, h3]

theorem stem_put (stemmer : Stem) (rest : List Nat) (h : stemmer.language.length < WORD) :
    ParamDecoder.stem (ParamDecoder.putString stemmer.language ++ rest) =
      .ok (stemmer, rest) := by
  simp [ParamDecoder.stem, string_put stemmer.language rest h]

/-! ## The edit interpreter runs the encoded program (C14) -/

theorem applyField_encoded (E : TextEngine) (V : CaseTable valueType)
    (op : EditOperation) (h : op.WellFormed) (tg : TermGenerator) (doc : Document)
    (tail : List Nat) :
    applyField E V op.tag tg doc (op.fields V ++ tail) =
      ((op.apply E tg doc).1, Applied.ofEffect (op.apply E tg doc).2 tail) := by
  have hv : ∀ t, V.toByte t % 256 = V.toByte t := fun t => Nat.mod_eq_of_lt (V.toByte_lt t)
  cases op with
  | setStemmer stemmer =>
    simp [applyField, EditOperation.tag, EditOperation.fields, EditOperation.apply,
      stem_put stemmer tail h, Applied.ofEffect, Effect.done]
  | setData data =>
    simp [applyField, EditOperation.tag, EditOperation.fields, EditOperation.apply,
      string_put data tail h, withRead, Applied.ofEffect, Effect.done]
  | advancePosition delta =>
    simp [applyField, EditOperation.tag, EditOperation.fields, EditOperation.apply,
      uint32_put delta tail h, Applied.ofEffect, Effect.done]
  | indexText text wdf_inc pfx =>
    obtain ⟨h1, h2, h3⟩ := h
    simp [applyField, EditOperation.tag, EditOperation.fields, EditOperation.apply,
      List.append_assoc, string_put text _ h1, uint32_put wdf_inc _ h2,
      string_put pfx tail h3, Applied.ofEffect, Effect.done]
  | term action tname wdf ignore =>
    obtain ⟨h1, h2⟩ := h
    cases action <;>
      simp [applyField, EditOperation.tag, EditOperation.fields, EditOperation.apply,
        EditAction.termTag, handleTermFrom, withRead, List.append_assoc,
        string_put tname _ h1, uint32_put wdf _ h2, bool_put ignore tail]
  | value action slot v ignore =>
    cases v with
    | string sv =>
      obtain ⟨h1, h2⟩ := h
      cases action <;>
        simp [applyField, EditOperation.tag, EditOperation.fields, EditOperation.apply,
          EditAction.valueTag, handleValueFrom, decodeValue, withRead, List.append_assoc,
          uint32_put slot _ h1, uint8_cons, hv, V.ofByte_toByte, string_put sv _ h2,
          bool_put ignore tail, ValueArg.stored]
    | double d =>
      obtain ⟨h1, h2⟩ := h
      cases action <;>
        simp [applyField, EditOperation.tag, EditOperation.fields, EditOperation.apply,
          EditAction.valueTag, handleValueFrom, decodeValue, withRead, List.append_assoc,
          uint32_put slot _ h1, uint8_cons, hv, V.ofByte_toByte, double_put d _ h2,
          bool_put ignore tail, ValueArg.stored]
  | posting action tname tpos wdf ignore =>
    obtain ⟨h1, h2, h3⟩ := h
    cases action <;>
      simp [applyField, EditOperation.tag, EditOperation.fields, EditOperation.apply,
        EditAction.postingTag, handlePostingFrom, withRead, List.append_assoc,
        string_put tname _ h1, uint32_put tpos _ h2, uint32_put wdf _ h3,
        bool_put ignore tail]
  | setWordFrequency tname wdf ignore =>
    obtain ⟨h1, h2⟩ := h
    simp [applyField, EditOperation.tag, EditOperation.fields, EditOperation.apply,
      withRead, List.append_assoc, string_put tname _ h1, uint32_put wdf _ h2,
      bool_put ignore tail]
  | decreaseWordFrequency tname wdf ignore =>
    obtain ⟨h1, h2⟩ := h
    simp [applyField, EditOperation.tag, EditOperation.fields, EditOperation.apply,
      withRead, List.append_assoc, string_put tname _ h1, uint32_put wdf _ h2,
      bool_put ignore tail]
  | clearValues =>
    simp [applyField, EditOperation.tag, EditOperation.fields, EditOperation.apply,
      Applied.ofEffect, Effect.done]
  | clearTerms =>
    simp [applyField, EditOperation.tag, EditOperation.fields, EditOperation.apply,
      Applied.ofEffect, Effect.done]
  | clearAllPositions =>
    simp [applyField, EditOperation.tag, EditOperation.fields, EditOperation.apply,
      Applied.ofEffect, Effect.done]
  | clearPositionsOfTerm tname ignore =>
    simp [applyField, EditOperation.tag, EditOperation.fields, EditOperation.apply,
      withRead, List.append_assoc, string_put tname _ h, bool_put ignore tail]

theorem applyDocumentLoop_encoded (E : TextEngine) (F : TagTable fieldTypeIn)
    (V : CaseTable valueType) (rest : List Nat) :
    ∀ ops : List EditOperation, (∀ op ∈ ops, op.WellFormed) →
      ∀ (fuel : Nat) (tg : TermGenerator) (doc : Document), ops.length < fuel →
        ∃ r, applyDocumentLoop E F V fuel tg doc (encodeOps F V ops ++ 0 :: rest) =
            some r ∧
          r.doc = (applyOps E ops tg doc).doc ∧
          r.raised = (applyOps E ops tg doc).raised ∧
          (r.raised = none → r.params = rest) := by
  intro ops
  induction ops with
  | nil =>
    intro _ fuel tg doc hfuel
    obtain ⟨f, rfl⟩ : ∃ f, fuel = f + 1 := ⟨fuel - 1, by omega⟩
    exact ⟨{ doc := doc, raised := none, params := rest },
      by simp [applyDocumentLoop, encodeOps, uint8_cons], rfl, rfl, fun _ => rfl⟩
  | cons op ops ih =>
    intro hwf fuel tg doc hfuel
    obtain ⟨f, rfl⟩ : ∃ f, fuel = f + 1 := ⟨fuel - 1, by omega⟩
    have hop : op.WellFormed := hwf op (List.mem_cons_self _ _)
    have hrest : ∀ o ∈ ops, o.WellFormed := fun o ho => hwf o (List.mem_cons_of_mem _ ho)
    have hf : ops.length < f := by
      simp only [List.length_cons] at hfuel; omega
    have hbyte : F.toByte op.tag % 256 = F.toByte op.tag :=
      Nat.mod_eq_of_lt (F.toByte_lt op.tag)
    have hne : ¬ F.toByte op.tag = 0 := Nat.pos_iff_ne_zero.mp (F.toByte_pos op.tag)
    have hstep := applyField_encoded E V op hop tg doc (encodeOps F V ops ++ 0 :: rest)
    have hrun : applyDocumentLoop E F V (f + 1) tg doc
        (encodeOps F V (op :: ops) ++ 0 :: rest) =
        match (op.apply E tg doc).2.raised with
        | some _ =>
          some (Applied.ofEffect (op.apply E tg doc).2 (encodeOps F V ops ++ 0 :: rest))
        | none =>
          applyDocumentLoop E F V f (op.apply E tg doc).1 (op.apply E tg doc).2.doc
            (encodeOps F V ops ++ 0 :: rest) := by
      simp only [encodeOps, EditOperation.encode, List.cons_append, List.append_assoc,
        applyDocumentLoop, uint8_cons, hbyte, if_neg hne, F.ofByte_toByte, hstep,
        Applied.ofEffect]
    rw [hrun]
    cases hr : (op.apply E tg doc).2.raised with
    | some e =>
      refine ⟨_, rfl, ?_, ?_, ?_⟩
      · simp [applyOps, hr, Applied.ofEffect]
      · simp [applyOps, hr, Applied.ofEffect]
      · intro h0; simp [Applied.ofEffect, hr] at h0
    | none =>
      obtain ⟨r, h1, h2, h3, h4⟩ :=
        ih hrest f (op.apply E tg doc).1 (op.apply E tg doc).2.doc hf
      exact ⟨r, h1, by simp [applyOps, hr, h2], by simp [applyOps, hr, h3], h4⟩

theorem length_le_encodeOps (F : TagTable fieldTypeIn) (V : CaseTable valueType)
    (ops : List EditOperation) : ops.length ≤ (encodeOps F V ops).length := by
  induction ops with
  | nil => simp [encodeOps]
  | cons op ops ih =>
    simp only [encodeOps, EditOperation.encode, List.length_cons, List.cons_append,
      List.length_append]
    omega

/-- C14: for well-formed operations `ops` and any trailing bytes `rest`,
`applyDocument` run on the encoding of `ops`, the zero tag and `rest` returns
(the loop ends within its fuel); the document it leaves and the exception it
ends with are those of applying the operations one by one in order, stopping
at the first one that raises; and when nothing is raised the cursor stands
right after the zero tag, with `rest` unread. -/
theorem applyDocument_runs_program (E : TextEngine) (F : TagTable fieldTypeIn)
    (V : CaseTable valueType) (m_default_stemmer : Stem) (ops : List EditOperation)
    (rest : List Nat) (doc : Document) (hwf : ∀ op ∈ ops, op.WellFormed) :
    ∃ r, applyDocument E F V m_default_stemmer (encodeOps F V ops ++ 0 :: rest) doc =
        some r ∧
      r.doc = (applyOps E ops { stemmer := m_default_stemmer, termpos := 0 } doc).doc ∧
      r.raised =
        (applyOps E ops { stemmer := m_default_stemmer, termpos := 0 } doc).raised ∧
      (r.raised = none → r.params = rest) := by
  unfold applyDocument
  apply applyDocumentLoop_encoded E F V rest ops hwf
  have := length_le_encodeOps F V ops
  simp only [List.length_append, List.length_cons]
  omega

/-- Witness for C14: the sample program followed by the zero tag and the
bytes 9, 9, run on the sample document, sets the data, adds `cow` and fills
slot 1, and leaves 9, 9 unread. -/
theorem applyDocument_runs_program_witness :
    (∃ r, applyDocument sampleTextEngine sampleFieldTags sampleValueTags
          { language := str "en" }
          (encodeOps sampleFieldTags sampleValueTags sampleOps ++ 0 :: [9, 9])
          sampleDoc = some r ∧
      r.doc = (applyOps sampleTextEngine sampleOps
        { stemmer := { language := str "en" }, termpos := 0 } sampleDoc).doc ∧
      r.raised = (applyOps sampleTextEngine sampleOps
        { stemmer := { language := str "en" }, termpos := 0 } sampleDoc).raised ∧
      (r.raised = none → r.params = [9, 9])) ∧
    applyDocument sampleTextEngine sampleFieldTags sampleValueTags
        { language := str "en" }
        (encodeOps sampleFieldTags sampleValueTags sampleOps ++ 0 :: [9, 9])
        sampleDoc =
      some { doc :=
               { data := str "v2"
                 values := [(0, str "42"), (1, str "7"), (3, str "a")]
                 terms := [(str "cat", { wdf := 5, positions := [3, 7, 12] }),
                           (str "cow", { wdf := 3, positions := [] }),
                           (str "dog", { wdf := 2, positions := [666] })] }
             raised := none
             params := [9, 9] } :=
  ⟨applyDocument_runs_program sampleTextEngine sampleFieldTags sampleValueTags
      { language := str "en" } sampleOps [9, 9] sampleDoc (by decide),
   by decide⟩

/-! ## Parser programs and the session's parsers (C19) -/

theorem readParserCase_encoded (S : ParserState) (Ty : CaseTable queryParserType)
    (c : ParserCommand) (h : c.WellFormed) (qp : QueryParser) (tail : List Nat) :
    readParserCase S Ty c.tag qp (c.fields Ty ++ tail) = .ok (c.apply S qp, tail) := by
  cases c with
  | setStemmer stemmer =>
    simp [readParserCase, ParserCommand.tag, ParserCommand.fields, ParserCommand.apply,
      stem_put stemmer tail h]
  | setStemmingStrategy strategy =>
    cases strategy <;>
      simp [readParserCase, ParserCommand.tag, ParserCommand.fields, ParserCommand.apply,
        readStemmingStrategy, ParamDecoder.putUInt8, uint8_cons, stem_strategy.code,
        STEM_STRATEGY_COUNT, STEM_STRATEGIES]
  | setMaxWildcardExpansion limit =>
    simp [readParserCase, ParserCommand.tag, ParserCommand.fields, ParserCommand.apply,
      uint32_put limit tail h]
  | setDefaultOp default_op =>
    have h2 : default_op % 256 = default_op := Nat.mod_eq_of_lt h
    simp [readParserCase, ParserCommand.tag, ParserCommand.fields, ParserCommand.apply,
      ParamDecoder.putUInt8, uint8_cons, h2]
  | selectParser type =>
    have h2 : Ty.toByte type % 256 = Ty.toByte type := Nat.mod_eq_of_lt (Ty.toByte_lt type)
    cases type <;>
      simp [readParserCase, ParserCommand.tag, ParserCommand.fields, ParserCommand.apply,
        XapianErlang.selectParser, uint8_cons, h2, Ty.ofByte_toByte]
  | addPrefix field pfx is_boolean is_exclusive =>
    obtain ⟨h1, h2⟩ := h
    cases is_boolean <;>
      simp [readParserCase, ParserCommand.tag, ParserCommand.fields, ParserCommand.apply,
        XapianErlang.addPrefix, List.append_assoc, string_put field _ h1,
        string_put pfx _ h2, bool_put]

theorem readParserLoop_encoded (S : ParserState) (P : TagTable queryParserCommand)
    (Ty : CaseTable queryParserType) (rest : List Nat) :
    ∀ (cs : List ParserCommand) (c : ParserCommand) (qp : QueryParser) (fuel : Nat),
      (∀ x ∈ c :: cs, x.WellFormed) → cs.length < fuel →
        readParserLoop S P Ty fuel qp (P.toByte c.tag)
            (c.fields Ty ++ (encodeParserCommands P Ty cs ++ 0 :: rest)) =
          some (.ok ((c :: cs).foldl (fun q x => x.apply S q) qp, rest)) := by
  intro cs
  induction cs with
  | nil =>
    intro c qp fuel hwf hfuel
    obtain ⟨f, rfl⟩ : ∃ f, fuel = f + 1 := ⟨fuel - 1, by omega⟩
    have hc := hwf c (List.mem_cons_self _ _)
    simp [readParserLoop, P.ofByte_toByte, readParserCase_encoded S Ty c hc,
      encodeParserCommands, uint8_cons]
  | cons c2 cs ih =>
    intro c qp fuel hwf hfuel
    obtain ⟨f, rfl⟩ : ∃ f, fuel = f + 1 := ⟨fuel - 1, by omega⟩
    have hc := hwf c (List.mem_cons_self _ _)
    have hrest : ∀ x ∈ c2 :: cs, x.WellFormed :=
      fun x hx => hwf x (List.mem_cons_of_mem _ hx)
    have hf : cs.length < f := by
      simp only [List.length_cons] at hfuel; omega
    have hbyte : P.toByte c2.tag % 256 = P.toByte c2.tag :=
      Nat.mod_eq_of_lt (P.toByte_lt c2.tag)
    have hne : ¬ P.toByte c2.tag = 0 := Nat.pos_iff_ne_zero.mp (P.toByte_pos c2.tag)
    have hnext := ih c2 (c.apply S qp) f hrest hf
    simp only [readParserLoop, P.ofByte_toByte, readParserCase_encoded S Ty c hc,
      encodeParserCommands, List.cons_append, List.append_assoc, uint8_cons, hbyte,
      if_neg hne, hnext, List.foldl_cons]

theorem length_le_encodeParserCommands (P : TagTable queryParserCommand)
    (Ty : CaseTable queryParserType) (l : List ParserCommand) :
    l.length ≤ (encodeParserCommands P Ty l).length := by
  induction l with
  | nil => simp [encodeParserCommands]
  | cons x xs ihx =>
    simp only [encodeParserCommands, List.length_cons, List.length_append]
    omega

/-- By configuration: a request whose first byte is zero gives the
configuration of the default parser, and a non-empty well-formed parser
program gives that configuration with the customisations of the program
applied in stream order. -/
theorem readParser_applies_in_order (S : ParserState) (P : TagTable queryParserCommand)
    (Ty : CaseTable queryParserType) (rest : List Nat) (cmds : List ParserCommand) :
    readParser S P Ty (0 :: rest) = some (.ok (S.m_parser_default, rest)) ∧
    (cmds ≠ [] → (∀ c ∈ cmds, c.WellFormed) →
      readParser S P Ty (encodeParserCommands P Ty cmds ++ 0 :: rest) =
        some (.ok (cmds.foldl (fun qp c => c.apply S qp) S.m_parser_default, rest))) := by
  refine ⟨?_, ?_⟩
  · simp [readParser, uint8_cons]
  · intro hne hwf
    cases cmds with
    | nil => exact absurd rfl hne
    | cons c cs =>
      have hbyte : P.toByte c.tag % 256 = P.toByte c.tag :=
        Nat.mod_eq_of_lt (P.toByte_lt c.tag)
      have hnz : ¬ P.toByte c.tag = 0 := Nat.pos_iff_ne_zero.mp (P.toByte_pos c.tag)
      have hlen : cs.length < (c.fields Ty ++
          (encodeParserCommands P Ty cs ++ 0 :: rest)).length + 1 := by
        have h2 := length_le_encodeParserCommands P Ty cs
        simp only [List.length_append, List.length_cons]
        omega
      have hloop := readParserLoop_encoded S P Ty rest cs c S.m_parser_default _ hwf hlen
      simp only [readParser, encodeParserCommands, List.cons_append, List.append_assoc,
        uint8_cons, hbyte, if_neg hnz, hloop]

theorem update_length (heap : ParserHeap) (f : QueryParser → QueryParser) :
    ∀ ref : Nat, (heap.update ref f).length = heap.length := by
  induction heap with
  | nil => intro ref; rfl
  | cons q heap ih =>
    intro ref
    cases ref with
    | zero => rfl
    | succ ref => simp only [ParserHeap.update, List.length_cons, ih ref]

theorem update_take (heap : ParserHeap) (f : QueryParser → QueryParser) :
    ∀ n ref : Nat, n ≤ ref → (heap.update ref f).take n = heap.take n := by
  induction heap with
  | nil => intro n ref _; rfl
  | cons q heap ih =>
    intro n ref h
    cases n with
    | zero => rfl
    | succ n =>
      cases ref with
      | zero => omega
      | succ ref =>
        simp only [ParserHeap.update, List.take_succ_cons, ih n ref (by omega)]

theorem copy_clone_frame (heap : ParserHeap) (ref n : Nat) (hn : n ≤ heap.length) :
    n ≤ (heap.copy .clone ref).1.length ∧
    (heap.copy .clone ref).1.take n = heap.take n ∧
    n ≤ (heap.copy .clone ref).2 := by
  cases h : heap[ref]? with
  | none =>
    have hlen : heap.length ≤ ref := List.getElem?_eq_none_iff.mp h
    simp only [ParserHeap.copy, h]
    exact ⟨hn, trivial, by omega⟩
  | some q =>
    simp only [ParserHeap.copy, h]
    refine ⟨by simp only [List.length_append]; omega, ?_, hn⟩
    exact List.take_append_of_le_length hn

/-- With cloning copies, one round of the loop writes to no object that was
there before the call, as long as the local handle is a new one. -/
theorem readParserCase_clone_frame (Ty : CaseTable queryParserType) (M : ParserMembers)
    (heap : ParserHeap) (command : queryParserCommand) (qp n : Nat)
    (params : ParamDecoder) (hn : n ≤ heap.length) (hqp : n ≤ qp) :
    n ≤ (Handle.readParserCase .clone Ty M heap command qp params).heap.length ∧
    (Handle.readParserCase .clone Ty M heap command qp params).heap.take n =
      heap.take n ∧
    ∀ qp1 params1,
      (Handle.readParserCase .clone Ty M heap command qp params).result =
        .ok (qp1, params1) → n ≤ qp1 := by
  cases command with
  | QP_PARSER_TYPE =>
    simp only [Handle.readParserCase, Handle.selectParser]
    cases h1 : ParamDecoder.uint8 params with
    | error e => exact ⟨hn, rfl, fun _ _ h => by simp at h⟩
    | ok v =>
      obtain ⟨type, p1⟩ := v
      dsimp only
      cases h2 : Ty.ofByte type with
      | none => exact ⟨hn, rfl, fun _ _ h => by simp at h⟩
      | some t =>
        cases t with
        | QP_TYPE_DEFAULT =>
          have hc := copy_clone_frame heap M.m_parser_default n hn
          refine ⟨hc.1, hc.2.1, ?_⟩
          intro qp1 params1 h
          simp only [Except.ok.injEq, Prod.mk.injEq] at h
          rw [← h.1]; exact hc.2.2
        | QP_TYPE_EMPTY =>
          have hc := copy_clone_frame heap M.m_parser_empty n hn
          refine ⟨hc.1, hc.2.1, ?_⟩
          intro qp1 params1 h
          simp only [Except.ok.injEq, Prod.mk.injEq] at h
          rw [← h.1]; exact hc.2.2
  | QP_STEMMER =>
    simp only [Handle.readParserCase]
    cases h1 : ParamDecoder.stem params with
    | error e => exact ⟨hn, rfl, fun _ _ h => by simp at h⟩
    | ok v =>
      obtain ⟨x, p1⟩ := v
      refine ⟨by simp only [update_length]; exact hn, update_take heap _ n qp hqp, ?_⟩
      intro qp1 params1 h
      simp only [Except.ok.injEq, Prod.mk.injEq] at h
      rw [← h.1]; exact hqp
  | QP_STEMMING_STRATEGY =>
    simp only [Handle.readParserCase]
    cases h1 : readStemmingStrategy params with
    | error e => exact ⟨hn, rfl, fun _ _ h => by simp at h⟩
    | ok v =>
      obtain ⟨x, p1⟩ := v
      refine ⟨by simp only [update_length]; exact hn, update_take heap _ n qp hqp, ?_⟩
      intro qp1 params1 h
      simp only [Except.ok.injEq, Prod.mk.injEq] at h
      rw [← h.1]; exact hqp
  | QP_MAX_WILDCARD_EXPANSION =>
    simp only [Handle.readParserCase]
    cases h1 : ParamDecoder.uint32 params with
    | error e => exact ⟨hn, rfl, fun _ _ h => by simp at h⟩
    | ok v =>
      obtain ⟨x, p1⟩ := v
      refine ⟨by simp only [update_length]; exact hn, update_take heap _ n qp hqp, ?_⟩
      intro qp1 params1 h
      simp only [Except.ok.injEq, Prod.mk.injEq] at h
      rw [← h.1]; exact hqp
  | QP_DEFAULT_OP =>
    simp only [Handle.readParserCase]
    cases h1 : ParamDecoder.uint8 params with
    | error e => exact ⟨hn, rfl, fun _ _ h => by simp at h⟩
    | ok v =>
      obtain ⟨x, p1⟩ := v
      refine ⟨by simp only [update_length]; exact hn, update_take heap _ n qp hqp, ?_⟩
      intro qp1 params1 h
      simp only [Except.ok.injEq, Prod.mk.injEq] at h
      rw [← h.1]; exact hqp
  | QP_PREFIX =>
    simp only [Handle.readParserCase, Handle.addPrefix]
    cases h1 : ParamDecoder.string params with
    | error e => exact ⟨hn, rfl, fun _ _ h => by simp at h⟩
    | ok v1 =>
      obtain ⟨field, p1⟩ := v1
      dsimp only
      cases h2 : ParamDecoder.string p1 with
      | error e => exact ⟨hn, rfl, fun _ _ h => by simp at h⟩
      | ok v2 =>
        obtain ⟨pfx, p2⟩ := v2
        dsimp only
        cases h3 : ParamDecoder.bool p2 with
        | error e => exact ⟨hn, rfl, fun _ _ h => by simp at h⟩
        | ok v3 =>
          obtain ⟨is_boolean, p3⟩ := v3
          dsimp only
          cases h4 : ParamDecoder.bool p3 with
          | error e => exact ⟨hn, rfl, fun _ _ h => by simp at h⟩
          | ok v4 =>
            obtain ⟨is_exclusive, p4⟩ := v4
            dsimp only
            cases is_boolean with
            | true =>
              simp only [if_true]
              refine ⟨by simp only [update_length]; exact hn,
                update_take heap _ n qp hqp, ?_⟩
              intro qp1 params1 h
              simp only [Except.ok.injEq, Prod.mk.injEq] at h
              rw [← h.1]; exact hqp
            | false =>
              simp only [Bool.false_eq_true, if_false]
              refine ⟨by simp only [update_length]; exact hn,
                update_take heap _ n qp hqp, ?_⟩
              intro qp1 params1 h
              simp only [Except.ok.injEq, Prod.mk.injEq] at h
              rw [← h.1]; exact hqp

/-- With cloning copies, the loop writes to no object that was there before
the call. -/
theorem readParserLoop_clone_frame (P : TagTable queryParserCommand)
    (Ty : CaseTable queryParserType) (M : ParserMembers) (n : Nat) :
    ∀ (fuel : Nat) (heap : ParserHeap) (qp command : Nat) (params : ParamDecoder)
      (r : Handle.Run), n ≤ heap.length → n ≤ qp →
      Handle.readParserLoop .clone P Ty M fuel heap qp command params = some r →
      r.heap.take n = heap.take n := by
  intro fuel
  induction fuel with
  | zero => intro heap qp command params r _ _ h; simp [Handle.readParserLoop] at h
  | succ fuel ih =>
    intro heap qp command params r hn hqp h
    simp only [Handle.readParserLoop] at h
    cases h1 : P.ofByte command with
    | none =>
      rw [h1] at h
      simp only [Option.some.injEq] at h
      rw [← h]
    | some tag =>
      rw [h1] at h
      dsimp only at h
      have hc := readParserCase_clone_frame Ty M heap tag qp n params hn hqp
      cases h2 : (Handle.readParserCase .clone Ty M heap tag qp params).result with
      | error e =>
        rw [h2] at h
        simp only [Option.some.injEq] at h
        rw [← h]; exact hc.2.1
      | ok v =>
        obtain ⟨qp1, p1⟩ := v
        rw [h2] at h
        dsimp only at h
        cases h3 : ParamDecoder.uint8 p1 with
        | error e =>
          rw [h3] at h
          simp only [Option.some.injEq] at h
          rw [← h]; exact hc.2.1
        | ok v3 =>
          obtain ⟨command1, p2⟩ := v3
          rw [h3] at h
          dsimp only at h
          by_cases hz : command1 = 0
          · simp only [hz, if_true, Option.some.injEq] at h
            rw [← h]; exact hc.2.1
          · simp only [hz, if_false] at h
            rw [ih _ qp1 command1 p2 r hc.1 (hc.2.2 qp1 p1 h2) h]
            exact hc.2.1

/-- With cloning copies, `readParser` leaves every parser object that was
there before the call as it was, whatever the request. -/
theorem readParser_clone_frame (P : TagTable queryParserCommand)
    (Ty : CaseTable queryParserType) (M : ParserMembers) (heap : ParserHeap)
    (params : ParamDecoder) (r : Handle.Run)
    (h : Handle.readParser .clone P Ty M heap params = some r) :
    r.heap.take heap.length = heap := by
  have hc := copy_clone_frame heap M.m_parser_default heap.length (Nat.le_refl _)
  simp only [Handle.readParser] at h
  cases h1 : ParamDecoder.uint8 params with
  | error e =>
    rw [h1] at h
    simp only [Option.some.injEq] at h
    rw [← h]; exact List.take_length heap
  | ok v =>
    obtain ⟨command, p1⟩ := v
    rw [h1] at h
    dsimp only at h
    by_cases hz : command = 0
    · simp only [hz, if_true, Option.some.injEq] at h
      rw [← h, hc.2.1]; exact List.take_length heap
    · simp only [hz, if_false] at h
      rw [readParserLoop_clone_frame P Ty M heap.length _ _ _ command p1 r hc.1 hc.2.2 h,
        hc.2.1]
      exact List.take_length heap

theorem readParserCase_shared (Ty : CaseTable queryParserType) (M : ParserMembers)
    (c : ParserCommand) (h : c.WellFormed) (heap : ParserHeap) (qp : Nat)
    (tail : List Nat) :
    Handle.readParserCase .share Ty M heap c.tag qp (c.fields Ty ++ tail) =
      { heap := (c.applyShared M (heap, qp)).1
        result := .ok ((c.applyShared M (heap, qp)).2, tail) } := by
  cases c with
  | setStemmer stemmer =>
    simp [Handle.readParserCase, ParserCommand.tag, ParserCommand.fields,
      ParserCommand.applyShared, stem_put stemmer tail h]
  | setStemmingStrategy strategy =>
    cases strategy <;>
      simp [Handle.readParserCase, ParserCommand.tag, ParserCommand.fields,
        ParserCommand.applyShared, readStemmingStrategy, ParamDecoder.putUInt8, uint8_cons,
        stem_strategy.code, STEM_STRATEGY_COUNT, STEM_STRATEGIES]
  | setMaxWildcardExpansion limit =>
    simp [Handle.readParserCase, ParserCommand.tag, ParserCommand.fields,
      ParserCommand.applyShared, uint32_put limit tail h]
  | setDefaultOp default_op =>
    have h2 : default_op % 256 = default_op := Nat.mod_eq_of_lt h
    simp [Handle.readParserCase, ParserCommand.tag, ParserCommand.fields,
      ParserCommand.applyShared, ParamDecoder.putUInt8, uint8_cons, h2]
  | selectParser type =>
    have h2 : Ty.toByte type % 256 = Ty.toByte type := Nat.mod_eq_of_lt (Ty.toByte_lt type)
    cases type <;>
      simp [Handle.readParserCase, ParserCommand.tag, ParserCommand.fields,
        ParserCommand.applyShared, Handle.selectParser, ParserHeap.copy, uint8_cons, h2,
        Ty.ofByte_toByte]
  | addPrefix field pfx is_boolean is_exclusive =>
    obtain ⟨h1, h2⟩ := h
    cases is_boolean <;>
      simp [Handle.readParserCase, ParserCommand.tag, ParserCommand.fields,
        ParserCommand.applyShared, Handle.addPrefix, List.append_assoc,
        string_put field _ h1, string_put pfx _ h2, bool_put]

theorem readParserLoop_shared (P : TagTable queryParserCommand)
    (Ty : CaseTable queryParserType) (M : ParserMembers) (rest : List Nat) :
    ∀ (cs : List ParserCommand) (c : ParserCommand) (heap : ParserHeap) (qp fuel : Nat),
      (∀ x ∈ c :: cs, x.WellFormed) → cs.length < fuel →
        Handle.readParserLoop .share P Ty M fuel heap qp (P.toByte c.tag)
            (c.fields Ty ++ (encodeParserCommands P Ty cs ++ 0 :: rest)) =
          some { heap := ((c :: cs).foldl (fun st x => x.applyShared M st) (heap, qp)).1
                 result :=
                   .ok (((c :: cs).foldl (fun st x => x.applyShared M st) (heap, qp)).2,
                     rest) } := by
  intro cs
  induction cs with
  | nil =>
    intro c heap qp fuel hwf hfuel
    obtain ⟨f, rfl⟩ : ∃ f, fuel = f + 1 := ⟨fuel - 1, by omega⟩
    have hc := hwf c (List.mem_cons_self _ _)
    simp [Handle.readParserLoop, P.ofByte_toByte, readParserCase_shared Ty M c hc,
      encodeParserCommands, uint8_cons]
  | cons c2 cs ih =>
    intro c heap qp fuel hwf hfuel
    obtain ⟨f, rfl⟩ : ∃ f, fuel = f + 1 := ⟨fuel - 1, by omega⟩
    have hc := hwf c (List.mem_cons_self _ _)
    have hrest : ∀ x ∈ c2 :: cs, x.WellFormed :=
      fun x hx => hwf x (List.mem_cons_of_mem _ hx)
    have hf : cs.length < f := by
      simp only [List.length_cons] at hfuel; omega
    have hbyte : P.toByte c2.tag % 256 = P.toByte c2.tag :=
      Nat.mod_eq_of_lt (P.toByte_lt c2.tag)
    have hne : ¬ P.toByte c2.tag = 0 := Nat.pos_iff_ne_zero.mp (P.toByte_pos c2.tag)
    have hnext := ih c2 (c.applyShared M (heap, qp)).1 (c.applyShared M (heap, qp)).2 f
      hrest hf
    simp only [Handle.readParserLoop, P.ofByte_toByte, readParserCase_shared Ty M c hc,
      encodeParserCommands, List.cons_append, List.append_assoc, uint8_cons, hbyte,
      if_neg hne, hnext, List.foldl_cons]

theorem update_getElem (heap : ParserHeap) (f : QueryParser → QueryParser) :
    ∀ ref : Nat, (heap.update ref f)[ref]? = (heap[ref]?).map f := by
  induction heap with
  | nil => intro ref; rfl
  | cons q heap ih =>
    intro ref
    cases ref with
    | zero => simp [ParserHeap.update]
    | succ ref => simpa [ParserHeap.update] using ih ref

/-- With cloning copies, one customisation read from its encoding leaves the
local handle on a new object that carries the customised configuration. -/
theorem readParserCase_cloned (Ty : CaseTable queryParserType) (M : ParserMembers)
    (S : ParserState) (c : ParserCommand) (hc : c.WellFormed) (heap : ParserHeap)
    (qp n : Nat) (q : QueryParser) (tail : List Nat)
    (hn : n ≤ heap.length) (hqp : n ≤ qp) (hq : heap[qp]? = some q)
    (hd : heap[M.m_parser_default]? = some S.m_parser_default)
    (he : heap[M.m_parser_empty]? = some S.m_parser_empty) :
    ∃ heap1 qp1,
      Handle.readParserCase .clone Ty M heap c.tag qp (c.fields Ty ++ tail) =
        { heap := heap1, result := .ok (qp1, tail) } ∧
      n ≤ heap1.length ∧ heap1.take n = heap.take n ∧ n ≤ qp1 ∧
      heap1[qp1]? = some (c.apply S q) := by
  have hup : ∀ f : QueryParser → QueryParser,
      n ≤ (heap.update qp f).length ∧ (heap.update qp f).take n = heap.take n ∧ n ≤ qp ∧
      (heap.update qp f)[qp]? = some (f q) := by
    intro f
    refine ⟨by rw [update_length]; exact hn, update_take heap f n qp hqp, hqp, ?_⟩
    rw [update_getElem, hq]; rfl
  cases c with
  | setStemmer stemmer =>
    refine ⟨heap.update qp (fun q => { q with stemmer := some stemmer }), qp, ?_, hup _⟩
    simp [Handle.readParserCase, ParserCommand.tag, ParserCommand.fields,
      stem_put stemmer tail hc]
  | setStemmingStrategy strategy =>
    refine ⟨heap.update qp (fun q => { q with stemming_strategy := some strategy }), qp,
      ?_, hup _⟩
    cases strategy <;>
      simp [Handle.readParserCase, ParserCommand.tag, ParserCommand.fields,
        readStemmingStrategy, ParamDecoder.putUInt8, uint8_cons, stem_strategy.code,
        STEM_STRATEGY_COUNT, STEM_STRATEGIES]
  | setMaxWildcardExpansion limit =>
    refine ⟨heap.update qp (fun q => { q with max_wildcard_expansion := limit }), qp,
      ?_, hup _⟩
    simp [Handle.readParserCase, ParserCommand.tag, ParserCommand.fields,
      uint32_put limit tail hc]
  | setDefaultOp default_op =>
    have h2 : default_op % 256 = default_op := Nat.mod_eq_of_lt hc
    refine ⟨heap.update qp (fun q => { q with default_op := default_op }), qp, ?_, hup _⟩
    simp [Handle.readParserCase, ParserCommand.tag, ParserCommand.fields,
      ParamDecoder.putUInt8, uint8_cons, h2]
  | selectParser type =>
    have h2 : Ty.toByte type % 256 = Ty.toByte type := Nat.mod_eq_of_lt (Ty.toByte_lt type)
    cases type with
    | QP_TYPE_DEFAULT =>
      refine ⟨heap ++ [S.m_parser_default], heap.length, ?_, ?_, ?_, hn, ?_⟩
      · simp [Handle.readParserCase, ParserCommand.tag, ParserCommand.fields,
          Handle.selectParser, ParserHeap.copy, uint8_cons, h2, Ty.ofByte_toByte, hd]
      · simp only [List.length_append]; omega
      · exact List.take_append_of_le_length hn
      · simp [ParserCommand.apply]
    | QP_TYPE_EMPTY =>
      refine ⟨heap ++ [S.m_parser_empty], heap.length, ?_, ?_, ?_, hn, ?_⟩
      · simp [Handle.readParserCase, ParserCommand.tag, ParserCommand.fields,
          Handle.selectParser, ParserHeap.copy, uint8_cons, h2, Ty.ofByte_toByte, he]
      · simp only [List.length_append]; omega
      · exact List.take_append_of_le_length hn
      · simp [ParserCommand.apply]
  | addPrefix field pfx is_boolean is_exclusive =>
    obtain ⟨h1, h2⟩ := hc
    cases is_boolean with
    | true =>
      refine ⟨heap.update qp (fun q =>
        { q with prefixes := q.prefixes ++ [.boolean field pfx is_exclusive] }), qp, ?_,
        hup _⟩
      simp [Handle.readParserCase, ParserCommand.tag, ParserCommand.fields,
        Handle.addPrefix, List.append_assoc, string_put field _ h1, string_put pfx _ h2,
        bool_put]
    | false =>
      refine ⟨heap.update qp (fun q =>
        { q with prefixes := q.prefixes ++ [.plain field pfx] }), qp, ?_, hup _⟩
      simp [Handle.readParserCase, ParserCommand.tag, ParserCommand.fields,
        Handle.addPrefix, List.append_assoc, string_put field _ h1, string_put pfx _ h2,
        bool_put]

theorem readParserLoop_cloned (P : TagTable queryParserCommand)
    (Ty : CaseTable queryParserType) (M : ParserMembers) (S : ParserState)
    (heap0 : ParserHeap) (rest : List Nat)
    (hd0 : heap0[M.m_parser_default]? = some S.m_parser_default)
    (he0 : heap0[M.m_parser_empty]? = some S.m_parser_empty) :
    ∀ (cs : List ParserCommand) (c : ParserCommand) (heap : ParserHeap) (qp fuel : Nat)
      (q : QueryParser),
      (∀ x ∈ c :: cs, x.WellFormed) → cs.length < fuel →
      heap0.length ≤ heap.length → heap.take heap0.length = heap0 → heap0.length ≤ qp →
      heap[qp]? = some q →
      ∃ r qp1, Handle.readParserLoop .clone P Ty M fuel heap qp (P.toByte c.tag)
            (c.fields Ty ++ (encodeParserCommands P Ty cs ++ 0 :: rest)) = some r ∧
        r.result = .ok (qp1, rest) ∧
        r.heap[qp1]? = some ((c :: cs).foldl (fun p x => x.apply S p) q) := by
  have hmem : ∀ (heap : ParserHeap) (i : Nat) (v : QueryParser),
      heap.take heap0.length = heap0 → heap0[i]? = some v → heap[i]? = some v := by
    intro heap i v ht hv
    have hi : i < heap0.length := by
      by_contra hcon
      have : heap0[i]? = none := List.getElem?_eq_none_iff.mpr (by omega)
      rw [this] at hv
      exact Option.noConfusion hv
    have h1 : (heap.take heap0.length)[i]? = heap[i]? := by
      rw [List.getElem?_take, if_pos hi]
    rw [← h1, ht]; exact hv
  intro cs
  induction cs with
  | nil =>
    intro c heap qp fuel q hwf hfuel hn ht hqp hq
    obtain ⟨f, rfl⟩ : ∃ f, fuel = f + 1 := ⟨fuel - 1, by omega⟩
    obtain ⟨heap1, qp1, hcase, _, _, _, hget⟩ :=
      readParserCase_cloned Ty M S c (hwf c (List.mem_cons_self _ _)) heap qp heap0.length
        q (0 :: rest) hn hqp hq (hmem heap _ _ ht hd0) (hmem heap _ _ ht he0)
    refine ⟨{ heap := heap1, result := .ok (qp1, rest) }, qp1, ?_, rfl, ?_⟩
    · simp [Handle.readParserLoop, P.ofByte_toByte, encodeParserCommands, hcase, uint8_cons]
    · simpa using hget
  | cons c2 cs ih =>
    intro c heap qp fuel q hwf hfuel hn ht hqp hq
    obtain ⟨f, rfl⟩ : ∃ f, fuel = f + 1 := ⟨fuel - 1, by omega⟩
    have hrest : ∀ x ∈ c2 :: cs, x.WellFormed :=
      fun x hx => hwf x (List.mem_cons_of_mem _ hx)
    have hf : cs.length < f := by
      simp only [List.length_cons] at hfuel; omega
    have hbyte : P.toByte c2.tag % 256 = P.toByte c2.tag :=
      Nat.mod_eq_of_lt (P.toByte_lt c2.tag)
    have hne : ¬ P.toByte c2.tag = 0 := Nat.pos_iff_ne_zero.mp (P.toByte_pos c2.tag)
    obtain ⟨heap1, qp1, hcase, hn1, ht1, hqp1, hget⟩ :=
      readParserCase_cloned Ty M S c (hwf c (List.mem_cons_self _ _)) heap qp heap0.length
        q (P.toByte c2.tag :: (c2.fields Ty ++ (encodeParserCommands P Ty cs ++ 0 :: rest)))
        hn hqp hq (hmem heap _ _ ht hd0) (hmem heap _ _ ht he0)
    obtain ⟨r, qp2, hrun, hres, hfinal⟩ :=
      ih c2 heap1 qp1 f (c.apply S q) hrest hf hn1 (ht1.trans ht) hqp1 hget
    refine ⟨r, qp2, ?_, hres, ?_⟩
    · simp only [Handle.readParserLoop, P.ofByte_toByte, encodeParserCommands,
        List.cons_append, List.append_assoc, hcase, uint8_cons, hbyte, if_neg hne, hrun]
    · simpa using hfinal

/-- With cloning copies and by configuration: a non-empty well-formed parser
program returns a handle to an object that carries the configuration of the
session's default parser with the customisations of the program applied in
stream order, as `readParser` on configurations says. -/
theorem readParser_cloned (P : TagTable queryParserCommand)
    (Ty : CaseTable queryParserType) (M : ParserMembers) (S : ParserState)
    (heap : ParserHeap) (rest : List Nat) (cmds : List ParserCommand) (hne : cmds ≠ [])
    (hwf : ∀ c ∈ cmds, c.WellFormed)
    (hd : heap[M.m_parser_default]? = some S.m_parser_default)
    (he : heap[M.m_parser_empty]? = some S.m_parser_empty) :
    ∃ r qp1 q, Handle.readParser .clone P Ty M heap
          (encodeParserCommands P Ty cmds ++ 0 :: rest) = some r ∧
      r.result = .ok (qp1, rest) ∧ r.heap[qp1]? = some q ∧
      readParser S P Ty (encodeParserCommands P Ty cmds ++ 0 :: rest) =
        some (.ok (q, rest)) ∧
      r.heap.take heap.length = heap := by
  cases cmds with
  | nil => exact absurd rfl hne
  | cons c cs =>
    have hbyte : P.toByte c.tag % 256 = P.toByte c.tag :=
      Nat.mod_eq_of_lt (P.toByte_lt c.tag)
    have hnz : ¬ P.toByte c.tag = 0 := Nat.pos_iff_ne_zero.mp (P.toByte_pos c.tag)
    have hlen : cs.length < (c.fields Ty ++
        (encodeParserCommands P Ty cs ++ 0 :: rest)).length + 1 := by
      have h2 := length_le_encodeParserCommands P Ty cs
      simp only [List.length_append, List.length_cons]
      omega
    have hvalue := (readParser_applies_in_order S P Ty rest (c :: cs)).2 hne hwf
    obtain ⟨r, qp1, hrun, hres, hfinal⟩ :=
      readParserLoop_cloned P Ty M S heap rest hd he cs c (heap ++ [S.m_parser_default])
        heap.length _ S.m_parser_default hwf hlen
        (by simp only [List.length_append]; omega)
        (List.take_left' rfl) (Nat.le_refl _) (by simp)
    have hhandle : Handle.readParser .clone P Ty M heap
        (encodeParserCommands P Ty (c :: cs) ++ 0 :: rest) = some r := by
      simp only [Handle.readParser, encodeParserCommands, List.cons_append,
        List.append_assoc, uint8_cons, hbyte, if_neg hnz, ParserHeap.copy, hd, hrun]
    exact ⟨r, qp1, _, hhandle, hres, hfinal, hvalue,
      readParser_clone_frame P Ty M heap _ r hhandle⟩

/-- C19, the code as written.  `Xapian::QueryParser qp = m_default_parser;`
copies the handle.  With the engine's copies, which share the object: a
non-empty well-formed parser program is carried out in stream order on the
objects of the session, starting with the setters on the session's default
parser itself, and the handle returned is the last one selected.  With copies
that clone, no object that was there before the call is written to, whatever
the request. -/
theorem readParser_writes_through_handle (P : TagTable queryParserCommand)
    (Ty : CaseTable queryParserType) (M : ParserMembers) (heap : ParserHeap)
    (rest : List Nat) (cmds : List ParserCommand) (hne : cmds ≠ [])
    (hwf : ∀ c ∈ cmds, c.WellFormed) :
    Handle.readParser .share P Ty M heap (encodeParserCommands P Ty cmds ++ 0 :: rest) =
        some { heap :=
                 (cmds.foldl (fun st c => c.applyShared M st)
                   (heap, M.m_parser_default)).1
               result :=
                 .ok ((cmds.foldl (fun st c => c.applyShared M st)
                   (heap, M.m_parser_default)).2, rest) } ∧
      ∀ (params : ParamDecoder) (r : Handle.Run),
        Handle.readParser .clone P Ty M heap params = some r →
        r.heap.take heap.length = heap := by
  refine ⟨?_, fun params r h => readParser_clone_frame P Ty M heap params r h⟩
  cases cmds with
  | nil => exact absurd rfl hne
  | cons c cs =>
    have hbyte : P.toByte c.tag % 256 = P.toByte c.tag :=
      Nat.mod_eq_of_lt (P.toByte_lt c.tag)
    have hnz : ¬ P.toByte c.tag = 0 := Nat.pos_iff_ne_zero.mp (P.toByte_pos c.tag)
    have hlen : cs.length < (c.fields Ty ++
        (encodeParserCommands P Ty cs ++ 0 :: rest)).length + 1 := by
      have h2 := length_le_encodeParserCommands P Ty cs
      simp only [List.length_append, List.length_cons]
      omega
    have hloop := readParserLoop_shared P Ty M rest cs c heap M.m_parser_default _ hwf hlen
    simp only [Handle.readParser, encodeParserCommands, List.cons_append,
      List.append_assoc, uint8_cons, hbyte, if_neg hnz, ParserHeap.copy, hloop]

/-- Witness for C19: with sharing copies the sample program, run on the
sample session, leaves the session's default parser (object 0) with strategy
`all` and the prefix added, and returns the handle 0; with cloning copies the
same request leaves the objects 0 and 1 as they were and returns the new
object 2. -/
theorem readParser_writes_through_handle_witness :
    Handle.readParser .share sampleParserTags sampleParserTypeTags sampleParserMembers
        sampleParserHeap
        (encodeParserCommands sampleParserTags sampleParserTypeTags sampleParserCommands ++
          0 :: [9]) =
      some { heap :=
               [{ stemmer := some { language := str "en" }
                  stemming_strategy := some .STEM_ALL
                  max_wildcard_expansion := 0, default_op := 0
                  prefixes := [.boolean (str "author") (str "XA") false] },
                sampleSession.m_parser_empty]
             result := .ok (0, [9]) } ∧
    Handle.readParser .clone sampleParserTags sampleParserTypeTags sampleParserMembers
        sampleParserHeap
        (encodeParserCommands sampleParserTags sampleParserTypeTags sampleParserCommands ++
          0 :: [9]) =
      some { heap :=
               [sampleSession.m_parser_default, sampleSession.m_parser_empty,
                { stemmer := some { language := str "en" }
                  stemming_strategy := some .STEM_ALL
                  max_wildcard_expansion := 0, default_op := 0
                  prefixes := [.boolean (str "author") (str "XA") false] }]
             result := .ok (2, [9]) } :=
  have h := readParser_writes_through_handle sampleParserTags sampleParserTypeTags
    sampleParserMembers sampleParserHeap [9] sampleParserCommands (by decide) (by decide)
  ⟨h.1.trans (by decide), by decide⟩

/-! ## The query builder (C15, C16) -/

theorem readMany_mono {α : Type} (g g2 : ParamDecoder → Option (Read α))
    (hg : ∀ p r, g p = some r → g2 p = some r) :
    ∀ (n : Nat) (p : ParamDecoder) (r : Read (List α)),
      readMany g n p = some r → readMany g2 n p = some r := by
  intro n
  induction n with
  | zero => intro p r h; simpa [readMany] using h
  | succ n ih =>
    intro p r h
    cases h1 : g p with
    | none => simp [readMany, h1] at h
    | some v =>
      have h2 := hg p v h1
      cases v with
      | error e => simpa [readMany, h1, h2] using h
      | ok qp =>
        cases h3 : readMany g n qp.2 with
        | none => simp [readMany, h1, h3] at h
        | some w =>
          have h4 := ih qp.2 w h3
          simp only [readMany, h1, h3] at h
          simp only [readMany, h2, h4]
          exact h

theorem buildNode_mono (S : ParserState) (T : QueryTags)
    (g g2 : ParamDecoder → Option (Read Query))
    (hg : ∀ p r, g p = some r → g2 p = some r) (p : ParamDecoder) (r : Read Query)
    (h : buildNode S T g p = some r) : buildNode S T g2 p = some r := by
  cases h1 : ParamDecoder.uint8 p with
  | error e => simpa [buildNode, h1] using h
  | ok v1 =>
    cases h2 : T.query.ofByte v1.1 with
    | none => simpa [buildNode, h1, h2] using h
    | some tag =>
      cases tag with
      | QUERY_GROUP =>
        cases h3 : ParamDecoder.uint8 v1.2 with
        | error e => simpa [buildNode, h1, h2, h3] using h
        | ok v3 =>
          cases h4 : ParamDecoder.uint32 v3.2 with
          | error e => simpa [buildNode, h1, h2, h3, h4] using h
          | ok v4 =>
            cases h5 : ParamDecoder.uint32 v4.2 with
            | error e => simpa [buildNode, h1, h2, h3, h4, h5] using h
            | ok v5 =>
              cases h6 : readMany g v5.1 v5.2 with
              | none => simp [buildNode, h1, h2, h3, h4, h5, h6] at h
              | some w =>
                have h7 := readMany_mono g g2 hg v5.1 v5.2 w h6
                simp only [buildNode, h1, h2, h3, h4, h5, h6] at h
                simp only [buildNode, h1, h2, h3, h4, h5, h7]
                exact h
      | QUERY_SCALE_WEIGHT =>
        cases h3 : ParamDecoder.uint8 v1.2 with
        | error e => simpa [buildNode, h1, h2, h3] using h
        | ok v3 =>
          cases h4 : ParamDecoder.double v3.2 with
          | error e => simpa [buildNode, h1, h2, h3, h4] using h
          | ok v4 =>
            cases h6 : g v4.2 with
            | none => simp [buildNode, h1, h2, h3, h4, h6] at h
            | some w =>
              have h7 := hg v4.2 w h6
              simp only [buildNode, h1, h2, h3, h4, h6] at h
              simp only [buildNode, h1, h2, h3, h4, h7]
              exact h
      | QUERY_VALUE => simpa [buildNode, h1, h2] using h
      | QUERY_VALUE_RANGE => simpa [buildNode, h1, h2] using h
      | QUERY_TERM => simpa [buildNode, h1, h2] using h
      | QUERY_PARSER => simpa [buildNode, h1, h2] using h

theorem buildQueryFuel_mono (S : ParserState) (T : QueryTags) :
    ∀ (f f2 : Nat), f ≤ f2 → ∀ (p : ParamDecoder) (r : Read Query),
      buildQueryFuel S T f p = some r → buildQueryFuel S T f2 p = some r := by
  intro f
  induction f with
  | zero => intro f2 _ p r h; simp [buildQueryFuel] at h
  | succ f ih =>
    intro f2 hle p r h
    obtain ⟨k, rfl⟩ : ∃ k, f2 = k + 1 := ⟨f2 - 1, by omega⟩
    simp only [buildQueryFuel] at h ⊢
    exact buildNode_mono S T _ _ (ih k (by omega)) p r h

theorem decodes_fuel (S : ParserState) (T : QueryTags) (node : List Nat) (q : Query)
    (h : Decodes S T node q) (rest : List Nat) (fuel : Nat)
    (hfuel : (node ++ rest).length < fuel) :
    buildQueryFuel S T fuel (node ++ rest) = some (.ok (q, rest)) :=
  buildQueryFuel_mono S T _ fuel (by omega) _ _ (h rest)

theorem fails_fuel (S : ParserState) (T : QueryTags) (node : List Nat) (e : Exception)
    (h : Fails S T node e) (rest : List Nat) (fuel : Nat)
    (hfuel : (node ++ rest).length < fuel) :
    buildQueryFuel S T fuel (node ++ rest) = some (.error e) :=
  buildQueryFuel_mono S T _ fuel (by omega) _ _ (h rest)

theorem readMany_bad_child (S : ParserState) (T : QueryTags) (bad : List Nat)
    (e : Exception) (hbad : Fails S T bad e) :
    ∀ (before : List (List Nat × Query)), (∀ c ∈ before, Decodes S T c.1 c.2) →
      ∀ (count : Nat) (rest : List Nat) (fuel : Nat), before.length < count →
        ((before.map (fun c => c.1)).flatten ++ (bad ++ rest)).length < fuel →
        readMany (buildQueryFuel S T fuel) count
            ((before.map (fun c => c.1)).flatten ++ (bad ++ rest)) =
          some (.error e) := by
  intro before
  induction before with
  | nil =>
    intro _ count rest fuel hcount hfuel
    obtain ⟨k, rfl⟩ : ∃ k, count = k + 1 := ⟨count - 1, by simp at hcount; omega⟩
    have h1 := fails_fuel S T bad e hbad rest fuel (by simpa using hfuel)
    simp [readMany, h1]
  | cons c cs ih =>
    intro hch count rest fuel hcount hfuel
    obtain ⟨k, rfl⟩ : ∃ k, count = k + 1 := ⟨count - 1, by omega⟩
    have hc := hch c (List.mem_cons_self _ _)
    have hcs : ∀ x ∈ cs, Decodes S T x.1 x.2 :=
      fun x hx => hch x (List.mem_cons_of_mem _ hx)
    simp only [List.map_cons, List.flatten_cons, List.append_assoc, List.length_append]
      at hfuel
    have h1 := decodes_fuel S T c.1 c.2 hc
      ((cs.map (fun c => c.1)).flatten ++ (bad ++ rest)) fuel
      (by simp only [List.length_append]; omega)
    have h2 := ih hcs k rest fuel (by simp only [List.length_cons] at hcount; omega)
      (by simp only [List.length_append]; omega)
    simp only [List.map_cons, List.flatten_cons, List.append_assoc, readMany, h1, h2]

theorem buildNode_group (S : ParserState) (T : QueryTags)
    (g : ParamDecoder → Option (Read Query)) (op parameter count : Nat)
    (tail : List Nat) (hop : op < 256) (hpar : parameter < WORD) (hcount : count < WORD) :
    buildNode S T g (encodeGroupHeader T op parameter count ++ tail) =
      match readMany g count tail with
      | none => none
      | some (.error e) => some (.error e)
      | some (.ok (subQueries, params)) =>
        some (.ok (.group op subQueries parameter, params)) := by
  have hb : T.query.toByte .QUERY_GROUP % 256 = T.query.toByte .QUERY_GROUP :=
    Nat.mod_eq_of_lt (T.query.toByte_lt _)
  have ho : op % 256 = op := Nat.mod_eq_of_lt hop
  simp only [buildNode, encodeGroupHeader, List.cons_append, List.append_assoc, uint8_cons,
    hb, ho, T.query.ofByte_toByte, uint32_put parameter _ hpar, uint32_put count _ hcount]

theorem buildNode_scale (S : ParserState) (T : QueryTags)
    (g : ParamDecoder → Option (Read Query)) (op : Nat) (factor tail : List Nat)
    (hop : op < 256) (hfactor : factor.length = 8) :
    buildNode S T g (encodeScale T op factor tail) =
      match g tail with
      | none => none
      | some (.error e) => some (.error e)
      | some (.ok (sub_query, params)) => some (.ok (.scale op sub_query factor, params)) := by
  have hb : T.query.toByte .QUERY_SCALE_WEIGHT % 256 = T.query.toByte .QUERY_SCALE_WEIGHT :=
    Nat.mod_eq_of_lt (T.query.toByte_lt _)
  have ho : op % 256 = op := Nat.mod_eq_of_lt hop
  simp only [buildNode, encodeScale, uint8_cons, hb, ho, T.query.ofByte_toByte,
    double_put factor tail hfactor]

theorem decodes_term (S : ParserState) (T : QueryTags) (name : Str) (wqf pos : Nat)
    (hname : name.length < WORD) (hwqf : wqf < WORD) (hpos : pos < WORD) :
    Decodes S T (encodeTerm T name wqf pos) (.term name wqf pos) := by
  intro rest
  have hb : T.query.toByte .QUERY_TERM % 256 = T.query.toByte .QUERY_TERM :=
    Nat.mod_eq_of_lt (T.query.toByte_lt _)
  simp only [buildQuery, buildQueryFuel, buildNode, encodeTerm, List.cons_append,
    List.append_assoc, uint8_cons, hb, T.query.ofByte_toByte, string_put name _ hname,
    uint32_put wqf _ hwqf, uint32_put pos _ hpos]

theorem buildQuery_eq (S : ParserState) (T : QueryTags) (params : ParamDecoder) :
    buildQuery S T params = buildNode S T (buildQueryFuel S T params.length) params := rfl

theorem encodeGroupHeader_length (T : QueryTags) (op parameter count : Nat) :
    (encodeGroupHeader T op parameter count).length = 10 := rfl

theorem encodeScale_length (T : QueryTags) (op : Nat) (factor child : List Nat) :
    (encodeScale T op factor child).length = 2 + factor.length + child.length := by
  simp only [encodeScale, List.length_cons, List.length_append]
  omega

/-- C16: when `buildQuery` is led to a node tag that is not a recognised
query tag, as the tag of the node itself or at any depth inside combinator
and scaled-weight nodes, it throws `BadCommandDriverError` carrying that tag
(and so returns no query), whatever follows in the buffer. -/
theorem buildQuery_rejects_unknown_tag (S : ParserState) (T : QueryTags)
    (node : List Nat) (tag : Nat) (h : ReadsUnknownTag S T node tag) :
    ∀ rest, buildQuery S T (node ++ rest) =
      some (.error (.driver (.BadCommandDriverError tag))) := by
  induction h with
  | top b hb =>
    intro rest
    simp [buildQuery_eq, buildNode, uint8_cons, hb]
  | inGroup op parameter count before bad tag hop hpar hcount hlen hbefore _ ih =>
    intro rest
    have hshape : encodeGroupHeader T op parameter count ++
        ((before.map (fun c => c.1)).flatten ++ bad) ++ rest =
        encodeGroupHeader T op parameter count ++
          ((before.map (fun c => c.1)).flatten ++ (bad ++ rest)) := by
      simp [List.append_assoc]
    have hkids := readMany_bad_child S T bad _ ih before hbefore count rest
      (encodeGroupHeader T op parameter count ++
        ((before.map (fun c => c.1)).flatten ++ (bad ++ rest))).length hlen
      (by simp only [List.length_append, encodeGroupHeader_length]; omega)
    rw [hshape, buildQuery_eq, buildNode_group S T _ op parameter count _ hop hpar hcount,
      hkids]
  | inScale op factor bad tag hop hfactor _ ih =>
    intro rest
    have hshape : encodeScale T op factor bad ++ rest =
        encodeScale T op factor (bad ++ rest) := by
      simp [encodeScale, List.append_assoc]
    have hkid := fails_fuel S T bad _ ih rest
      (encodeScale T op factor (bad ++ rest)).length
      (by simp only [List.length_append, encodeScale_length]; omega)
    rw [hshape, buildQuery_eq, buildNode_scale S T _ op factor _ hop hfactor, hkid]

/-- Witness for C16: a combinator node announcing two children, whose first
child is the term leaf `cat` and whose second child is a scaled-weight node
over the unrecognised tag 99, throws `BadCommandDriverError(99)`. -/
theorem buildQuery_rejects_unknown_tag_witness :
    buildQuery sampleSession sampleQueryTags
        (encodeGroupHeader sampleQueryTags 1 0 2 ++
          (([(encodeTerm sampleQueryTags (str "cat") 1 0,
              Query.term (str "cat") 1 0)].map (fun c => c.1)).flatten ++
            encodeScale sampleQueryTags 1 [0, 0, 0, 0, 0, 0, 240, 63] [99]) ++ [7]) =
      some (.error (.driver (.BadCommandDriverError 99))) :=
  buildQuery_rejects_unknown_tag sampleSession sampleQueryTags _ 99
    (ReadsUnknownTag.inGroup 1 0 2
      [(encodeTerm sampleQueryTags (str "cat") 1 0, Query.term (str "cat") 1 0)]
      (encodeScale sampleQueryTags 1 [0, 0, 0, 0, 0, 0, 240, 63] [99]) 99
      (by decide) (by decide) (by decide) (by decide)
      (by
        intro c hc
        simp only [List.mem_singleton] at hc
        subst hc
        exact decodes_term _ _ _ _ _ (by decide) (by decide) (by decide))
      (ReadsUnknownTag.inScale 1 [0, 0, 0, 0, 0, 0, 240, 63] [99] 99 (by decide) rfl
        (ReadsUnknownTag.top 99 (by decide))))
    [7]

/-! ## Match spies (C20) -/

/-- C20, the code as written: on the sample session, where spy 2 is already
finalized, a request naming spy 2 alone throws `MatchSpyFinalizedDriverError`
and registers nothing, but a request naming the spies 1 and 2 returns
normally: the loop stops after spy 1, spy 2 is never looked at, and a new
result set is registered under handle 1. -/
theorem matchSet_checks_first_spy_only :
    matchSet sampleLayout sampleMatchState (encodeMatchSet 1 0 0 [2]) =
      { state := sampleMatchState, written := []
        raised := some (.driver .MatchSpyFinalizedDriverError) } ∧
    (matchSet sampleLayout sampleMatchState (encodeMatchSet 1 0 0 [1, 2])).raised = none ∧
    (matchSet sampleLayout sampleMatchState
      (encodeMatchSet 1 0 0 [1, 2])).state.m_mset_store.elements =
      [(1, { first := 0, maxitems := 5, checkatleast := 0, spies := [1] })] ∧
    (matchSet sampleLayout sampleMatchState (encodeMatchSet 1 0 0 [1, 2])).written =
      [0, 0, 0, 1] := by
  decide

/-! ## Several spies in one request (C29) -/

/-- C29, the code as written: on a session whose spies 1 and 2 are both
unused, a request naming the spies 1 and 2 collects matches with spy 1 alone
attached, and afterwards spy 1 is finalized and spy 2 is not. -/
theorem matchSet_attaches_first_spy_only :
    (matchSet sampleLayout sampleFreshSpies (encodeMatchSet 1 0 0 [1, 2])).raised = none ∧
    (matchSet sampleLayout sampleFreshSpies
      (encodeMatchSet 1 0 0 [1, 2])).state.m_mset_store.elements =
      [(1, { first := 0, maxitems := 5, checkatleast := 0, spies := [1] })] ∧
    (matchSet sampleLayout sampleFreshSpies
      (encodeMatchSet 1 0 0 [1, 2])).state.m_match_spy_store.elements =
      [(1, { finalized := true }), (2, { finalized := false })] := by
  decide

/-! ## Unknown cursor kinds (C25) -/

/-- C25, the code as written: a `qlcInit` request with the unrecognised kind
tag 99, resource type 1 and resource 7 throws `BadCommandDriverError`
carrying 1, the resource type, not the kind tag 99; no cursor is
registered. -/
theorem qlcInit_reports_resource_type :
    qlcInit sampleLayout sampleQlcTags sampleQlcBuild { elements := [], counter := 0 }
        ([99, 1] ++ ParamDecoder.putUInt32 7) =
      { m_qlc_store := { elements := [], counter := 0 }, written := []
        raised := some (.driver (.BadCommandDriverError 1)) } := by
  decide

/-! ## Termination of `buildQuery` (C30) -/

theorem uint8_ok {params rest : ParamDecoder} {v : Nat}
    (h : ParamDecoder.uint8 params = .ok (v, rest)) : rest.length + 1 = params.length := by
  cases params with
  | nil => simp [ParamDecoder.uint8] at h
  | cons b t =>
    simp only [ParamDecoder.uint8, Except.ok.injEq, Prod.mk.injEq] at h
    rw [← h.2]; rfl

theorem uint8_error {params : ParamDecoder} {e : Exception}
    (h : ParamDecoder.uint8 params = .error e) : e = .driver .Truncated := by
  cases params with
  | nil => simp only [ParamDecoder.uint8, Except.error.injEq] at h; exact h.symm
  | cons b t => simp [ParamDecoder.uint8] at h

theorem bool_ok {params rest : ParamDecoder} {v : Bool}
    (h : ParamDecoder.bool params = .ok (v, rest)) : rest.length + 1 = params.length := by
  cases params with
  | nil => simp [ParamDecoder.bool] at h
  | cons b t =>
    simp only [ParamDecoder.bool, Except.ok.injEq, Prod.mk.injEq] at h
    rw [← h.2]; rfl

theorem bool_error {params : ParamDecoder} {e : Exception}
    (h : ParamDecoder.bool params = .error e) : e = .driver .Truncated := by
  cases params with
  | nil => simp only [ParamDecoder.bool, Except.error.injEq] at h; exact h.symm
  | cons b t => simp [ParamDecoder.bool] at h

theorem uint32_ok {params rest : ParamDecoder} {v : Nat}
    (h : ParamDecoder.uint32 params = .ok (v, rest)) : rest.length + 4 = params.length := by
  match params, h with
  | a :: b :: c :: d :: t, h =>
    simp only [ParamDecoder.uint32, Except.ok.injEq, Prod.mk.injEq] at h
    rw [← h.2]; rfl
  | [], h => simp [ParamDecoder.uint32] at h
  | [_], h => simp [ParamDecoder.uint32] at h
  | [_, _], h => simp [ParamDecoder.uint32] at h
  | [_, _, _], h => simp [ParamDecoder.uint32] at h

theorem uint32_error {params : ParamDecoder} {e : Exception}
    (h : ParamDecoder.uint32 params = .error e) : e = .driver .Truncated := by
  match params, h with
  | a :: b :: c :: d :: t, h => simp [ParamDecoder.uint32] at h
  | [], h => simp only [ParamDecoder.uint32, Except.error.injEq] at h; exact h.symm
  | [_], h => simp only [ParamDecoder.uint32, Except.error.injEq] at h; exact h.symm
  | [_, _], h => simp only [ParamDecoder.uint32, Except.error.injEq] at h; exact h.symm
  | [_, _, _], h => simp only [ParamDecoder.uint32, Except.error.injEq] at h; exact h.symm

theorem string_ok {params rest : ParamDecoder} {v : Str}
    (h : ParamDecoder.string params = .ok (v, rest)) :
    rest.length + 4 + v.length = params.length := by
  unfold ParamDecoder.string at h
  cases h1 : ParamDecoder.uint32 params with
  | error e => rw [h1] at h; simp at h
  | ok r =>
    obtain ⟨len, p⟩ := r
    rw [h1] at h
    have l1 := uint32_ok h1
    by_cases hlen : p.length < len
    · simp [hlen] at h
    · simp only [hlen, if_false, Except.ok.injEq, Prod.mk.injEq] at h
      rw [← h.1, ← h.2, List.length_drop, List.length_take]
      omega

theorem string_error {params : ParamDecoder} {e : Exception}
    (h : ParamDecoder.string params = .error e) : e = .driver .Truncated := by
  unfold ParamDecoder.string at h
  cases h1 : ParamDecoder.uint32 params with
  | error e2 =>
    rw [h1] at h
    simp only [Except.error.injEq] at h
    rw [← h]; exact uint32_error h1
  | ok r =>
    obtain ⟨len, p⟩ := r
    rw [h1] at h
    by_cases hlen : p.length < len
    · simp only [hlen, if_true, Except.error.injEq] at h; exact h.symm
    · simp [hlen] at h

theorem double_ok {params rest : ParamDecoder} {v : List Nat}
    (h : ParamDecoder.double params = .ok (v, rest)) : rest.length + 8 = params.length := by
  unfold ParamDecoder.double at h
  by_cases hlen : params.length < 8
  · simp [hlen] at h
  · simp only [hlen, if_false, Except.ok.injEq, Prod.mk.injEq] at h
    rw [← h.2, List.length_drop]
    omega

theorem double_error {params : ParamDecoder} {e : Exception}
    (h : ParamDecoder.double params = .error e) : e = .driver .Truncated := by
  unfold ParamDecoder.double at h
  by_cases hlen : params.length < 8
  · simp only [hlen, if_true, Except.error.injEq] at h; exact h.symm
  · simp [hlen] at h

theorem stem_ok {params rest : ParamDecoder} {v : Stem}
    (h : ParamDecoder.stem params = .ok (v, rest)) : rest.length + 4 ≤ params.length := by
  unfold ParamDecoder.stem at h
  cases h1 : ParamDecoder.string params with
  | error e => rw [h1] at h; simp at h
  | ok r =>
    obtain ⟨s, p⟩ := r
    rw [h1] at h
    simp only [Except.ok.injEq, Prod.mk.injEq] at h
    have l1 := string_ok h1
    rw [← h.2]; omega

theorem stem_error {params : ParamDecoder} {e : Exception}
    (h : ParamDecoder.stem params = .error e) : e = .driver .Truncated := by
  unfold ParamDecoder.stem at h
  cases h1 : ParamDecoder.string params with
  | error e2 =>
    rw [h1] at h
    simp only [Except.error.injEq] at h
    rw [← h]; exact string_error h1
  | ok r =>
    obtain ⟨s, p⟩ := r
    rw [h1] at h
    simp at h

theorem isDecodeError_truncated :
    Exception.isDecodeError (.driver .Truncated) = true := rfl

theorem isDecodeError_badCommand (tag : Nat) :
    Exception.isDecodeError (.driver (.BadCommandDriverError tag)) = true := rfl

theorem addPrefix_consumes (params : ParamDecoder) (qp : QueryParser) :
    Consumes (fun _ => 0) params (addPrefix params qp) := by
  unfold addPrefix
  cases h1 : ParamDecoder.string params with
  | error e => rw [string_error h1]; exact isDecodeError_truncated
  | ok r1 =>
    obtain ⟨field, p1⟩ := r1
    try dsimp only
    have l1 := string_ok h1
    cases h2 : ParamDecoder.string p1 with
    | error e => rw [string_error h2]; exact isDecodeError_truncated
    | ok r2 =>
      obtain ⟨pfx, p2⟩ := r2
      try dsimp only
      have l2 := string_ok h2
      cases h3 : ParamDecoder.bool p2 with
      | error e => rw [bool_error h3]; exact isDecodeError_truncated
      | ok r3 =>
        obtain ⟨is_boolean, p3⟩ := r3
        try dsimp only
        have l3 := bool_ok h3
        cases h4 : ParamDecoder.bool p3 with
        | error e => rw [bool_error h4]; exact isDecodeError_truncated
        | ok r4 =>
          obtain ⟨is_exclusive, p4⟩ := r4
          try dsimp only
          have l4 := bool_ok h4
          cases is_boolean <;> simp only [Consumes, Bool.false_eq_true, if_false, if_true] <;>
            omega

theorem selectParser_consumes (S : ParserState) (Ty : CaseTable queryParserType)
    (params : ParamDecoder) :
    Consumes (fun _ => 0) params (selectParser S Ty params) := by
  unfold selectParser
  cases h1 : ParamDecoder.uint8 params with
  | error e => rw [uint8_error h1]; exact isDecodeError_truncated
  | ok r1 =>
    obtain ⟨type, p1⟩ := r1
    try dsimp only
    have l1 := uint8_ok h1
    cases h2 : Ty.ofByte type with
    | none => exact isDecodeError_badCommand type
    | some t => cases t <;> simp only [Consumes] <;> omega

theorem readStemmingStrategy_consumes (params : ParamDecoder) :
    Consumes (fun _ => 0) params (readStemmingStrategy params) := by
  unfold readStemmingStrategy
  cases h1 : ParamDecoder.uint8 params with
  | error e => rw [uint8_error h1]; exact isDecodeError_truncated
  | ok r1 =>
    obtain ⟨type, p1⟩ := r1
    try dsimp only
    have l1 := uint8_ok h1
    by_cases hty : type > STEM_STRATEGY_COUNT
    · simp only [hty, if_true]; exact isDecodeError_badCommand type
    · simp only [hty, if_false, Consumes]; omega

theorem readParserCase_consumes (S : ParserState) (Ty : CaseTable queryParserType)
    (command : queryParserCommand) (qp : QueryParser) (params : ParamDecoder) :
    Consumes (fun _ => 0) params (readParserCase S Ty command qp params) := by
  cases command with
  | QP_PARSER_TYPE => exact selectParser_consumes S Ty params
  | QP_PREFIX => exact addPrefix_consumes params qp
  | QP_STEMMER =>
    simp only [readParserCase]
    cases h1 : ParamDecoder.stem params with
    | error e => rw [stem_error h1]; exact isDecodeError_truncated
    | ok r1 =>
      obtain ⟨v, p1⟩ := r1
      try dsimp only
      have l1 := stem_ok h1
      simp only [Consumes]; omega
  | QP_STEMMING_STRATEGY =>
    simp only [readParserCase]
    have h := readStemmingStrategy_consumes params
    cases h1 : readStemmingStrategy params with
    | error e => rw [h1] at h; exact h
    | ok r1 =>
      obtain ⟨v, p1⟩ := r1
      try dsimp only
      rw [h1] at h
      exact h
  | QP_MAX_WILDCARD_EXPANSION =>
    simp only [readParserCase]
    cases h1 : ParamDecoder.uint32 params with
    | error e => rw [uint32_error h1]; exact isDecodeError_truncated
    | ok r1 =>
      obtain ⟨v, p1⟩ := r1
      try dsimp only
      have l1 := uint32_ok h1
      simp only [Consumes]; omega
  | QP_DEFAULT_OP =>
    simp only [readParserCase]
    cases h1 : ParamDecoder.uint8 params with
    | error e => rw [uint8_error h1]; exact isDecodeError_truncated
    | ok r1 =>
      obtain ⟨v, p1⟩ := r1
      try dsimp only
      have l1 := uint8_ok h1
      simp only [Consumes]; omega

/-- The loop of `readParser` ends on every buffer shorter than its fuel. -/
theorem readParserLoop_total (S : ParserState) (P : TagTable queryParserCommand)
    (Ty : CaseTable queryParserType) :
    ∀ (fuel : Nat) (qp : QueryParser) (command : Nat) (params : ParamDecoder),
      params.length < fuel →
      ∃ r, readParserLoop S P Ty fuel qp command params = some r ∧
        Consumes (fun _ => 0) params r := by
  intro fuel
  induction fuel with
  | zero => intro qp command params h; omega
  | succ fuel ih =>
    intro qp command params hlen
    simp only [readParserLoop]
    cases h1 : P.ofByte command with
    | none => exact ⟨_, rfl, isDecodeError_badCommand command⟩
    | some tag =>
      dsimp only
      have hc := readParserCase_consumes S Ty tag qp params
      cases h2 : readParserCase S Ty tag qp params with
      | error e => rw [h2] at hc; exact ⟨_, rfl, hc⟩
      | ok r2 =>
        obtain ⟨qp2, p2⟩ := r2
        try dsimp only
        rw [h2] at hc
        simp only [Consumes] at hc
        cases h3 : ParamDecoder.uint8 p2 with
        | error e => exact ⟨_, rfl, by rw [uint8_error h3]; exact isDecodeError_truncated⟩
        | ok r3 =>
          obtain ⟨command2, p3⟩ := r3
          try dsimp only
          have l3 := uint8_ok h3
          by_cases hz : command2 = 0
          · simp only [hz, if_true]
            exact ⟨_, rfl, by simp only [Consumes]; omega⟩
          · simp only [hz, if_false]
            obtain ⟨r, hr, hcons⟩ := ih qp2 command2 p3 (by omega)
            refine ⟨r, hr, ?_⟩
            cases r with
            | error e => exact hcons
            | ok v =>
              obtain ⟨a, rest⟩ := v
              simp only [Consumes] at hcons ⊢
              omega

/-- The function `readParser` returns or throws on every buffer. -/
theorem readParser_total (S : ParserState) (P : TagTable queryParserCommand)
    (Ty : CaseTable queryParserType) (params : ParamDecoder) :
    ∃ r, readParser S P Ty params = some r ∧ Consumes (fun _ => 0) params r := by
  unfold readParser
  cases h1 : ParamDecoder.uint8 params with
  | error e => exact ⟨_, rfl, by rw [uint8_error h1]; exact isDecodeError_truncated⟩
  | ok r1 =>
    obtain ⟨command, p1⟩ := r1
    try dsimp only
    have l1 := uint8_ok h1
    by_cases hz : command = 0
    · simp only [hz, if_true]
      exact ⟨_, rfl, by simp only [Consumes]; omega⟩
    · simp only [hz, if_false]
      obtain ⟨r, hr, hcons⟩ :=
        readParserLoop_total S P Ty (p1.length + 1) S.m_parser_default command p1 (by omega)
      refine ⟨r, hr, ?_⟩
      cases r with
      | error e => exact hcons
      | ok v =>
        obtain ⟨a, rest⟩ := v
        simp only [Consumes] at hcons ⊢
        omega

/-- The loop of `decodeParserFeatureFlags` ends on every buffer shorter than
its fuel. -/
theorem decodeParserFeatureFlagsLoop_total :
    ∀ (fuel : Nat) (flags : List (Option ParserFeature)) (params : ParamDecoder),
      params.length < fuel →
      ∃ r, decodeParserFeatureFlagsLoop fuel flags params = some r ∧
        Consumes (fun _ => 0) params r := by
  intro fuel
  induction fuel with
  | zero => intro flags params h; omega
  | succ fuel ih =>
    intro flags params hlen
    simp only [decodeParserFeatureFlagsLoop]
    cases h1 : ParamDecoder.uint8 params with
    | error e => exact ⟨_, rfl, by rw [uint8_error h1]; exact isDecodeError_truncated⟩
    | ok r1 =>
      obtain ⟨type, p1⟩ := r1
      try dsimp only
      have l1 := uint8_ok h1
      by_cases hz : type = 0
      · simp only [hz, if_true]
        exact ⟨_, rfl, by simp only [Consumes]; omega⟩
      · simp only [hz, if_false]
        by_cases hty : type > PARSER_FEATURE_COUNT
        · simp only [idToParserFeature, hty, if_true]
          exact ⟨_, rfl, isDecodeError_badCommand type⟩
        · simp only [idToParserFeature, hty, if_false]
          obtain ⟨r, hr, hcons⟩ := ih (flags ++ [PARSER_FEATURES[type]?]) p1 (by omega)
          refine ⟨r, hr, ?_⟩
          cases r with
          | error e => exact hcons
          | ok v =>
            obtain ⟨a, rest⟩ := v
            simp only [Consumes] at hcons ⊢
            omega

theorem Query.calls_pos (q : Query) : 1 ≤ q.calls := by
  cases q <;> simp only [Query.calls] <;> omega

/-- The sub-query loop ends when every call of the reader does. -/
theorem readMany_consumes (build : ParamDecoder → Option (Read Query)) (n : Nat)
    (hb : ∀ p : ParamDecoder, p.length ≤ n →
      ∃ r, build p = some r ∧ Consumes Query.calls p r) :
    ∀ (count : Nat) (p : ParamDecoder), p.length ≤ n →
      ∃ r, readMany build count p = some r ∧ Consumes Query.callsList p r := by
  intro count
  induction count with
  | zero =>
    intro p _
    exact ⟨_, rfl, by simp only [Consumes, Query.callsList]; omega⟩
  | succ count ih =>
    intro p hp
    obtain ⟨r, hr, hcons⟩ := hb p hp
    simp only [readMany, hr]
    cases r with
    | error e => exact ⟨_, rfl, hcons⟩
    | ok v =>
      obtain ⟨q, p1⟩ := v
      simp only [Consumes] at hcons
      obtain ⟨r2, hr2, hcons2⟩ := ih p1 (by omega)
      simp only [hr2]
      cases r2 with
      | error e => exact ⟨_, rfl, hcons2⟩
      | ok v2 =>
        obtain ⟨qs, p2⟩ := v2
        simp only [Consumes] at hcons2
        exact ⟨_, rfl, by simp only [Consumes, Query.callsList]; omega⟩

/-- One call of `buildQuery` ends when the recursive calls on shorter buffers
do. -/
theorem buildNode_consumes (S : ParserState) (T : QueryTags)
    (build : ParamDecoder → Option (Read Query)) (params : ParamDecoder)
    (hb : ∀ p : ParamDecoder, p.length < params.length →
      ∃ r, build p = some r ∧ Consumes Query.calls p r) :
    ∃ r, buildNode S T build params = some r ∧ Consumes Query.calls params r := by
  unfold buildNode
  cases h1 : ParamDecoder.uint8 params with
  | error e => exact ⟨_, rfl, by rw [uint8_error h1]; exact isDecodeError_truncated⟩
  | ok r1 =>
    obtain ⟨type, p1⟩ := r1
    have l1 := uint8_ok h1
    dsimp only
    cases ht : T.query.ofByte type with
    | none => exact ⟨_, rfl, isDecodeError_badCommand type⟩
    | some tag =>
      cases tag with
      | QUERY_GROUP =>
        dsimp only
        cases h2 : ParamDecoder.uint8 p1 with
        | error e => exact ⟨_, rfl, by rw [uint8_error h2]; exact isDecodeError_truncated⟩
        | ok r2 =>
          obtain ⟨op, p2⟩ := r2
          have l2 := uint8_ok h2
          dsimp only
          cases h3 : ParamDecoder.uint32 p2 with
          | error e => exact ⟨_, rfl, by rw [uint32_error h3]; exact isDecodeError_truncated⟩
          | ok r3 =>
            obtain ⟨parameter, p3⟩ := r3
            have l3 := uint32_ok h3
            dsimp only
            cases h4 : ParamDecoder.uint32 p3 with
            | error e =>
              exact ⟨_, rfl, by rw [uint32_error h4]; exact isDecodeError_truncated⟩
            | ok r4 =>
              obtain ⟨subQueryCount, p4⟩ := r4
              have l4 := uint32_ok h4
              dsimp only
              obtain ⟨r, hr, hcons⟩ := readMany_consumes build p4.length
                (fun p hp => hb p (by omega)) subQueryCount p4 (Nat.le_refl _)
              simp only [hr]
              cases r with
              | error e => exact ⟨_, rfl, hcons⟩
              | ok v =>
                obtain ⟨qs, p5⟩ := v
                simp only [Consumes] at hcons
                exact ⟨_, rfl, by simp only [Consumes, Query.calls]; omega⟩
      | QUERY_VALUE =>
        dsimp only
        cases h2 : ParamDecoder.uint8 p1 with
        | error e => exact ⟨_, rfl, by rw [uint8_error h2]; exact isDecodeError_truncated⟩
        | ok r2 =>
          obtain ⟨op, p2⟩ := r2
          have l2 := uint8_ok h2
          dsimp only
          cases h3 : ParamDecoder.uint32 p2 with
          | error e => exact ⟨_, rfl, by rw [uint32_error h3]; exact isDecodeError_truncated⟩
          | ok r3 =>
            obtain ⟨slot, p3⟩ := r3
            have l3 := uint32_ok h3
            dsimp only
            cases h4 : ParamDecoder.string p3 with
            | error e =>
              exact ⟨_, rfl, by rw [string_error h4]; exact isDecodeError_truncated⟩
            | ok r4 =>
              obtain ⟨value, p4⟩ := r4
              have l4 := string_ok h4
              exact ⟨_, rfl, by simp only [Consumes, Query.calls]; omega⟩
      | QUERY_VALUE_RANGE =>
        dsimp only
        cases h2 : ParamDecoder.uint8 p1 with
        | error e => exact ⟨_, rfl, by rw [uint8_error h2]; exact isDecodeError_truncated⟩
        | ok r2 =>
          obtain ⟨op, p2⟩ := r2
          have l2 := uint8_ok h2
          dsimp only
          cases h3 : ParamDecoder.uint32 p2 with
          | error e => exact ⟨_, rfl, by rw [uint32_error h3]; exact isDecodeError_truncated⟩
          | ok r3 =>
            obtain ⟨slot, p3⟩ := r3
            have l3 := uint32_ok h3
            dsimp only
            cases h4 : ParamDecoder.string p3 with
            | error e =>
              exact ⟨_, rfl, by rw [string_error h4]; exact isDecodeError_truncated⟩
            | ok r4 =>
              obtain ⟨lo, p4⟩ := r4
              have l4 := string_ok h4
              dsimp only
              cases h5 : ParamDecoder.string p4 with
              | error e =>
                exact ⟨_, rfl, by rw [string_error h5]; exact isDecodeError_truncated⟩
              | ok r5 =>
                obtain ⟨hi, p5⟩ := r5
                have l5 := string_ok h5
                exact ⟨_, rfl, by simp only [Consumes, Query.calls]; omega⟩
      | QUERY_TERM =>
        dsimp only
        cases h2 : ParamDecoder.string p1 with
        | error e => exact ⟨_, rfl, by rw [string_error h2]; exact isDecodeError_truncated⟩
        | ok r2 =>
          obtain ⟨name, p2⟩ := r2
          have l2 := string_ok h2
          dsimp only
          cases h3 : ParamDecoder.uint32 p2 with
          | error e => exact ⟨_, rfl, by rw [uint32_error h3]; exact isDecodeError_truncated⟩
          | ok r3 =>
            obtain ⟨wqf, p3⟩ := r3
            have l3 := uint32_ok h3
            dsimp only
            cases h4 : ParamDecoder.uint32 p3 with
            | error e =>
              exact ⟨_, rfl, by rw [uint32_error h4]; exact isDecodeError_truncated⟩
            | ok r4 =>
              obtain ⟨pos, p4⟩ := r4
              have l4 := uint32_ok h4
              exact ⟨_, rfl, by simp only [Consumes, Query.calls]; omega⟩
      | QUERY_PARSER =>
        dsimp only
        obtain ⟨r2, hr2, hc2⟩ := readParser_total S T.parser T.parserType p1
        simp only [hr2]
        cases r2 with
        | error e => exact ⟨_, rfl, hc2⟩
        | ok v2 =>
          obtain ⟨parser, p2⟩ := v2
          simp only [Consumes] at hc2
          dsimp only
          cases h3 : ParamDecoder.string p2 with
          | error e => exact ⟨_, rfl, by rw [string_error h3]; exact isDecodeError_truncated⟩
          | ok r3 =>
            obtain ⟨query_string, p3⟩ := r3
            have l3 := string_ok h3
            dsimp only
            cases h4 : ParamDecoder.string p3 with
            | error e =>
              exact ⟨_, rfl, by rw [string_error h4]; exact isDecodeError_truncated⟩
            | ok r4 =>
              obtain ⟨default_pfx, p4⟩ := r4
              have l4 := string_ok h4
              dsimp only
              obtain ⟨r5, hr5, hc5⟩ :=
                decodeParserFeatureFlagsLoop_total (p4.length + 1) [] p4 (by omega)
              simp only [decodeParserFeatureFlags, hr5]
              cases r5 with
              | error e => exact ⟨_, rfl, hc5⟩
              | ok v5 =>
                obtain ⟨flags, p5⟩ := v5
                simp only [Consumes] at hc5
                exact ⟨_, rfl, by simp only [Consumes, Query.calls]; omega⟩
      | QUERY_SCALE_WEIGHT =>
        dsimp only
        cases h2 : ParamDecoder.uint8 p1 with
        | error e => exact ⟨_, rfl, by rw [uint8_error h2]; exact isDecodeError_truncated⟩
        | ok r2 =>
          obtain ⟨op, p2⟩ := r2
          have l2 := uint8_ok h2
          dsimp only
          cases h3 : ParamDecoder.double p2 with
          | error e => exact ⟨_, rfl, by rw [double_error h3]; exact isDecodeError_truncated⟩
          | ok r3 =>
            obtain ⟨factor, p3⟩ := r3
            have l3 := double_ok h3
            dsimp only
            obtain ⟨r, hr, hcons⟩ := hb p3 (by omega)
            simp only [hr]
            cases r with
            | error e => exact ⟨_, rfl, hcons⟩
            | ok v =>
              obtain ⟨sub_query, p4⟩ := v
              simp only [Consumes] at hcons
              exact ⟨_, rfl, by simp only [Consumes, Query.calls]; omega⟩

/-- With more fuel than the buffer has bytes, the bounded recursion ends. -/
theorem buildQueryFuel_total (S : ParserState) (T : QueryTags) :
    ∀ (fuel : Nat) (params : ParamDecoder), params.length < fuel →
      ∃ r, buildQueryFuel S T fuel params = some r ∧ Consumes Query.calls params r := by
  intro fuel
  induction fuel with
  | zero => intro params h; omega
  | succ fuel ih =>
    intro params hlen
    simp only [buildQueryFuel]
    exact buildNode_consumes S T _ params (fun p hp => ih p (by omega))

/-- C30: on every buffer `buildQuery` ends: it returns a query and the unread
rest, or throws `Truncated` or `BadCommand`.  A returned query was built by at
least one call, and by no more calls than bytes were consumed; the depth bound
of one more than the length of the buffer is never reached, so that any larger
bound gives the same outcome. -/
theorem buildQuery_terminates (S : ParserState) (T : QueryTags) (params : ParamDecoder)
    (extra : Nat) :
    ((∃ q rest, buildQuery S T params = some (.ok (q, rest)) ∧
        1 ≤ q.calls ∧ q.calls + rest.length ≤ params.length) ∨
      (∃ e, buildQuery S T params = some (.error e) ∧ e.isDecodeError = true)) ∧
    buildQueryFuel S T (params.length + 1 + extra) params = buildQuery S T params := by
  obtain ⟨r, hr, hcons⟩ := buildQueryFuel_total S T (params.length + 1) params (by omega)
  have hq : buildQuery S T params = some r := hr
  refine ⟨?_, ?_⟩
  · cases r with
    | error e => exact Or.inr ⟨e, hq, hcons⟩
    | ok v =>
      obtain ⟨q, rest⟩ := v
      exact Or.inl ⟨q, rest, hq, Query.calls_pos q, hcons⟩
  · rw [hq]
    exact buildQueryFuel_mono S T _ _ (by omega) _ _ hr

/-! ## Term lookup (C21, C22, C28) -/

theorem mem_setInsert {κ : Type} [LinearOrder κ] (k x : κ) (l : List κ) :
    x ∈ setInsert k l ↔ x = k ∨ x ∈ l := by
  induction l with
  | nil => simp [setInsert]
  | cons e rest ih =>
    by_cases h1 : k < e
    · simp [setInsert, h1]
    · by_cases h2 : k = e
      · simp only [setInsert, if_neg h1, if_pos h2, List.mem_cons]
        rw [h2]
        constructor
        · intro h; exact Or.inr h
        · intro h; rcases h with h | h
          · exact Or.inl h
          · exact h
      · simp only [setInsert, if_neg h1, if_neg h2, List.mem_cons, ih]
        constructor
        · intro h
          rcases h with h | h | h
          · exact Or.inr (Or.inl h)
          · exact Or.inl h
          · exact Or.inr (Or.inr h)
        · intro h
          rcases h with h | h | h
          · exact Or.inr (Or.inl h)
          · exact Or.inl h
          · exact Or.inr (Or.inr h)

theorem mem_foldl_setInsert {κ : Type} [LinearOrder κ] (x : κ) (keys : List κ) :
    ∀ terms : List κ,
      x ∈ keys.foldl (fun acc k => setInsert k acc) terms ↔ x ∈ terms ∨ x ∈ keys := by
  induction keys with
  | nil => intro terms; simp
  | cons k rest ih =>
    intro terms
    simp only [List.foldl_cons, ih, mem_setInsert, List.mem_cons]
    constructor
    · intro h
      rcases h with (h | h) | h
      · exact Or.inr (Or.inl h)
      · exact Or.inl h
      · exact Or.inr (Or.inr h)
    · intro h
      rcases h with h | h | h
      · exact Or.inl (Or.inr h)
      · exact Or.inl (Or.inl h)
      · exact Or.inr h

theorem setInsert_ne_nil {κ : Type} [LinearOrder κ] (k : κ) (l : List κ) :
    setInsert k l ≠ [] := by
  intro h
  have hm : k ∈ setInsert k l := (mem_setInsert k k l).mpr (Or.inl rfl)
  rw [h] at hm
  exact absurd hm (List.not_mem_nil k)

/-- The key loop reads an encoded key list to its end and returns the set of
the keys. -/
theorem readLookupTerms_encoded (rest : List Nat) :
    ∀ (keys : List Str) (fuel : Nat) (terms : List Str),
      keys.length < fuel → (∀ k ∈ keys, k ≠ [] ∧ k.length < WORD) →
      readLookupTerms fuel terms (encodeLookupKeys keys ++ rest) =
        some (.ok (keys.foldl (fun acc k => setInsert k acc) terms, rest)) := by
  intro keys
  induction keys with
  | nil =>
    intro fuel terms hfuel _
    cases fuel with
    | zero => simp at hfuel
    | succ fuel =>
      have h0 : ParamDecoder.string (ParamDecoder.putString [] ++ rest) = .ok ([], rest) :=
        string_put [] rest (by decide)
      simp only [encodeLookupKeys, List.map_nil, List.flatten_nil, List.nil_append,
        readLookupTerms, h0, if_true, List.foldl_nil]
  | cons k ks ih =>
    intro fuel terms hfuel hwf
    cases fuel with
    | zero => simp at hfuel
    | succ fuel =>
      have hk := hwf k (List.mem_cons_self k ks)
      have h0 : ParamDecoder.string
          (ParamDecoder.putString k ++ (encodeLookupKeys ks ++ rest)) =
            .ok (k, encodeLookupKeys ks ++ rest) :=
        string_put k _ hk.2
      have henc : encodeLookupKeys (k :: ks) ++ rest =
          ParamDecoder.putString k ++ (encodeLookupKeys ks ++ rest) := by
        simp only [encodeLookupKeys, List.map_cons, List.flatten_cons, List.append_assoc]
      rw [henc]
      simp only [readLookupTerms, h0, if_neg hk.1, List.foldl_cons]
      exact ih fuel (setInsert k terms) (by simpa using hfuel)
        (fun x hx => hwf x (List.mem_cons_of_mem k hx))

theorem length_le_encodeLookupKeys (keys : List Str) :
    keys.length ≤ (encodeLookupKeys keys).length := by
  induction keys with
  | nil => simp
  | cons k ks ih =>
    have henc : encodeLookupKeys (k :: ks) =
        ParamDecoder.putString k ++ encodeLookupKeys ks := by
      simp only [encodeLookupKeys, List.map_cons, List.flatten_cons, List.append_assoc]
    rw [henc]
    simp only [List.length_cons, List.length_append, ParamDecoder.putString,
      ParamDecoder.putUInt32]
    omega

/-- The scan writes the rows found in the key set as a row stream. -/
theorem lookupScan_eq_rowStream (R : RowLayout) (C : TagTable termField)
    (schema_params : ParamDecoder) (terms : List Str) (iter : List (Str × TermRow)) :
    lookupScan R C schema_params terms iter =
      rowStream (fun row => retrieveTerm R C row schema_params)
        (iter.filter (fun row => decide (row.1 ∈ terms))) := by
  induction iter with
  | nil => rfl
  | cons row rest ih =>
    by_cases hm : row.1 ∈ terms
    · have hd : decide (row.1 ∈ terms) = true := decide_eq_true hm
      simp only [lookupScan, if_pos hm, List.filter_cons, hd, if_true, rowStream, ih]
    · have hd : decide (row.1 ∈ terms) = false := decide_eq_false hm
      simp only [lookupScan, if_neg hm, List.filter_cons, hd, Bool.false_eq_true, if_false,
        ih]

theorem lookupScan_none (R : RowLayout) (C : TagTable termField)
    (schema_params : ParamDecoder) (terms : List Str) (iter : List (Str × TermRow))
    (h : ∀ row ∈ iter, row.1 ∉ terms) :
    lookupScan R C schema_params terms iter = { written := [0], raised := none } := by
  induction iter with
  | nil => rfl
  | cons row rest ih =>
    have hm : row.1 ∉ terms := h row (List.mem_cons_self row rest)
    simp only [lookupScan, if_neg hm]
    exact ih (fun x hx => h x (List.mem_cons_of_mem row hx))

/-- On an ascending term list the single-key branch writes what the scan
writes for the set of that one key. -/
theorem lookupSkip_eq_lookupScan (R : RowLayout) (C : TagTable termField)
    (schema_params : ParamDecoder) (term : Str) (iter : List (Str × TermRow))
    (hiter : Ascending iter) :
    lookupSkip R C schema_params term iter =
      lookupScan R C schema_params [term] iter := by
  induction iter with
  | nil => rfl
  | cons row rest ih =>
    have h2 := List.pairwise_cons.mp hiter
    by_cases hlt : row.1 < term
    · have hne : row.1 ∉ [term] := by
        rw [List.mem_singleton]; exact ne_of_lt hlt
      have ih2 := ih h2.2
      simp only [lookupSkip, skip_to, if_pos hlt] at ih2 ⊢
      simp only [lookupScan, if_neg hne]
      exact ih2
    · have hrest : ∀ x ∈ rest, x.1 ∉ [term] := by
        intro x hx hmem
        rw [List.mem_singleton] at hmem
        have hlt2 : row.1 < x.1 := h2.1 x hx
        rw [hmem] at hlt2
        exact hlt hlt2
      have hnone := lookupScan_none R C schema_params [term] rest hrest
      by_cases heq : row.1 = term
      · have hmem : row.1 ∈ [term] := by rw [List.mem_singleton]; exact heq
        simp only [lookupSkip, skip_to, if_neg hlt, if_pos heq, lookupScan, if_pos hmem,
          hnone]
      · have hmem : row.1 ∉ [term] := by rw [List.mem_singleton]; exact heq
        simp only [lookupSkip, skip_to, if_neg hlt, if_neg heq, lookupScan, if_neg hmem,
          hnone]

/-- A lookup request with at least one key, on an ascending term list, writes
the row stream of the terms found among the keys. -/
theorem lookup_encoded (R : RowLayout) (C : TagTable termField)
    (schema_params rest : ParamDecoder) (iter : List (Str × TermRow)) (keys : List Str)
    (hiter : Ascending iter) (hkeys : keys ≠ [])
    (hwf : ∀ k ∈ keys, k ≠ [] ∧ k.length < WORD) :
    qlcTermIteratorLookup R C (encodeLookupKeys keys ++ rest) schema_params iter =
      some (rowStream (fun row => retrieveTerm R C row schema_params)
        (iter.filter (fun row => decide (row.1 ∈ keys)))) := by
  have hlen : keys.length < (encodeLookupKeys keys ++ rest).length + 1 := by
    have := length_le_encodeLookupKeys keys
    simp only [List.length_append]; omega
  have hread := readLookupTerms_encoded rest keys _ [] hlen hwf
  have hmem : ∀ x, x ∈ keys.foldl (fun acc k => setInsert k acc) [] ↔ x ∈ keys := by
    intro x
    rw [mem_foldl_setInsert]
    simp
  have hfilter : ∀ terms : List Str, (∀ x, x ∈ terms ↔ x ∈ keys) →
      iter.filter (fun row => decide (row.1 ∈ terms)) =
        iter.filter (fun row => decide (row.1 ∈ keys)) := by
    intro terms ht
    apply List.filter_congr
    intro row _
    simp only [ht]
  unfold qlcTermIteratorLookup
  rw [hread]
  generalize hterms : keys.foldl (fun acc k => setInsert k acc) [] = terms at hmem
  match terms, hmem with
  | [], hmem =>
    cases keys with
    | nil => exact absurd rfl hkeys
    | cons k ks =>
      have := (hmem k).mpr (List.mem_cons_self k ks)
      exact absurd this (List.not_mem_nil k)
  | [term], hmem =>
    simp only []
    rw [lookupSkip_eq_lookupScan R C schema_params term iter hiter,
      lookupScan_eq_rowStream, hfilter [term] hmem]
  | a :: b :: more, hmem =>
    simp only []
    rw [lookupScan_eq_rowStream, hfilter (a :: b :: more) hmem]

theorem retrieveTerm_encoded (R : RowLayout) (C : TagTable termField)
    (iter : Str × TermRow) (rest : List Nat) (fields : List termField) :
    retrieveTerm R C iter (encodeTermSchema C fields ++ rest) =
      { written := (fields.map (retrieveTermField R iter)).flatten, raised := none } := by
  induction fields with
  | nil =>
    simp [encodeTermSchema, retrieveTerm]
  | cons f fs ih =>
    have hpos := C.toByte_pos f
    have hlt := C.toByte_lt f
    have hmod : C.toByte f % 256 = C.toByte f := Nat.mod_eq_of_lt hlt
    have hne : ¬ C.toByte f = 0 := by omega
    have henc : encodeTermSchema C (f :: fs) ++ rest =
        C.toByte f :: (encodeTermSchema C fs ++ rest) := by
      simp [encodeTermSchema]
    rw [henc]
    simp only [retrieveTerm, hmod, if_neg hne, C.ofByte_toByte, ih, List.map_cons,
      List.flatten_cons]

theorem rowStream_quiet {ρ : Type} (emit : ρ → Dispatched) (rows : List ρ)
    (h : ∀ row ∈ rows, (emit row).raised = none) :
    rowStream emit rows =
      { written := (rows.map (fun row => 1 :: (emit row).written)).flatten ++ [0]
        raised := none } := by
  induction rows with
  | nil => rfl
  | cons row rest ih =>
    have h1 := h row (List.mem_cons_self row rest)
    have h2 := ih (fun x hx => h x (List.mem_cons_of_mem row hx))
    simp only [rowStream, h1, h2, List.map_cons, List.flatten_cons, List.cons_append,
      List.append_assoc]

theorem foldl_setInsert_replicate {κ : Type} [LinearOrder κ] (k : κ) (n : Nat) :
    (List.replicate n k).foldl (fun acc x => setInsert x acc) [k] = [k] := by
  induction n with
  | zero => rfl
  | succ n ih =>
    have h : setInsert k [k] = [k] := by
      simp [setInsert]
    simp only [List.replicate_succ, List.foldl_cons, h, ih]

/-- C21: on a strictly ascending term list, a lookup request with at least
one key, each key non-empty, writes the row stream of exactly the terms of
the list that are among the keys, in the order of the list; and two such
requests whose keys form the same set (the keys in another order, or
repeated) write the same bytes. -/
theorem qlcTermIteratorLookup_filters (R : RowLayout) (C : TagTable termField)
    (schema_params rest : ParamDecoder) (iter : List (Str × TermRow)) (keys : List Str)
    (hiter : Ascending iter) (hkeys : keys ≠ [])
    (hwf : ∀ k ∈ keys, k ≠ [] ∧ k.length < WORD) :
    qlcTermIteratorLookup R C (encodeLookupKeys keys ++ rest) schema_params iter =
        some (rowStream (fun row => retrieveTerm R C row schema_params)
          (iter.filter (fun row => decide (row.1 ∈ keys)))) ∧
      ∀ (keys2 : List Str) (rest2 : ParamDecoder),
        (∀ k ∈ keys2, k ≠ [] ∧ k.length < WORD) →
        (∀ k ∈ keys2, k ∈ keys) → (∀ k ∈ keys, k ∈ keys2) →
        qlcTermIteratorLookup R C (encodeLookupKeys keys2 ++ rest2) schema_params iter =
          qlcTermIteratorLookup R C (encodeLookupKeys keys ++ rest) schema_params iter := by
  refine ⟨lookup_encoded R C schema_params rest iter keys hiter hkeys hwf, ?_⟩
  intro keys2 rest2 hwf2 hsub hsup
  have hsame : ∀ k, k ∈ keys2 ↔ k ∈ keys := fun k => ⟨hsub k, hsup k⟩
  have hkeys2 : keys2 ≠ [] := by
    intro h
    cases keys with
    | nil => exact hkeys rfl
    | cons k ks =>
      have := (hsame k).mpr (List.mem_cons_self k ks)
      rw [h] at this
      exact absurd this (List.not_mem_nil k)
  rw [lookup_encoded R C schema_params rest iter keys hiter hkeys hwf,
    lookup_encoded R C schema_params rest2 iter keys2 hiter hkeys2 hwf2]
  have hfilter : iter.filter (fun row => decide (row.1 ∈ keys2)) =
      iter.filter (fun row => decide (row.1 ∈ keys)) := by
    apply List.filter_congr
    intro row _
    simp only [hsame]
  rw [hfilter]

/-- Witness for C21: on the sample term list, the keys `cat`, `ant`, `cat`
give the rows of `ant` and `cat`, in that order, and the keys `ant`, `cat`
give the same bytes. -/
theorem qlcTermIteratorLookup_filters_witness :
    qlcTermIteratorLookup sampleRowLayout sampleTermTags
        (encodeLookupKeys [str "cat", str "ant", str "cat"] ++ [9])
        (encodeTermSchema sampleTermTags [.TERM_VALUE, .TERM_WDF]) sampleTerms =
      some { written := [1, 3, 0, 0, 0, 97, 110, 116, 1, 0, 0, 0,
                         1, 3, 0, 0, 0, 99, 97, 116, 3, 0, 0, 0,
                         0]
             raised := none } ∧
    qlcTermIteratorLookup sampleRowLayout sampleTermTags
        (encodeLookupKeys [str "ant", str "cat"] ++ [])
        (encodeTermSchema sampleTermTags [.TERM_VALUE, .TERM_WDF]) sampleTerms =
      qlcTermIteratorLookup sampleRowLayout sampleTermTags
        (encodeLookupKeys [str "cat", str "ant", str "cat"] ++ [9])
        (encodeTermSchema sampleTermTags [.TERM_VALUE, .TERM_WDF]) sampleTerms :=
  have h := qlcTermIteratorLookup_filters sampleRowLayout sampleTermTags
    (encodeTermSchema sampleTermTags [.TERM_VALUE, .TERM_WDF]) [9] sampleTerms
    [str "cat", str "ant", str "cat"] (by decide) (by decide) (by decide)
  ⟨h.1.trans (by decide), h.2 [str "ant", str "cat"] [] (by decide) (by decide) (by decide)⟩

/-- C22, the code as written: a lookup request whose first key is already the
empty key returns before anything is written; the reply holds no stop
byte. -/
theorem qlcTermIteratorLookup_empty_keys_writes_nothing :
    qlcTermIteratorLookup sampleRowLayout sampleTermTags (encodeLookupKeys [])
        (encodeTermSchema sampleTermTags [.TERM_VALUE, .TERM_WDF]) sampleTerms =
      some { written := [], raised := none } := by
  decide

/-- C22, as the code has it: on a strictly ascending term list, for a lookup
request with at least one key, each key non-empty, and a schema whose
encoding of a row never throws, the bytes written are the rows found among
the keys, each after the byte 1, and then the byte 0; nothing is thrown. -/
theorem qlcTermIteratorLookup_stream (R : RowLayout) (C : TagTable termField)
    (schema_params rest : ParamDecoder) (iter : List (Str × TermRow)) (keys : List Str)
    (hiter : Ascending iter) (hkeys : keys ≠ [])
    (hwf : ∀ k ∈ keys, k ≠ [] ∧ k.length < WORD)
    (hquiet : ∀ row ∈ iter, (retrieveTerm R C row schema_params).raised = none) :
    qlcTermIteratorLookup R C (encodeLookupKeys keys ++ rest) schema_params iter =
      some { written :=
               ((iter.filter (fun row => decide (row.1 ∈ keys))).map
                 (fun row => 1 :: (retrieveTerm R C row schema_params).written)).flatten ++
                 [0]
             raised := none } := by
  rw [lookup_encoded R C schema_params rest iter keys hiter hkeys hwf,
    rowStream_quiet (fun row => retrieveTerm R C row schema_params) _
      (fun row hrow => hquiet row (List.mem_of_mem_filter hrow))]

/-- Witness for C22: the key `dog`, which is not in the sample term list,
gives the single byte 0. -/
theorem qlcTermIteratorLookup_stream_witness :
    qlcTermIteratorLookup sampleRowLayout sampleTermTags
        (encodeLookupKeys [str "dog"] ++ [])
        (encodeTermSchema sampleTermTags [.TERM_VALUE, .TERM_WDF]) sampleTerms =
      some { written := [0], raised := none } :=
  (qlcTermIteratorLookup_stream sampleRowLayout sampleTermTags
    (encodeTermSchema sampleTermTags [.TERM_VALUE, .TERM_WDF]) [] sampleTerms
    [str "dog"] (by decide) (by decide) (by decide) (by decide)).trans (by decide)

/-- C28: a lookup request whose keys are all the one non-empty key `term`
takes the single-key branch, and on a strictly ascending term list that
branch writes byte for byte what the scan with the set of that one key
writes. -/
theorem lookupSkip_matches_lookupScan (R : RowLayout) (C : TagTable termField)
    (schema_params rest : ParamDecoder) (iter : List (Str × TermRow)) (term : Str)
    (copies : Nat) (hiter : Ascending iter) (hterm : term ≠ [])
    (hlen : term.length < WORD) :
    qlcTermIteratorLookup R C
        (encodeLookupKeys (List.replicate (copies + 1) term) ++ rest) schema_params iter =
      some (lookupSkip R C schema_params term iter) ∧
    lookupSkip R C schema_params term iter = lookupScan R C schema_params [term] iter := by
  refine ⟨?_, lookupSkip_eq_lookupScan R C schema_params term iter hiter⟩
  have hwf : ∀ k ∈ List.replicate (copies + 1) term, k ≠ [] ∧ k.length < WORD := by
    intro k hk
    rw [List.eq_of_mem_replicate hk]
    exact ⟨hterm, hlen⟩
  have hfuel : (List.replicate (copies + 1) term).length <
      (encodeLookupKeys (List.replicate (copies + 1) term) ++ rest).length + 1 := by
    have := length_le_encodeLookupKeys (List.replicate (copies + 1) term)
    simp only [List.length_append]; omega
  have hread := readLookupTerms_encoded rest (List.replicate (copies + 1) term) _ [] hfuel hwf
  have hset : (List.replicate (copies + 1) term).foldl (fun acc k => setInsert k acc) [] =
      [term] := by
    rw [List.replicate_succ, List.foldl_cons]
    exact foldl_setInsert_replicate term copies
  rw [hset] at hread
  unfold qlcTermIteratorLookup
  rw [hread]

/-- Witness for C28: on the sample term list the key `bee`, given twice, is
looked up by the single-key branch, which writes the row of `bee` as the scan
does. -/
theorem lookupSkip_matches_lookupScan_witness :
    qlcTermIteratorLookup sampleRowLayout sampleTermTags
        (encodeLookupKeys [str "bee", str "bee"] ++ [])
        (encodeTermSchema sampleTermTags [.TERM_VALUE, .TERM_POSITIONS]) sampleTerms =
      some { written := [1, 3, 0, 0, 0, 98, 101, 101, 0, 0, 0, 0, 0], raised := none } ∧
    lookupScan sampleRowLayout sampleTermTags
        (encodeTermSchema sampleTermTags [.TERM_VALUE, .TERM_POSITIONS])
        [str "bee"] sampleTerms =
      { written := [1, 3, 0, 0, 0, 98, 101, 101, 0, 0, 0, 0, 0], raised := none } :=
  have h := lookupSkip_matches_lookupScan sampleRowLayout sampleTermTags
    (encodeTermSchema sampleTermTags [.TERM_VALUE, .TERM_POSITIONS]) [] sampleTerms
    (str "bee") 1 (by decide) (by decide) (by decide)
  ⟨h.1.trans (by decide), h.2.symm.trans (by decide)⟩

/-! ## The capture of an edit program (C26) -/

/-- C26, the code as written, with the sample tags (`SET_VALUE` is 10,
`ADD_VALUE` is 9, the type tags are 1 for a string and 2 for a double).
`applyDocument` decodes each of three one-operation programs to its zero
terminator, but `applyDocumentSchema` reads the type tag and the three bytes
behind it as the length of a string: for the string value `7` it throws
`Truncated`; for the double of eight zero bytes it stops three bytes early,
taking the seventh byte of the double for the terminator; for a double whose
seventh byte is 99 it throws `BadCommand` for 99. -/
theorem applyDocumentSchema_misreads_values :
    ((applyDocument sampleTextEngine sampleFieldTags sampleValueTags { language := str "en" }
        [10, 1, 0, 0, 0, 1, 1, 0, 0, 0, 55, 0, 0] sampleDoc).map
          (fun r => (r.raised, r.params)) = some (none, []) ∧
      applyDocumentSchema sampleFieldTags [10, 1, 0, 0, 0, 1, 1, 0, 0, 0, 55, 0, 0] =
        some (.error (.driver .Truncated))) ∧
    ((applyDocument sampleTextEngine sampleFieldTags sampleValueTags { language := str "en" }
        [9, 2, 0, 0, 0, 2, 0, 0, 0, 0, 0, 0, 0, 0, 0, 0, 7, 7] sampleDoc).map
          (fun r => (r.raised, r.params)) = some (none, [7, 7]) ∧
      applyDocumentSchema sampleFieldTags
          [9, 2, 0, 0, 0, 2, 0, 0, 0, 0, 0, 0, 0, 0, 0, 0, 7, 7] =
        some (.ok ([9, 2, 0, 0, 0, 2, 0, 0, 0, 0, 0, 0, 0], [0, 0, 0, 7, 7]))) ∧
    ((applyDocument sampleTextEngine sampleFieldTags sampleValueTags { language := str "en" }
        [9, 2, 0, 0, 0, 2, 0, 0, 0, 0, 0, 0, 99, 0, 0, 0] sampleDoc).map
          (fun r => (r.raised, r.params)) = some (none, []) ∧
      applyDocumentSchema sampleFieldTags
          [9, 2, 0, 0, 0, 2, 0, 0, 0, 0, 0, 0, 99, 0, 0, 0] =
        some (.error (.driver (.BadCommandDriverError 99)))) := by
  decide

/-! ## Updates addressed by a unique term (C23, C24) -/

/-- C23, the code as written: an update request (`create` is false) whose
edit program sets slot 1 to the string `7`, addressed by the unique term `k9`
that no document of the sample index carries, fails with `Truncated`, thrown
by the capture of the program, and not with `BadArgument`; the index is left
as it was. -/
theorem updateDocument_missing_term_truncated :
    updateDocument sampleLayout sampleTextEngine sampleFieldTags sampleValueTags
        sampleIdTags { language := str "en" } false sampleIndex
        (encodeUpdateByTerm sampleFieldTags sampleValueTags sampleIdTags
          [.value .set 1 (.string (str "7")) false] (str "k9")) =
      some { m_wdb := sampleIndex, written := [], raised := some (.driver .Truncated) } := by
  decide

/-- C24, the code as written: an update-or-create request (`create` is true)
whose edit program sets the data to `v2` and slot 1 to the string `7`,
addressed by the unique term `k1` that document 1 of the sample index
carries, fails with `Truncated`, thrown by the capture of the program;
document 1 is not replaced. -/
theorem updateDocument_value_program_truncated :
    (applyOps sampleTextEngine
        [.setData (str "v2"), .value .set 1 (.string (str "7")) false]
        { stemmer := { language := str "en" }, termpos := 0 }
        { data := str "v1", values := []
          terms := [(str "k1", { wdf := 1, positions := [] })] }).raised = none ∧
    updateDocument sampleLayout sampleTextEngine sampleFieldTags sampleValueTags
        sampleIdTags { language := str "en" } true sampleIndex
        (encodeUpdateByTerm sampleFieldTags sampleValueTags sampleIdTags
          [.setData (str "v2"), .value .set 1 (.string (str "7")) false] (str "k1")) =
      some { m_wdb := sampleIndex, written := [], raised := some (.driver .Truncated) } := by
  decide

theorem applyDocumentSchemaField_encoded (V : CaseTable valueType) (op : EditOperation)
    (h : op.WellFormed) (hval : op.isValue = false) (tail : List Nat) :
    applyDocumentSchemaField op.tag (op.fields V ++ tail) = .ok tail := by
  cases op with
  | setStemmer stemmer =>
    simp [applyDocumentSchemaField, EditOperation.tag, EditOperation.fields, skipRead,
      stem_put stemmer tail h]
  | setData data =>
    simp [applyDocumentSchemaField, EditOperation.tag, EditOperation.fields, skipRead,
      string_put data tail h]
  | advancePosition delta =>
    simp [applyDocumentSchemaField, EditOperation.tag, EditOperation.fields, skipRead,
      uint32_put delta tail h]
  | indexText text wdf_inc pfx =>
    obtain ⟨h1, h2, h3⟩ := h
    simp [applyDocumentSchemaField, EditOperation.tag, EditOperation.fields, skipRead,
      thenSkip, List.append_assoc, string_put text _ h1, uint32_put wdf_inc _ h2,
      string_put pfx tail h3]
  | term action tname wdf ignore =>
    obtain ⟨h1, h2⟩ := h
    cases action <;>
      simp [applyDocumentSchemaField, EditOperation.tag, EditOperation.fields, skipRead,
        thenSkip, EditAction.termTag, List.append_assoc, string_put tname _ h1,
        uint32_put wdf _ h2, bool_put ignore tail]
  | value action slot v ignore => simp [EditOperation.isValue] at hval
  | posting action tname tpos wdf ignore =>
    obtain ⟨h1, h2, h3⟩ := h
    cases action <;>
      simp [applyDocumentSchemaField, EditOperation.tag, EditOperation.fields, skipRead,
        thenSkip, EditAction.postingTag, List.append_assoc, string_put tname _ h1,
        uint32_put tpos _ h2, uint32_put wdf _ h3, bool_put ignore tail]
  | setWordFrequency tname wdf ignore =>
    obtain ⟨h1, h2⟩ := h
    simp [applyDocumentSchemaField, EditOperation.tag, EditOperation.fields, skipRead,
      thenSkip, List.append_assoc, string_put tname _ h1, uint32_put wdf _ h2,
      bool_put ignore tail]
  | decreaseWordFrequency tname wdf ignore =>
    obtain ⟨h1, h2⟩ := h
    simp [applyDocumentSchemaField, EditOperation.tag, EditOperation.fields, skipRead,
      thenSkip, List.append_assoc, string_put tname _ h1, uint32_put wdf _ h2,
      bool_put ignore tail]
  | clearValues =>
    simp [applyDocumentSchemaField, EditOperation.tag, EditOperation.fields]
  | clearTerms =>
    simp [applyDocumentSchemaField, EditOperation.tag, EditOperation.fields]
  | clearAllPositions =>
    simp [applyDocumentSchemaField, EditOperation.tag, EditOperation.fields]
  | clearPositionsOfTerm tname ignore =>
    simp [applyDocumentSchemaField, EditOperation.tag, EditOperation.fields, skipRead,
      thenSkip, List.append_assoc, string_put tname _ h, bool_put ignore tail]

theorem applyDocumentSchemaLoop_encoded (F : TagTable fieldTypeIn) (V : CaseTable valueType)
    (rest : List Nat) :
    ∀ ops : List EditOperation, (∀ op ∈ ops, op.WellFormed) →
      (∀ op ∈ ops, op.isValue = false) →
      ∀ fuel : Nat, ops.length < fuel →
        applyDocumentSchemaLoop F fuel (encodeOps F V ops ++ 0 :: rest) =
          some (.ok rest) := by
  intro ops
  induction ops with
  | nil =>
    intro _ _ fuel hfuel
    obtain ⟨f, rfl⟩ : ∃ f, fuel = f + 1 := ⟨fuel - 1, by omega⟩
    simp [applyDocumentSchemaLoop, encodeOps, uint8_cons]
  | cons op ops ih =>
    intro hwf hval fuel hfuel
    obtain ⟨f, rfl⟩ : ∃ f, fuel = f + 1 := ⟨fuel - 1, by omega⟩
    have hf : ops.length < f := by
      simp only [List.length_cons] at hfuel; omega
    have hbyte : F.toByte op.tag % 256 = F.toByte op.tag :=
      Nat.mod_eq_of_lt (F.toByte_lt op.tag)
    have hne : ¬ F.toByte op.tag = 0 := Nat.pos_iff_ne_zero.mp (F.toByte_pos op.tag)
    have hstep := applyDocumentSchemaField_encoded V op (hwf op (List.mem_cons_self _ _))
      (hval op (List.mem_cons_self _ _)) (encodeOps F V ops ++ 0 :: rest)
    simp only [encodeOps, EditOperation.encode, List.cons_append, List.append_assoc,
      applyDocumentSchemaLoop, uint8_cons, hbyte, if_neg hne, F.ofByte_toByte, hstep]
    exact ih (fun o ho => hwf o (List.mem_cons_of_mem _ ho))
      (fun o ho => hval o (List.mem_cons_of_mem _ ho)) f hf

/-- For a well-formed program without value operations, the capture returns
exactly the program up to and including its zero terminator, and leaves what
follows unread. -/
theorem applyDocumentSchema_encoded (F : TagTable fieldTypeIn) (V : CaseTable valueType)
    (ops : List EditOperation) (rest : List Nat) (hwf : ∀ op ∈ ops, op.WellFormed)
    (hval : ∀ op ∈ ops, op.isValue = false) :
    applyDocumentSchema F (encodeOps F V ops ++ 0 :: rest) =
      some (.ok (encodeOps F V ops ++ [0], rest)) := by
  have hlen := length_le_encodeOps F V ops
  have hfuel : ops.length < (encodeOps F V ops ++ 0 :: rest).length + 1 := by
    simp only [List.length_append, List.length_cons]; omega
  have hloop := applyDocumentSchemaLoop_encoded F V rest ops hwf hval _ hfuel
  have htake : List.take ((encodeOps F V ops ++ 0 :: rest).length - rest.length)
      (encodeOps F V ops ++ 0 :: rest) = encodeOps F V ops ++ [0] := by
    have h1 : encodeOps F V ops ++ 0 :: rest = (encodeOps F V ops ++ [0]) ++ rest := by
      simp
    have h2 : (encodeOps F V ops ++ 0 :: rest).length - rest.length =
        (encodeOps F V ops ++ [0]).length := by
      simp only [List.length_append, List.length_cons, List.length_nil]; omega
    rw [h2, h1]
    exact List.take_left' rfl
  simp only [applyDocumentSchema, hloop, htake]

theorem applyDocument_encoded (E : TextEngine) (F : TagTable fieldTypeIn)
    (V : CaseTable valueType) (m_default_stemmer : Stem) (ops : List EditOperation)
    (rest : List Nat) (doc : Document) (hwf : ∀ op ∈ ops, op.WellFormed) :
    ∃ r, applyDocument E F V m_default_stemmer (encodeOps F V ops ++ 0 :: rest) doc =
        some r ∧
      r.doc = (applyOps E ops { stemmer := m_default_stemmer, termpos := 0 } doc).doc ∧
      r.raised =
        (applyOps E ops { stemmer := m_default_stemmer, termpos := 0 } doc).raised ∧
      (r.raised = none → r.params = rest) := by
  unfold applyDocument
  apply applyDocumentLoop_encoded E F V rest ops hwf
  have := length_le_encodeOps F V ops
  simp only [List.length_append, List.length_cons]
  omega

/-- The identification of an update request addressed by a unique term is
read back behind a captured program. -/
theorem updateDocument_by_term_eq (L : ReplyLayout) (E : TextEngine)
    (F : TagTable fieldTypeIn) (V : CaseTable valueType) (I : CaseTable idType)
    (m_default_stemmer : Stem) (create : Bool) (m_wdb : WritableDatabase)
    (ops : List EditOperation) (unique_term : Str) (hwf : ∀ op ∈ ops, op.WellFormed)
    (hval : ∀ op ∈ ops, op.isValue = false) (hterm : unique_term.length < WORD) :
    updateDocument L E F V I m_default_stemmer create m_wdb
        (encodeUpdateByTerm F V I ops unique_term) =
      if m_wdb.term_exists unique_term then
        match updateMatches E F V m_default_stemmer (encodeOps F V ops ++ [0])
            (m_wdb.get_mset unique_term) m_wdb with
        | none => none
        | some (m_wdb, some e) =>
          some { m_wdb := m_wdb, written := [], raised := some e }
        | some (m_wdb, none) =>
          some { m_wdb := m_wdb, written := L.uint32 0, raised := none }
      else if create then
        match applyDocument E F V m_default_stemmer (encodeOps F V ops ++ [0])
            Document.empty with
        | none => none
        | some r =>
          match r.raised with
          | some e => some { m_wdb := m_wdb, written := [], raised := some e }
          | none =>
            some { m_wdb := (m_wdb.add_document r.doc).2
                   written := L.uint32 (m_wdb.add_document r.doc).1
                   raised := none }
      else
        some { m_wdb := m_wdb, written := []
               raised := some (.driver .BadArgumentDriverError) } := by
  have hcap := applyDocumentSchema_encoded F V ops
    (I.toByte .UNIQUE_TERM :: ParamDecoder.putString unique_term) hwf hval
  have hbyte : I.toByte .UNIQUE_TERM % 256 = I.toByte .UNIQUE_TERM :=
    Nat.mod_eq_of_lt (I.toByte_lt .UNIQUE_TERM)
  have hstr : ParamDecoder.string (ParamDecoder.putString unique_term) =
      .ok (unique_term, []) := by
    have := string_put unique_term [] hterm
    simpa using this
  simp only [updateDocument, encodeUpdateByTerm, hcap, uint8_cons, hbyte, I.ofByte_toByte,
    hstr]

/-- For a well-formed program without value operations: an update request
(`create` is false) addressed by a unique term that no document of the index
carries fails with `BadArgument` and leaves the index as it was. -/
theorem updateDocument_missing_term (L : ReplyLayout) (E : TextEngine)
    (F : TagTable fieldTypeIn) (V : CaseTable valueType) (I : CaseTable idType)
    (m_default_stemmer : Stem) (m_wdb : WritableDatabase)
    (ops : List EditOperation) (unique_term : Str) (hwf : ∀ op ∈ ops, op.WellFormed)
    (hval : ∀ op ∈ ops, op.isValue = false) (hterm : unique_term.length < WORD)
    (habsent : m_wdb.term_exists unique_term = false) :
    updateDocument L E F V I m_default_stemmer false m_wdb
        (encodeUpdateByTerm F V I ops unique_term) =
      some { m_wdb := m_wdb, written := []
             raised := some (.driver .BadArgumentDriverError) } := by
  rw [updateDocument_by_term_eq L E F V I m_default_stemmer false m_wdb ops unique_term
    hwf hval hterm]
  simp [habsent]

theorem mapFind_of_mem_ascending {κ α : Type} [LinearOrder κ] (l : List (κ × α))
    (hl : Ascending l) (e : κ × α) (he : e ∈ l) : mapFind e.1 l = some e.2 := by
  induction l with
  | nil => exact absurd he (List.not_mem_nil e)
  | cons x rest ih =>
    have h2 := List.pairwise_cons.mp hl
    rcases List.mem_cons.mp he with heq | hmem
    · rw [heq]; simp [mapFind]
    · have hne : ¬ x.1 = e.1 := ne_of_lt (h2.1 e hmem)
      simp only [mapFind, if_neg hne]
      exact ih h2.2 hmem

theorem length_mapInsert_present {κ α : Type} [LinearOrder κ] (l : List (κ × α))
    (hl : Ascending l) (k : κ) (v w : α) (h : mapFind k l = some w) :
    (mapInsert k v l).length = l.length := by
  induction l with
  | nil => simp [mapFind] at h
  | cons e rest ih =>
    have h2 := List.pairwise_cons.mp hl
    by_cases heq : e.1 = k
    · have h1 : ¬ k < e.1 := by rw [heq]; exact lt_irrefl k
      simp [mapInsert, if_neg h1, heq.symm]
    · simp only [mapFind, if_neg heq] at h
      have hmem := mapFind_some_mem k w rest h
      have hlt : e.1 < k := h2.1 (k, w) hmem
      have h1 : ¬ k < e.1 := not_lt.mpr (le_of_lt hlt)
      have h3 : ¬ k = e.1 := fun h4 => heq h4.symm
      simp only [mapInsert, if_neg h1, if_neg h3, List.length_cons, ih h2.2 h]

/-- The loop over the matched documents replaces each of them by the program
applied to it and touches no other document. -/
theorem updateMatches_encoded (E : TextEngine) (F : TagTable fieldTypeIn)
    (V : CaseTable valueType) (m_default_stemmer : Stem) (ops : List EditOperation)
    (hwf : ∀ op ∈ ops, op.WellFormed) :
    ∀ (ids : List Nat) (db : WritableDatabase), Ascending db.docs → ids.Nodup →
      (∀ id ∈ ids, ∃ doc, mapFind id db.docs = some doc ∧
        (applyOps E ops { stemmer := m_default_stemmer, termpos := 0 } doc).raised =
          none) →
      ∃ db2, updateMatches E F V m_default_stemmer (encodeOps F V ops ++ [0]) ids db =
          some (db2, none) ∧
        Ascending db2.docs ∧ db2.docs.length = db.docs.length ∧
        ∀ id, mapFind id db2.docs =
          if id ∈ ids then
            (mapFind id db.docs).map (fun doc =>
              (applyOps E ops { stemmer := m_default_stemmer, termpos := 0 } doc).doc)
          else mapFind id db.docs := by
  intro ids
  induction ids with
  | nil =>
    intro db hasc _ _
    exact ⟨db, rfl, hasc, rfl, fun id => by simp⟩
  | cons id ids ih =>
    intro db hasc hnodup hdocs
    have hnd := List.nodup_cons.mp hnodup
    obtain ⟨doc, hfind, hquiet⟩ := hdocs id (List.mem_cons_self id ids)
    obtain ⟨r, hr, hdoc, hraised, _⟩ :=
      applyDocument_encoded E F V m_default_stemmer ops [] doc hwf
    rw [hquiet] at hraised
    have hstep : updateMatches E F V m_default_stemmer (encodeOps F V ops ++ [0])
        (id :: ids) db =
        updateMatches E F V m_default_stemmer (encodeOps F V ops ++ [0]) ids
          (db.replace_document id r.doc) := by
      simp only [updateMatches, WritableDatabase.get_document, hfind, hr, hraised]
    have hasc1 : Ascending (db.replace_document id r.doc).docs :=
      Ascending.mapInsert id r.doc db.docs hasc
    have hdocs1 : ∀ id2 ∈ ids, ∃ doc2,
        mapFind id2 (db.replace_document id r.doc).docs = some doc2 ∧
        (applyOps E ops { stemmer := m_default_stemmer, termpos := 0 } doc2).raised =
          none := by
      intro id2 hid2
      have hne : ¬ id2 = id := fun h => hnd.1 (h ▸ hid2)
      obtain ⟨doc2, hf2, hq2⟩ := hdocs id2 (List.mem_cons_of_mem id hid2)
      refine ⟨doc2, ?_, hq2⟩
      simp only [WritableDatabase.replace_document, mapFind_mapInsert, if_neg hne, hf2]
    obtain ⟨db2, hrun, hasc2, hlen2, hfind2⟩ :=
      ih (db.replace_document id r.doc) hasc1 hnd.2 hdocs1
    refine ⟨db2, by rw [hstep, hrun], hasc2, ?_, ?_⟩
    · rw [hlen2]
      exact length_mapInsert_present db.docs hasc id r.doc doc hfind
    · intro id2
      rw [hfind2 id2]
      by_cases heq : id2 = id
      · have hnot : id2 ∉ ids := by rw [heq]; exact hnd.1
        have hin : id2 ∈ id :: ids := by rw [heq]; exact List.mem_cons_self id ids
        simp only [if_neg hnot, if_pos hin, WritableDatabase.replace_document,
          mapFind_mapInsert, if_pos heq]
        rw [heq, hfind, hdoc]
        rfl
      · by_cases hin : id2 ∈ ids
        · have hin2 : id2 ∈ id :: ids := List.mem_cons_of_mem id hin
          simp only [if_pos hin, if_pos hin2, WritableDatabase.replace_document,
            mapFind_mapInsert, if_neg heq]
        · have hin2 : id2 ∉ id :: ids := by
            intro h
            rcases List.mem_cons.mp h with h | h
            · exact heq h
            · exact hin h
          simp only [if_neg hin, if_neg hin2, WritableDatabase.replace_document,
            mapFind_mapInsert, if_neg heq]

theorem get_mset_eq (db : WritableDatabase) (tname : Str) :
    db.get_mset tname =
      (db.docs.filter (fun d => (d.2.term tname).isSome)).map (fun d => d.1) := by
  unfold WritableDatabase.get_mset WritableDatabase.get_doccount
  apply List.take_of_length_le
  rw [List.length_map]
  exact List.length_filter_le _ _

theorem get_mset_nodup (db : WritableDatabase) (tname : Str) (hasc : Ascending db.docs) :
    (db.get_mset tname).Nodup := by
  rw [get_mset_eq]
  have h1 : (db.docs.filter (fun d => (d.2.term tname).isSome)).Pairwise
      (fun a b => a.1 < b.1) := List.Pairwise.filter _ hasc
  have h2 : ((db.docs.filter (fun d => (d.2.term tname).isSome)).map
      (fun d => d.1)).Pairwise (fun a b => a < b) :=
    (List.pairwise_map).mpr h1
  exact h2.imp (fun h => ne_of_lt h)

theorem mem_get_mset (db : WritableDatabase) (tname : Str) (id : Nat) :
    id ∈ db.get_mset tname ↔
      ∃ d ∈ db.docs, (d.2.term tname).isSome = true ∧ d.1 = id := by
  rw [get_mset_eq]
  simp only [List.mem_map, List.mem_filter]
  constructor
  · rintro ⟨d, ⟨hd, hhas⟩, hid⟩
    exact ⟨d, hd, hhas, hid⟩
  · rintro ⟨d, hd, hhas, hid⟩
    exact ⟨d, ⟨hd, hhas⟩, hid⟩

/-- For a well-formed program without value operations that applies without
error: an update-or-create request (`create` is true) addressed by a unique
term ends normally.  If some document carries the term, the number of
documents is unchanged, every document that carries the term is replaced by
the program applied to it, every other document is as it was, and the id
written is 0.  If no document carries the term, the program applied to the
empty document is added under the next id, which is written. -/
theorem updateDocument_or_create_by_term (L : ReplyLayout) (E : TextEngine)
    (F : TagTable fieldTypeIn) (V : CaseTable valueType) (I : CaseTable idType)
    (m_default_stemmer : Stem) (m_wdb : WritableDatabase)
    (ops : List EditOperation) (unique_term : Str) (hwf : ∀ op ∈ ops, op.WellFormed)
    (hval : ∀ op ∈ ops, op.isValue = false) (hterm : unique_term.length < WORD)
    (hasc : Ascending m_wdb.docs)
    (hquiet : ∀ d ∈ m_wdb.docs, (d.2.term unique_term).isSome = true →
      (applyOps E ops { stemmer := m_default_stemmer, termpos := 0 } d.2).raised = none)
    (hblank : (applyOps E ops { stemmer := m_default_stemmer, termpos := 0 }
      Document.empty).raised = none) :
    ∃ r, updateDocument L E F V I m_default_stemmer true m_wdb
        (encodeUpdateByTerm F V I ops unique_term) = some r ∧
      r.raised = none ∧
      (m_wdb.term_exists unique_term = true →
        r.written = L.uint32 0 ∧ r.m_wdb.docs.length = m_wdb.docs.length ∧
        ∀ id, mapFind id r.m_wdb.docs =
          (mapFind id m_wdb.docs).map (fun doc =>
            if (doc.term unique_term).isSome then
              (applyOps E ops { stemmer := m_default_stemmer, termpos := 0 } doc).doc
            else doc)) ∧
      (m_wdb.term_exists unique_term = false →
        r.written = L.uint32 (m_wdb.lastdocid + 1) ∧
        r.m_wdb = (m_wdb.add_document
          (applyOps E ops { stemmer := m_default_stemmer, termpos := 0 }
            Document.empty).doc).2) := by
  rw [updateDocument_by_term_eq L E F V I m_default_stemmer true m_wdb ops unique_term
    hwf hval hterm]
  by_cases hex : m_wdb.term_exists unique_term = true
  · have hids : ∀ id ∈ m_wdb.get_mset unique_term, ∃ doc,
        mapFind id m_wdb.docs = some doc ∧
        (applyOps E ops { stemmer := m_default_stemmer, termpos := 0 } doc).raised =
          none := by
      intro id hid
      obtain ⟨d, hd, hhas, hdid⟩ := (mem_get_mset m_wdb unique_term id).mp hid
      refine ⟨d.2, ?_, hquiet d hd hhas⟩
      rw [← hdid]
      exact mapFind_of_mem_ascending m_wdb.docs hasc d hd
    obtain ⟨db2, hrun, _, hlen, hfind⟩ :=
      updateMatches_encoded E F V m_default_stemmer ops hwf (m_wdb.get_mset unique_term)
        m_wdb hasc (get_mset_nodup m_wdb unique_term hasc) hids
    simp only [hex, if_true, hrun]
    refine ⟨_, rfl, rfl, ?_, ?_⟩
    · intro _
      refine ⟨rfl, hlen, ?_⟩
      intro id
      rw [hfind id]
      by_cases hin : id ∈ m_wdb.get_mset unique_term
      · obtain ⟨d, hd, hhas, hdid⟩ := (mem_get_mset m_wdb unique_term id).mp hin
        have hf := mapFind_of_mem_ascending m_wdb.docs hasc d hd
        rw [hdid] at hf
        simp only [if_pos hin, hf, Option.map_some', hhas, if_true]
      · simp only [if_neg hin]
        cases hf : mapFind id m_wdb.docs with
        | none => rfl
        | some doc =>
          have hmem := mapFind_some_mem id doc m_wdb.docs hf
          have hno : (doc.term unique_term).isSome = false := by
            cases hhas : (doc.term unique_term).isSome with
            | false => rfl
            | true =>
              exact absurd
                ((mem_get_mset m_wdb unique_term id).mpr ⟨(id, doc), hmem, hhas, rfl⟩) hin
          simp only [Option.map_some', hno, Bool.false_eq_true, if_false]
    · intro h
      exact absurd h (by decide)
  · have hex2 : m_wdb.term_exists unique_term = false := by
      cases h : m_wdb.term_exists unique_term with
      | true => exact absurd h hex
      | false => rfl
    obtain ⟨r, hr, hdoc, hraised, _⟩ :=
      applyDocument_encoded E F V m_default_stemmer ops [] Document.empty hwf
    rw [hblank] at hraised
    simp only [hex2, Bool.false_eq_true, if_false, if_true, hr, hraised]
    refine ⟨_, rfl, rfl, ?_, ?_⟩
    · intro h
      exact absurd h (by decide)
    · intro _
      exact ⟨rfl, by rw [hdoc]⟩

/-- The end-to-end scenario of the specification: on the sample index, an
update-or-create request addressed by the unique term `k1` with the program
"set the data to `v2`" leaves two documents, document 1 now carrying the data
`v2`, and writes the id 0; the same request addressed by the unknown term
`k9` adds document 3, built from the empty document, and writes the id 3. -/
theorem updateDocument_or_create_sample :
    updateDocument sampleLayout sampleTextEngine sampleFieldTags sampleValueTags
        sampleIdTags { language := str "en" } true sampleIndex
        (encodeUpdateByTerm sampleFieldTags sampleValueTags sampleIdTags
          [.setData (str "v2")] (str "k1")) =
      some { m_wdb :=
               { docs := [(1, { data := str "v2", values := []
                                terms := [(str "k1", { wdf := 1, positions := [] })] }),
                          (2, { data := str "w", values := []
                                terms := [(str "k2", { wdf := 1, positions := [] })] })]
                 lastdocid := 2 }
             written := [0, 0, 0, 0], raised := none } ∧
    updateDocument sampleLayout sampleTextEngine sampleFieldTags sampleValueTags
        sampleIdTags { language := str "en" } true sampleIndex
        (encodeUpdateByTerm sampleFieldTags sampleValueTags sampleIdTags
          [.setData (str "v2")] (str "k9")) =
      some { m_wdb :=
               { docs := [(1, { data := str "v1", values := []
                                terms := [(str "k1", { wdf := 1, positions := [] })] }),
                          (2, { data := str "w", values := []
                                terms := [(str "k2", { wdf := 1, positions := [] })] }),
                          (3, { data := str "v2", values := [], terms := [] })]
                 lastdocid := 3 }
             written := [0, 0, 0, 3], raised := none } := by
  decide

/-- On the sample index the unknown term `k9` with the program "set the data
to `v2`" and no leave to create is refused with `BadArgument`. -/
theorem updateDocument_missing_term_sample :
    updateDocument sampleLayout sampleTextEngine sampleFieldTags sampleValueTags
        sampleIdTags { language := str "en" } false sampleIndex
        (encodeUpdateByTerm sampleFieldTags sampleValueTags sampleIdTags
          [.setData (str "v2")] (str "k9")) =
      some { m_wdb := sampleIndex, written := []
             raised := some (.driver .BadArgumentDriverError) } :=
  updateDocument_missing_term sampleLayout sampleTextEngine sampleFieldTags
    sampleValueTags sampleIdTags { language := str "en" } sampleIndex
    [.setData (str "v2")] (str "k9") (by decide) (by decide) (by decide) (by decide)

/-! ## The capture and the replay of a row schema (C27) -/

theorem length_le_encodeEmitFields (O : TagTable fieldTypeOut) (fs : List EmitField) :
    fs.length ≤ (encodeEmitFields O fs).length := by
  induction fs with
  | nil => simp [encodeEmitFields]
  | cons f fs ih =>
    simp only [encodeEmitFields, List.length_cons, List.length_append]
    omega

theorem retrieveDocumentSchemaLoop_encoded (O : TagTable fieldTypeOut) (rest : List Nat) :
    ∀ fs : List EmitField, (∀ f ∈ fs, f.WellFormed) →
      ∀ fuel : Nat, fs.length < fuel →
        retrieveDocumentSchemaLoop O fuel (encodeEmitFields O fs ++ 0 :: rest) =
          some (.ok rest) := by
  intro fs
  induction fs with
  | nil =>
    intro _ fuel hfuel
    obtain ⟨f, rfl⟩ : ∃ f, fuel = f + 1 := ⟨fuel - 1, by omega⟩
    simp [retrieveDocumentSchemaLoop, encodeEmitFields, uint8_cons]
  | cons f fs ih =>
    intro hwf fuel hfuel
    obtain ⟨n, rfl⟩ : ∃ n, fuel = n + 1 := ⟨fuel - 1, by omega⟩
    have hn : fs.length < n := by
      simp only [List.length_cons] at hfuel; omega
    have hbyte : O.toByte f.tag % 256 = O.toByte f.tag :=
      Nat.mod_eq_of_lt (O.toByte_lt f.tag)
    have hne : ¬ O.toByte f.tag = 0 := Nat.pos_iff_ne_zero.mp (O.toByte_pos f.tag)
    have hf := hwf f (List.mem_cons_self _ _)
    have ih2 := ih (fun x hx => hwf x (List.mem_cons_of_mem _ hx)) n hn
    cases f with
    | value slot =>
      simp only [EmitField.tag] at hbyte hne
      simp only [encodeEmitFields, EmitField.fields, EmitField.tag, List.cons_append,
        List.append_assoc, retrieveDocumentSchemaLoop, uint8_cons, hbyte, if_neg hne,
        O.ofByte_toByte, uint32_put slot _ hf, ih2]
    | floatValue slot =>
      simp only [EmitField.tag] at hbyte hne
      simp only [encodeEmitFields, EmitField.fields, EmitField.tag, List.cons_append,
        List.append_assoc, retrieveDocumentSchemaLoop, uint8_cons, hbyte, if_neg hne,
        O.ofByte_toByte, uint32_put slot _ hf, ih2]
    | data =>
      simp only [EmitField.tag] at hbyte hne
      simp only [encodeEmitFields, EmitField.fields, EmitField.tag, List.cons_append,
        List.nil_append, retrieveDocumentSchemaLoop, uint8_cons, hbyte, if_neg hne,
        O.ofByte_toByte, ih2]
    | docid =>
      simp only [EmitField.tag] at hbyte hne
      simp only [encodeEmitFields, EmitField.fields, EmitField.tag, List.cons_append,
        List.nil_append, retrieveDocumentSchemaLoop, uint8_cons, hbyte, if_neg hne,
        O.ofByte_toByte, ih2]
    | weight =>
      simp only [EmitField.tag] at hbyte hne
      simp only [encodeEmitFields, EmitField.fields, EmitField.tag, List.cons_append,
        List.nil_append, retrieveDocumentSchemaLoop, uint8_cons, hbyte, if_neg hne,
        O.ofByte_toByte, ih2]
    | rank =>
      simp only [EmitField.tag] at hbyte hne
      simp only [encodeEmitFields, EmitField.fields, EmitField.tag, List.cons_append,
        List.nil_append, retrieveDocumentSchemaLoop, uint8_cons, hbyte, if_neg hne,
        O.ofByte_toByte, ih2]
    | percent =>
      simp only [EmitField.tag] at hbyte hne
      simp only [encodeEmitFields, EmitField.fields, EmitField.tag, List.cons_append,
        List.nil_append, retrieveDocumentSchemaLoop, uint8_cons, hbyte, if_neg hne,
        O.ofByte_toByte, ih2]
    | multiDocid =>
      simp only [EmitField.tag] at hbyte hne
      simp only [encodeEmitFields, EmitField.fields, EmitField.tag, List.cons_append,
        List.nil_append, retrieveDocumentSchemaLoop, uint8_cons, hbyte, if_neg hne,
        O.ofByte_toByte, ih2]
    | dbNumber =>
      simp only [EmitField.tag] at hbyte hne
      simp only [encodeEmitFields, EmitField.fields, EmitField.tag, List.cons_append,
        List.nil_append, retrieveDocumentSchemaLoop, uint8_cons, hbyte, if_neg hne,
        O.ofByte_toByte, ih2]

/-- The capture accepts every well-formed row schema, whatever its decoder
type, and returns exactly its bytes. -/
theorem retrieveDocumentSchema_encoded (O : TagTable fieldTypeOut)
    (D : CaseTable decoderType) (variant : decoderType) (fs : List EmitField)
    (rest : List Nat) (hwf : ∀ f ∈ fs, f.WellFormed) :
    retrieveDocumentSchema O (encodeRowSchema O D variant fs ++ rest) =
      some (.ok (encodeRowSchema O D variant fs, rest)) := by
  have hlen := length_le_encodeEmitFields O fs
  have hshape : encodeRowSchema O D variant fs ++ rest =
      D.toByte variant :: (encodeEmitFields O fs ++ 0 :: rest) := by
    simp [encodeRowSchema]
  have hfuel : fs.length < (encodeEmitFields O fs ++ 0 :: rest).length + 1 := by
    simp only [List.length_append, List.length_cons]; omega
  have hloop := retrieveDocumentSchemaLoop_encoded O rest fs hwf _ hfuel
  have htake : List.take
      ((D.toByte variant :: (encodeEmitFields O fs ++ 0 :: rest)).length - rest.length)
      (D.toByte variant :: (encodeEmitFields O fs ++ 0 :: rest)) =
        encodeRowSchema O D variant fs := by
    have h1 : D.toByte variant :: (encodeEmitFields O fs ++ 0 :: rest) =
        encodeRowSchema O D variant fs ++ rest := hshape.symm
    have h2 : (D.toByte variant :: (encodeEmitFields O fs ++ 0 :: rest)).length -
        rest.length = (encodeRowSchema O D variant fs).length := by
      simp only [encodeRowSchema, List.length_append, List.length_cons, List.length_nil]
      omega
    rw [h2, h1]
    exact List.take_left' rfl
  rw [hshape]
  simp only [retrieveDocumentSchema, uint8_cons, hloop, htake]

theorem retrieveDocumentField_encoded (R : RowLayout) (V : CaseTable valueType)
    (U : Str → List Nat) (variant : decoderType) (row : MSetRow) (f : EmitField)
    (hf : f.WellFormed) (tail : List Nat) :
    ∃ bytes, retrieveDocumentField R V U variant row f.tag (f.fields ++ tail) =
      .ok (bytes, tail) := by
  cases f with
  | value slot =>
    simp only [retrieveDocumentField, EmitField.tag, EmitField.fields,
      uint32_put slot tail hf]
    exact ⟨_, rfl⟩
  | floatValue slot =>
    simp only [retrieveDocumentField, EmitField.tag, EmitField.fields,
      uint32_put slot tail hf]
    exact ⟨_, rfl⟩
  | docid =>
    cases variant <;>
      (simp only [retrieveDocumentField, EmitField.tag, EmitField.fields, List.nil_append]
       exact ⟨_, rfl⟩)
  | data =>
    simp only [retrieveDocumentField, EmitField.tag, EmitField.fields, List.nil_append]
    exact ⟨_, rfl⟩
  | weight =>
    simp only [retrieveDocumentField, EmitField.tag, EmitField.fields, List.nil_append]
    exact ⟨_, rfl⟩
  | rank =>
    simp only [retrieveDocumentField, EmitField.tag, EmitField.fields, List.nil_append]
    exact ⟨_, rfl⟩
  | percent =>
    simp only [retrieveDocumentField, EmitField.tag, EmitField.fields, List.nil_append]
    exact ⟨_, rfl⟩
  | multiDocid =>
    simp only [retrieveDocumentField, EmitField.tag, EmitField.fields, List.nil_append]
    exact ⟨_, rfl⟩
  | dbNumber =>
    simp only [retrieveDocumentField, EmitField.tag, EmitField.fields, List.nil_append]
    exact ⟨_, rfl⟩

theorem retrieveDocumentLoop_encoded (R : RowLayout) (V : CaseTable valueType)
    (O : TagTable fieldTypeOut) (U : Str → List Nat) (variant : decoderType)
    (row : MSetRow) (rest : List Nat) :
    ∀ fs : List EmitField, (∀ f ∈ fs, f.WellFormed) →
      (∀ f ∈ fs, f.tag ∈ variant.cases) →
      ∀ fuel : Nat, fs.length < fuel →
        ∃ w, retrieveDocumentLoop R V O U variant row fuel
            (encodeEmitFields O fs ++ 0 :: rest) =
          some { written := w, raised := none, params := rest } := by
  intro fs
  induction fs with
  | nil =>
    intro _ _ fuel hfuel
    obtain ⟨f, rfl⟩ : ∃ f, fuel = f + 1 := ⟨fuel - 1, by omega⟩
    exact ⟨[], by simp [retrieveDocumentLoop, encodeEmitFields, uint8_cons]⟩
  | cons f fs ih =>
    intro hwf hsup fuel hfuel
    obtain ⟨n, rfl⟩ : ∃ n, fuel = n + 1 := ⟨fuel - 1, by omega⟩
    have hn : fs.length < n := by
      simp only [List.length_cons] at hfuel; omega
    have hbyte : O.toByte f.tag % 256 = O.toByte f.tag :=
      Nat.mod_eq_of_lt (O.toByte_lt f.tag)
    have hne : ¬ O.toByte f.tag = 0 := Nat.pos_iff_ne_zero.mp (O.toByte_pos f.tag)
    have hin : f.tag ∈ variant.cases := hsup f (List.mem_cons_self _ _)
    obtain ⟨bytes, hfield⟩ := retrieveDocumentField_encoded R V U variant row f
      (hwf f (List.mem_cons_self _ _)) (encodeEmitFields O fs ++ 0 :: rest)
    obtain ⟨w, hw⟩ := ih (fun x hx => hwf x (List.mem_cons_of_mem _ hx))
      (fun x hx => hsup x (List.mem_cons_of_mem _ hx)) n hn
    refine ⟨bytes ++ w, ?_⟩
    simp only [encodeEmitFields, List.cons_append, List.append_assoc,
      retrieveDocumentLoop, uint8_cons, hbyte, if_neg hne, O.ofByte_toByte, if_pos hin,
      hfield, hw]

theorem retrieveDocumentField_error (R : RowLayout) (V : CaseTable valueType)
    (U : Str → List Nat) (variant : decoderType) (row : MSetRow) (command : fieldTypeOut)
    (params : ParamDecoder) (e : Exception)
    (h : retrieveDocumentField R V U variant row command params = .error e) :
    e = .driver .Truncated := by
  cases command with
  | GET_VALUE =>
    simp only [retrieveDocumentField] at h
    cases h1 : ParamDecoder.uint32 params with
    | error e2 =>
      rw [h1] at h
      simp only [Except.error.injEq] at h
      rw [← h]; exact uint32_error h1
    | ok v => rw [h1] at h; simp at h
  | GET_FLOAT_VALUE =>
    simp only [retrieveDocumentField] at h
    cases h1 : ParamDecoder.uint32 params with
    | error e2 =>
      rw [h1] at h
      simp only [Except.error.injEq] at h
      rw [← h]; exact uint32_error h1
    | ok v => rw [h1] at h; simp at h
  | GET_DOCID => cases variant <;> simp [retrieveDocumentField] at h
  | GET_DATA => simp [retrieveDocumentField] at h
  | GET_WEIGHT => simp [retrieveDocumentField] at h
  | GET_RANK => simp [retrieveDocumentField] at h
  | GET_PERCENT => simp [retrieveDocumentField] at h
  | GET_MULTI_DOCID => simp [retrieveDocumentField] at h
  | GET_DB_NUMBER => simp [retrieveDocumentField] at h

/-- The loop of `retrieveDocument` never throws `BadArgumentDriverError`. -/
theorem retrieveDocumentLoop_raised (R : RowLayout) (V : CaseTable valueType)
    (O : TagTable fieldTypeOut) (U : Str → List Nat) (variant : decoderType)
    (row : MSetRow) :
    ∀ (fuel : Nat) (params : ParamDecoder) (r : Retrieved),
      retrieveDocumentLoop R V O U variant row fuel params = some r →
      r.raised ≠ some (.driver .BadArgumentDriverError) := by
  intro fuel
  induction fuel with
  | zero => intro params r h; simp [retrieveDocumentLoop] at h
  | succ fuel ih =>
    intro params r h
    simp only [retrieveDocumentLoop] at h
    cases h1 : ParamDecoder.uint8 params with
    | error e =>
      rw [h1] at h
      simp only [Option.some.injEq] at h
      rw [← h, uint8_error h1]
      simp
    | ok v =>
      obtain ⟨command, p1⟩ := v
      rw [h1] at h
      dsimp only at h
      by_cases hz : command = 0
      · simp only [hz, if_true, Option.some.injEq] at h
        rw [← h]; simp
      · simp only [hz, if_false] at h
        cases h2 : O.ofByte command with
        | none =>
          rw [h2] at h
          simp only [Option.some.injEq] at h
          rw [← h]; simp
        | some tag =>
          rw [h2] at h
          dsimp only at h
          by_cases hin : tag ∈ variant.cases
          · simp only [if_pos hin] at h
            cases h3 : retrieveDocumentField R V U variant row tag p1 with
            | error e =>
              rw [h3] at h
              simp only [Option.some.injEq] at h
              rw [← h, retrieveDocumentField_error R V U variant row tag p1 e h3]
              simp
            | ok v3 =>
              obtain ⟨bytes, p2⟩ := v3
              rw [h3] at h
              dsimp only at h
              cases h4 : retrieveDocumentLoop R V O U variant row fuel p2 with
              | none => rw [h4] at h; simp at h
              | some r2 =>
                rw [h4] at h
                simp only [Option.some.injEq] at h
                rw [← h]
                exact ih p2 r2 h4
          · simp only [if_neg hin, Option.some.injEq] at h
            rw [← h]; simp

/-- The replay never throws `BadArgumentDriverError`: the overload is chosen
by the byte that it compares with its own decoder type. -/
theorem selectEncoderAndRetrieveDocument_raised (R : RowLayout) (V : CaseTable valueType)
    (O : TagTable fieldTypeOut) (D : CaseTable decoderType) (U : Str → List Nat)
    (row : MSetRow) (params : ParamDecoder) (r : Retrieved)
    (h : selectEncoderAndRetrieveDocument R V O D U row params = some r) :
    r.raised ≠ some (.driver .BadArgumentDriverError) := by
  simp only [selectEncoderAndRetrieveDocument] at h
  cases h1 : ParamDecoder.uint8 params with
  | error e =>
    rw [h1] at h
    simp only [Option.some.injEq] at h
    rw [← h, uint8_error h1]
    simp
  | ok v =>
    obtain ⟨decoder_type, p1⟩ := v
    rw [h1] at h
    dsimp only at h
    cases h2 : D.ofByte decoder_type with
    | none =>
      rw [h2] at h
      simp only [Option.some.injEq] at h
      rw [← h]; simp
    | some variant =>
      rw [h2] at h
      have hsame : ¬ decoder_type ≠ D.toByte variant := by
        rw [D.toByte_ofByte decoder_type variant h2]; simp
      simp only [retrieveDocument, h1, if_neg hsame] at h
      exact retrieveDocumentLoop_raised R V O U variant row _ p1 r h

theorem mem_cases_DEC_BOTH (t : fieldTypeOut) : t ∈ decoderType.DEC_BOTH.cases := by
  cases t <;> decide

/-- C27, the code as written, with the sample tags (decoder types 0, 1, 2;
`GET_DATA` is 3, `GET_WEIGHT` is 5): the capture accepts the schema 99, 3, 0,
whose decoder type 99 is unknown, and the schema 0, 5, 0, which asks the
document overload for a weight; replaying the captured bytes throws
`BadCommand` for 99 and for 5. -/
theorem retrieveDocumentSchema_accepts_rejected :
    retrieveDocumentSchema sampleOutTags [99, 3, 0, 8] = some (.ok ([99, 3, 0], [8])) ∧
    selectEncoderAndRetrieveDocument sampleRowLayout sampleValueTags sampleOutTags
        sampleDecoderTags (fun s => s) sampleRow [99, 3, 0] =
      some { written := [], raised := some (.driver (.BadCommandDriverError 99))
             params := [99, 3, 0] } ∧
    retrieveDocumentSchema sampleOutTags [0, 5, 0, 8] = some (.ok ([0, 5, 0], [8])) ∧
    selectEncoderAndRetrieveDocument sampleRowLayout sampleValueTags sampleOutTags
        sampleDecoderTags (fun s => s) sampleRow [0, 5, 0] =
      some { written := [], raised := some (.driver (.BadCommandDriverError 5))
             params := [0] } := by
  decide

/-- C27, as the code has it: for a well-formed row schema whose decoder type
is `DEC_BOTH`, or whose commands are all case labels of the overload for its
decoder type, the capture returns exactly the bytes of the schema, and the
replay of these bytes ends without an exception, with every byte consumed;
and the replay of any bytes never throws `BadArgument`. -/
theorem retrieveDocumentSchema_replay (R : RowLayout) (V : CaseTable valueType)
    (O : TagTable fieldTypeOut) (D : CaseTable decoderType) (U : Str → List Nat)
    (row : MSetRow) (variant : decoderType) (fs : List EmitField) (rest : List Nat)
    (hwf : ∀ f ∈ fs, f.WellFormed)
    (hsup : variant = .DEC_BOTH ∨ ∀ f ∈ fs, f.tag ∈ variant.cases) :
    retrieveDocumentSchema O (encodeRowSchema O D variant fs ++ rest) =
        some (.ok (encodeRowSchema O D variant fs, rest)) ∧
      (∃ w, selectEncoderAndRetrieveDocument R V O D U row
          (encodeRowSchema O D variant fs) =
        some { written := w, raised := none, params := [] }) ∧
      ∀ (params : ParamDecoder) (r : Retrieved),
        selectEncoderAndRetrieveDocument R V O D U row params = some r →
        r.raised ≠ some (.driver .BadArgumentDriverError) := by
  refine ⟨retrieveDocumentSchema_encoded O D variant fs rest hwf, ?_,
    fun params r h => selectEncoderAndRetrieveDocument_raised R V O D U row params r h⟩
  have hcases : ∀ f ∈ fs, f.tag ∈ variant.cases := by
    rcases hsup with hboth | hall
    · intro f _
      rw [hboth]
      exact mem_cases_DEC_BOTH f.tag
    · exact hall
  have hbyte : D.toByte variant % 256 = D.toByte variant :=
    Nat.mod_eq_of_lt (D.toByte_lt variant)
  have hlen := length_le_encodeEmitFields O fs
  have hfuel : fs.length < (encodeEmitFields O fs ++ [0]).length + 1 := by
    simp only [List.length_append, List.length_cons, List.length_nil]; omega
  obtain ⟨w, hw⟩ := retrieveDocumentLoop_encoded R V O U variant row [] fs hwf hcases _
    hfuel
  refine ⟨w, ?_⟩
  have hsame : ¬ D.toByte variant ≠ D.toByte variant := by simp
  simp only [selectEncoderAndRetrieveDocument, encodeRowSchema, uint8_cons, hbyte,
    D.ofByte_toByte, retrieveDocument, if_neg hsame, hw]

/-- Witness for C27: the sample schema of decoder type `DEC_BOTH` asking for
slot 0, the data and the rank is captured as it stands, and its replay on the
sample row writes the three fields and consumes the schema. -/
theorem retrieveDocumentSchema_replay_witness :
    retrieveDocumentSchema sampleOutTags
        (encodeRowSchema sampleOutTags sampleDecoderTags .DEC_BOTH
          [.value 0, .data, .rank] ++ [8]) =
      some (.ok ([2, 1, 0, 0, 0, 0, 3, 6, 0], [8])) ∧
    selectEncoderAndRetrieveDocument sampleRowLayout sampleValueTags sampleOutTags
        sampleDecoderTags (fun s => s) sampleRow
        (encodeRowSchema sampleOutTags sampleDecoderTags .DEC_BOTH
          [.value 0, .data, .rank]) =
      some { written := [1, 2, 0, 0, 0, 52, 50, 1, 0, 0, 0, 120, 0, 0, 0, 0]
             raised := none, params := [] } :=
  have h := retrieveDocumentSchema_replay sampleRowLayout sampleValueTags sampleOutTags
    sampleDecoderTags (fun s => s) sampleRow .DEC_BOTH [.value 0, .data, .rank] [8]
    (by decide) (Or.inl rfl)
  ⟨h.1.trans (by decide), by decide⟩

end XapianErlang
